import Mathlib

/-!
Verification of the doubly-linked list implementation in src/list.c
(Collections-C fork).

The C code is shallowly embedded: the heap of list nodes is modelled as a
partial map from node identifiers (Nat) to node records, and every C function
is translated into a Lean function threading this memory explicitly.  A C
function that can dereference an invalid pointer (NULL or freed) is modelled
with an Option result, where the outer `none` marks the undefined behaviour
(crash); pointers themselves are values of type `Option Nat` with `none`
playing the role of NULL.

Modelling conventions, noted once here:
- `size_t` is modelled as Nat.  The only subtraction sites (`list->size--` in
  unlink, `list->size - 1` in dlist_iter_new and get_node_at) are reached by
  the verified operations only in states where the subtrahend is nonzero, so
  wraparound behaviour never matters for the claims.
- `calloc` for a single node is assumed to succeed: allocation-failure
  propagation is explicitly out of scope for the specification (spec section 1).
  The C code zero-initialises a fresh node and then stores the payload; the
  model allocates the node with the payload directly, with both links none,
  which is observationally the same.
- Reads that the C code performs again after an intervening write are re-read
  from the updated memory in the model whenever the written cell could alias
  the read cell.
-/

/-- One list node: payload plus the two neighbour links
(struct node_s in list.c). -/
structure NodeRec (α : Type) where
  data : α
  next : Option Nat
  prev : Option Nat
deriving Repr, DecidableEq

/-- The node heap: a partial map from node ids to nodes, plus the next fresh
id used by allocation. -/
structure Mem (α : Type) where
  heap : Nat → Option (NodeRec α)
  nextId : Nat

/-- The list header (struct dlist_s): size, head pointer, tail pointer. -/
structure ListS where
  size : Nat
  head : Option Nat
  tail : Option Nat
deriving Repr, DecidableEq

/-- Iterator state (struct dlist_iter_s / dlist_iter_desc_s): index, the last
returned node and the upcoming node.  The list itself is passed alongside. -/
structure IterS where
  index : Nat
  last : Option Nat
  next : Option Nat
deriving Repr, DecidableEq

/-- Read a node from the heap. -/
def Mem.get (m : Mem α) (i : Nat) : Option (NodeRec α) :=
  m.heap i

/-- Overwrite an (existing or not) heap cell. -/
def Mem.set (m : Mem α) (i : Nat) (nd : NodeRec α) : Mem α :=
  { m with heap := fun j => if j = i then some nd else m.heap j }

/-- Write the next field of node i (node->next = v); crashes (none) if the
node is not allocated. -/
def Mem.setNext (m : Mem α) (i : Nat) (v : Option Nat) : Option (Mem α) :=
  (m.get i).map fun nd => m.set i { nd with next := v }

/-- Write the prev field of node i (node->prev = v). -/
def Mem.setPrev (m : Mem α) (i : Nat) (v : Option Nat) : Option (Mem α) :=
  (m.get i).map fun nd => m.set i { nd with prev := v }

/-- Read the next field of node i (node->next). -/
def Mem.getNext (m : Mem α) (i : Nat) : Option (Option Nat) :=
  (m.get i).map NodeRec.next

/-- Read the prev field of node i (node->prev). -/
def Mem.getPrev (m : Mem α) (i : Nat) : Option (Option Nat) :=
  (m.get i).map NodeRec.prev

/-- Read the data field of node i (node->data). -/
def Mem.getData (m : Mem α) (i : Nat) : Option α :=
  (m.get i).map NodeRec.data

/-- Allocate a fresh node holding d with both links NULL (calloc followed by
the data store; see the conventions above). -/
def Mem.alloc (m : Mem α) (d : α) : Mem α × Nat :=
  ({ heap := fun j => if j = m.nextId then some ⟨d, none, none⟩ else m.heap j,
     nextId := m.nextId + 1 }, m.nextId)

/-- Release a node (free(node)); the cell becomes unallocated. -/
def Mem.free (m : Mem α) (i : Nat) : Mem α :=
  { m with heap := fun j => if j = i then none else m.heap j }

/-- Total read of the data field with a default, used to phrase element
sequences. -/
def mdata [Inhabited α] (m : Mem α) (i : Nat) : α :=
  ((m.heap i).map NodeRec.data).getD default

/-- Element sequence of a node id sequence. -/
def dataList [Inhabited α] (m : Mem α) (ids : List Nat) : List α :=
  ids.map (mdata m)

/-- Pointer value standing before a list of ids: the first id if any,
otherwise the given fallback. -/
def headN (ids : List Nat) (q : Option Nat) : Option Nat :=
  match ids with
  | [] => q
  | i :: _ => some i

/-- Pointer value standing after a list of ids: the last id if any, otherwise
the given fallback. -/
def lastN (p : Option Nat) (ids : List Nat) : Option Nat :=
  match ids.getLast? with
  | none => p
  | some i => some i

/-- Node i is allocated with exactly the given prev and next links. -/
def hasLinks (m : Mem α) (i : Nat) (p q : Option Nat) : Prop :=
  (m.heap i).map NodeRec.prev = some p ∧ (m.heap i).map NodeRec.next = some q

instance (m : Mem α) (i : Nat) (p q : Option Nat) : Decidable (hasLinks m i p q) :=
  inferInstanceAs (Decidable (_ ∧ _))

/-- The ids form a doubly-linked chain segment in memory: consecutive nodes
point at each other, the first points back at p and the last forward at q. -/
def seg (m : Mem α) (p : Option Nat) (ids : List Nat) (q : Option Nat) : Prop :=
  match ids with
  | [] => True
  | i :: rest => hasLinks m i p (headN rest q) ∧ seg m (some i) rest q

def segDecAux (m : Mem α) : (pp : Option Nat) → (ids : List Nat) → (qq : Option Nat) →
    Decidable (seg m pp ids qq)
  | _, [], _ => isTrue trivial
  | _pp, i :: rest, q =>
      haveI := segDecAux m (some i) rest q
      inferInstanceAs (Decidable (_ ∧ _))

instance (m : Mem α) (p : Option Nat) (ids : List Nat) (q : Option Nat) :
    Decidable (seg m p ids q) := segDecAux m p ids q

/-- Well-formedness of a list header: its node ids form a full chain, the
header fields agree with the chain, the ids are distinct and below the
allocation frontier.  This is the structural invariant of the specification:
adjacent nodes are mutually linked, the head has no prev, the tail has no
next, and size counts the nodes reachable from the head. -/
def wf (m : Mem α) (l : ListS) (ids : List Nat) : Prop :=
  seg m none ids none ∧ l.head = ids.head? ∧ l.tail = ids.getLast? ∧
    l.size = ids.length ∧ ids.Nodup ∧ ∀ i ∈ ids, i < m.nextId

instance (m : Mem α) (l : ListS) (ids : List Nat) : Decidable (wf m l ids) :=
  inferInstanceAs (Decidable (_ ∧ _ ∧ _ ∧ _ ∧ _ ∧ _))

/-! Pointer walks.  The C pattern `for (i = 0; i < k; i++) node = node->next`
dereferences the pointer k times; the model returns the outer none on a NULL
or dangling dereference and otherwise the final pointer value. -/

/-- Follow next k times from the given pointer. -/
def walkNext (m : Mem α) : Option Nat → Nat → Option (Option Nat)
  | p, 0 => some p
  | none, _ + 1 => none
  | some i, k + 1 =>
    match m.heap i with
    | none => none
    | some nd => walkNext m nd.next k

/-- Follow prev k times from the given pointer. -/
def walkPrev (m : Mem α) : Option Nat → Nat → Option (Option Nat)
  | p, 0 => some p
  | none, _ + 1 => none
  | some i, k + 1 =>
    match m.heap i with
    | none => none
    | some nd => walkPrev m nd.prev k

/-- get_node_at (list.c:1288): bidirectional nearest-end traversal.  Returns
NULL when the index is out of range; walks forward from the head when
index < size / 2 and otherwise backward from the tail. -/
def get_node_at (m : Mem α) (l : ListS) (index : Nat) : Option (Option Nat) :=
  if index ≥ l.size then some none
  else if index < l.size / 2 then walkNext m l.head index
  else walkPrev m l.tail (l.size - 1 - index)

/-- link_behind (list.c:1122): unlink ins from wherever it is and place it
immediately before base.  Every C statement is rendered in order; in the
second branch the value written into ins->prev (the old base->prev, a real
node) is used directly for the write ins->prev->next = ins, exactly as the C
reads it back. -/
def link_behind (m0 : Mem α) (base ins : Nat) : Option (Mem α) := do
  let n1 ← m0.getNext ins
  let p1 ← m0.getPrev ins
  let m1 ← match n1 with
    | some j => m0.setPrev j p1
    | none => pure m0
  let p2 ← m1.getPrev ins
  let n2 ← m1.getNext ins
  let m2 ← match p2 with
    | some j => m1.setNext j n2
    | none => pure m1
  let bp ← m2.getPrev base
  match bp with
  | none => do
      let m3 ← m2.setPrev ins none
      let m4 ← m3.setNext ins (some base)
      m4.setPrev base (some ins)
  | some b => do
      let m3 ← m2.setPrev ins (some b)
      let m4 ← m3.setNext b (some ins)
      let m5 ← m4.setNext ins (some base)
      m5.setPrev base (some ins)

/-- link_after (list.c:1144): unlink ins and place it immediately after
base. -/
def link_after (m0 : Mem α) (base ins : Nat) : Option (Mem α) := do
  let n1 ← m0.getNext ins
  let p1 ← m0.getPrev ins
  let m1 ← match n1 with
    | some j => m0.setPrev j p1
    | none => pure m0
  let p2 ← m1.getPrev ins
  let n2 ← m1.getNext ins
  let m2 ← match p2 with
    | some j => m1.setNext j n2
    | none => pure m1
  let bn ← m2.getNext base
  match bn with
  | none => do
      let m3 ← m2.setPrev ins (some base)
      let m4 ← m3.setNext base (some ins)
      m4.setNext ins none
  | some b => do
      let m3 ← m2.setNext ins (some b)
      let m4 ← m3.setPrev b (some ins)
      let m5 ← m4.setPrev ins (some base)
      m5.setNext base (some ins)

/-- unlink (list.c:1247): bridge the neighbours of node, fix head and tail,
free the node and decrement size; returns the data. -/
def unlink (m0 : Mem α) (l : ListS) (node : Nat) : Option (Mem α × ListS × α) := do
  let nd0 ← m0.get node
  let data := nd0.data
  let m1 ← match nd0.prev with
    | some j => m0.setNext j nd0.next
    | none => pure m0
  let nd1 ← m1.get node
  let l1 := if nd1.prev = none then { l with head := nd1.next } else l
  let l2 := if nd1.next = none then { l1 with tail := nd1.prev } else l1
  let m2 ← match nd1.next with
    | some j => m1.setPrev j nd1.prev
    | none => pure m1
  pure (m2.free node, { l2 with size := l2.size - 1 }, data)

/-- swap_adjacent (list.c:1204). -/
def swap_adjacent (m0 : Mem α) (n1 n2 : Nat) : Option (Mem α) := do
  let a0 ← m0.get n1
  if a0.next = some n2 then do
    let b0 ← m0.get n2
    let m1 ← match b0.next with
      | some j => m0.setPrev j n1
      | none => pure m0
    let b1 ← m1.get n2
    let m2 ← m1.setNext n1 b1.next
    let a2 ← m2.get n1
    let m3 ← match a2.prev with
      | some j => m2.setNext j n2
      | none => pure m2
    let a3 ← m3.get n1
    let m4 ← m3.setPrev n2 a3.prev
    let m5 ← m4.setPrev n1 (some n2)
    m5.setNext n2 (some n1)
  else do
    let b0 ← m0.get n2
    if b0.next = some n1 then do
      let a1 ← m0.get n1
      let m1 ← match a1.next with
        | some j => m0.setPrev j n2
        | none => pure m0
      let a2 ← m1.get n1
      let m2 ← m1.setNext n2 a2.next
      let b2 ← m2.get n2
      let m3 ← match b2.prev with
        | some j => m2.setNext j n1
        | none => pure m2
      let b3 ← m3.get n2
      let m4 ← m3.setPrev n1 b3.prev
      let m5 ← m4.setPrev n2 (some n1)
      m5.setNext n1 (some n2)
    else
      pure m0

/-- swap (list.c:1167): exchange two arbitrary nodes, delegating to
swap_adjacent when they are neighbours.  The four neighbour pointers are read
up front into locals, as in the C. -/
def swap (m : Mem α) (n1 n2 : Nat) : Option (Mem α) := do
  let x1 ← m.get n1
  let x2 ← m.get n2
  if x1.next = some n2 ∨ x2.next = some n1 then
    swap_adjacent m n1 n2
  else do
    let n1l := x1.prev
    let n1r := x1.next
    let n2l := x2.prev
    let n2r := x2.next
    let ma ← match n1l with
      | some j => m.setNext j n2
      | none => pure m
    let mb ← ma.setPrev n2 n1l
    let mc ← match n1r with
      | some j => mb.setPrev j n2
      | none => pure mb
    let md ← mc.setNext n2 n1r
    let me ← match n2l with
      | some j => md.setNext j n1
      | none => pure md
    let mf ← me.setPrev n1 n2l
    let mg ← match n2r with
      | some j => mf.setPrev j n1
      | none => pure mf
    mg.setNext n1 n2r

/-! List operations. -/

/-- list_add_at (list.c:140): resolve the index, allocate, link behind the
resolved node, fix the head at index 0, bump the size.  On an out-of-range
index the fresh node has already been allocated (and is leaked), and false is
returned with the list untouched. -/
def list_add_at (m : Mem α) (l : ListS) (element : α) (index : Nat) :
    Option (Mem α × ListS × Bool) := do
  let node ← get_node_at m l index
  let (m1, ins) := m.alloc element
  match node with
  | none => some (m1, l, false)
  | some nodeId => do
      let m2 ← link_behind m1 nodeId ins
      let l1 := if index = 0 then { l with head := some ins } else l
      some (m2, { l1 with size := l1.size + 1 }, true)

/-- list_add_first (list.c:253). -/
def list_add_first (m : Mem α) (l : ListS) (element : α) :
    Option (Mem α × ListS × Bool) :=
  let (m1, node) := m.alloc element
  if l.size = 0 then
    some (m1, { l with head := some node, tail := some node, size := l.size + 1 }, true)
  else
    match l.head with
    | none => none
    | some h => do
        let m2 ← m1.setNext node l.head
        let m3 ← m2.setPrev h (some node)
        some (m3, { l with head := some node, size := l.size + 1 }, true)

/-- list_add_last (list.c:283). -/
def list_add_last (m : Mem α) (l : ListS) (element : α) :
    Option (Mem α × ListS × Bool) :=
  let (m1, node) := m.alloc element
  if l.size = 0 then
    some (m1, { l with head := some node, tail := some node, size := l.size + 1 }, true)
  else
    match l.tail with
    | none => none
    | some t => do
        let m2 ← m1.setPrev node l.tail
        let m3 ← m2.setNext t (some node)
        some (m3, { l with tail := some node, size := l.size + 1 }, true)

/-- list_add (list.c:122): append. -/
def list_add (m : Mem α) (l : ListS) (element : α) : Option (Mem α × ListS × Bool) :=
  list_add_last m l element

/-- copy loop of list_add_all_at (list.c:195-219): make fresh copies of the
count nodes starting at insert, chained together off-list.  Returns the new
head and tail and the final insert pointer. -/
def copy_chain (m : Mem α) (insert headId tailId : Option Nat) :
    Nat → Option (Mem α × Option Nat × Option Nat × Option Nat)
  | 0 => some (m, headId, tailId, insert)
  | k + 1 => do
      let ins ← insert
      let nd ← m.get ins
      let (m1, newId) := m.alloc nd.data
      match headId with
      | none => copy_chain m1 nd.next (some newId) (some newId) k
      | some _ => do
          let t ← tailId
          let m2 ← m1.setNext t (some newId)
          let m3 ← m2.setPrev newId (some t)
          copy_chain m3 nd.next headId (some newId) k

/-- list_add_all_at (list.c:181): bulk copy of list2 into list1 before the
given index.  Rejects an empty list2 and any index not strictly below the
size of list1 before doing anything. -/
def list_add_all_at (m : Mem α) (l1 l2 : ListS) (index : Nat) :
    Option (Mem α × ListS × Bool) :=
  if l2.size = 0 then some (m, l1, false)
  else if index ≥ l1.size then some (m, l1, false)
  else do
    let (m3, headId, tailId, _) ← copy_chain m l2.head none none l2.size
    let endN ← if index < l1.size then get_node_at m3 l1 index else pure none
    let base ← if 0 < index then
        match endN with
        | none => none
        | some e => (m3.get e).map fun nd => nd.prev
      else pure none
    match endN with
    | none => do
        let t ← l1.tail
        let h ← headId
        let m4 ← m3.setNext t headId
        let m5 ← m4.setPrev h l1.tail
        some (m5, { l1 with tail := tailId, size := l1.size + l2.size }, true)
    | some e =>
        match base with
        | none => do
            let h ← l1.head
            let tl ← tailId
            let m4 ← m3.setPrev h tailId
            let m5 ← m4.setNext tl l1.head
            some (m5, { l1 with head := headId, size := l1.size + l2.size }, true)
        | some b => do
            let h ← headId
            let tl ← tailId
            let m4 ← m3.setPrev h (some b)
            let m5 ← m4.setNext b headId
            let m6 ← m5.setNext tl (some e)
            let m7 ← m6.setPrev e tailId
            some (m7, { l1 with size := l1.size + l2.size }, true)

/-- list_add_all (list.c:167): delegates to list_add_all_at at index
list1->size. -/
def list_add_all (m : Mem α) (l1 l2 : ListS) : Option (Mem α × ListS × Bool) :=
  list_add_all_at m l1 l2 l1.size

/-- splice_between (list.c:378): no-op success on an empty donor; otherwise
wire left->next and right->prev (or head/tail) at the donor chain and empty
the donor header.  Note that the C never writes l2->head->prev nor
l2->tail->next. -/
def splice_between (m : Mem α) (l1 l2 : ListS) (left right : Option Nat) :
    Option (Mem α × ListS × ListS × Bool) :=
  if l2.size = 0 then some (m, l1, l2, true)
  else do
    let (m1, l1a) ← match left with
      | some lf => (m.setNext lf l2.head).map fun mm => (mm, l1)
      | none => some (m, { l1 with head := l2.head })
    let (m2, l1b) ← match right with
      | some rt => (m1.setPrev rt l2.tail).map fun mm => (mm, l1a)
      | none => some (m1, { l1a with tail := l2.tail })
    some (m2, { l1b with size := l1b.size + l2.size }, ⟨0, none, none⟩, true)

/-- list_splice (list.c:314): append variant.  The C evaluates
list1->tail->next as an argument, a NULL dereference when list1 is empty. -/
def list_splice (m : Mem α) (l1 l2 : ListS) : Option (Mem α × ListS × ListS × Bool) :=
  match l1.tail with
  | none => none
  | some t => do
      let tn ← m.getNext t
      splice_between m l1 l2 (some t) tn

/-- list_splice_before (list.c:331). -/
def list_splice_before (m : Mem α) (l1 l2 : ListS) (index : Nat) :
    Option (Mem α × ListS × ListS × Bool) := do
  let newTail ← get_node_at m l1 index
  match newTail with
  | none => some (m, l1, l2, false)
  | some nt => do
      let newHead ← m.getPrev nt
      splice_between m l1 l2 newHead (some nt)

/-- list_splice_after (list.c:355). -/
def list_splice_after (m : Mem α) (l1 l2 : ListS) (index : Nat) :
    Option (Mem α × ListS × ListS × Bool) := do
  let newHead ← get_node_at m l1 index
  match newHead with
  | none => some (m, l1, l2, false)
  | some nh => do
      let newTail ← m.getNext nh
      splice_between m l1 l2 (some nh) newTail

/-- list_remove_at (list.c:432). -/
def list_remove_at (m : Mem α) (l : ListS) (index : Nat) :
    Option (Mem α × ListS × Option α) := do
  let node ← get_node_at m l index
  match node with
  | none => some (m, l, none)
  | some n => (unlink m l n).map fun r => (r.1, r.2.1, some r.2.2)

/-- list_remove_first (list.c:449). -/
def list_remove_first (m : Mem α) (l : ListS) : Option (Mem α × ListS × Option α) :=
  if l.size = 0 then some (m, l, none)
  else
    match l.head with
    | none => none
    | some h => (unlink m l h).map fun r => (r.1, r.2.1, some r.2.2)

/-- list_remove_last (list.c:464). -/
def list_remove_last (m : Mem α) (l : ListS) : Option (Mem α × ListS × Option α) :=
  if l.size = 0 then some (m, l, none)
  else
    match l.tail with
    | none => none
    | some t => (unlink m l t).map fun r => (r.1, r.2.1, some r.2.2)

/-- list_get (list.c:565). -/
def list_get (m : Mem α) (l : ListS) (index : Nat) : Option (Option α) := do
  let node ← get_node_at m l index
  match node with
  | none => some none
  | some n => (m.getData n).map some

/-- list_get_first (list.c:531). -/
def list_get_first (m : Mem α) (l : ListS) : Option (Option α) :=
  if l.size = 0 then some none
  else
    match l.head with
    | none => none
    | some h => (m.getData h).map some

/-- list_get_last (list.c:547). -/
def list_get_last (m : Mem α) (l : ListS) : Option (Option α) :=
  if l.size = 0 then some none
  else
    match l.tail with
    | none => none
    | some t => (m.getData t).map some

/-- Loop of list_reverse (list.c:591-599): runs size / 2 times; each round
caches left->next and right->prev, swaps left with right and steps both
pointers inward. -/
def reverseLoop (m : Mem α) : Option Nat → Option Nat → Nat → Option (Mem α)
  | _, _, 0 => some m
  | some lf, some rt, k + 1 => do
      let tmpl ← m.getNext lf
      let tmpr ← m.getPrev rt
      let m1 ← swap m lf rt
      reverseLoop m1 tmpl tmpr k
  | _, _, _ + 1 => none

/-- list_reverse (list.c:582): pairwise swaps from both ends inward, then
exchange the head and tail fields. -/
def list_reverse (m : Mem α) (l : ListS) : Option (Mem α × ListS) := do
  let m1 ← reverseLoop m l.head l.tail (l.size / 2)
  pure (m1, { l with head := l.tail, tail := l.head })

/-! The merge sort (list.c:760-888). -/

/-- Loop body state of merge: the loop for i in [0, size) with its early
exits, carried as structural recursion on the remaining iterations
(fuel = size - i, exactly the C loop bound). -/
def mergeLoop (cmp : α → α → Int) (l_size r_size : Nat) :
    Nat → Nat → Nat → Nat → Mem α → Option Nat → Option Nat →
    Option Nat → Option Nat → Option (Mem α × Option Nat × Option Nat)
  | 0, _, _, _, m, _, _, left, right => some (m, left, right)
  | fuel + 1, i, l, r, m, lp, rp, left, right => do
      let lpId ← lp
      let rpId ← rp
      let lnd ← m.get lpId
      let rnd ← m.get rpId
      let c := cmp lnd.data rnd.data
      if c = -1 ∨ c = 0 then
        if i = 0 ∧ l_size + r_size = 2 then some (m, left, right)
        else if l = l_size then do
          let rp1 ← walkNext m rp (r_size - 1 - r)
          some (m, left, rp1)
        else do
          let lnext ← m.getNext lpId
          mergeLoop cmp l_size r_size fuel (i + 1) (l + 1) r m lnext rp left right
      else do
        let tmp := rnd.next
        let m1 ← link_behind m lpId rpId
        if i = 0 ∧ l_size + r_size = 2 then some (m1, rp, lp)
        else if r + 1 = r_size then do
          let lp1 ← walkNext m1 lp (l_size - 1 - l)
          some (m1, left, lp1)
        else
          mergeLoop cmp l_size r_size fuel (i + 1) l (r + 1) m1 lp tmp
            (if i = 0 then rp else left) right

/-- merge (list.c:830): stable in-place stitch of the two partitions; returns
the new head and tail of the merged section through the left and right
output parameters. -/
def merge (m : Mem α) (left right : Option Nat) (l_size r_size : Nat)
    (cmp : α → α → Int) : Option (Mem α × Option Nat × Option Nat) :=
  mergeLoop cmp l_size r_size (l_size + r_size) 0 0 0 m left right left right

/-- split (list.c:786): top-down recursion on (head node, length); the
extra fuel argument only makes the recursion structural and is always called
with fuel at least the section length, in which case it is never exhausted. -/
def split (cmp : α → α → Int) :
    Nat → Mem α → ListS → Option Nat → Nat → Option (Mem α × ListS × Option Nat)
  | 0, m, l, b, size =>
    if size < 2 then some (m, l, b) else none
  | fuel + 1, m, l, b, size =>
    if size < 2 then some (m, l, b)
    else do
      let l_size := size / 2
      let r_size := size / 2 + size % 2
      let center ← walkNext m b l_size
      let (m1, li1, l_head) ← split cmp fuel m l b l_size
      let (m2, li2, r_head) ← split cmp fuel m1 li1 center r_size
      let (m3, lh, rh) ← merge m2 l_head r_head l_size r_size cmp
      some (m3, { li2 with head := lh, tail := rh }, lh)

/-- list_sort (list.c:771): sort the whole list in place. -/
def list_sort (m : Mem α) (l : ListS) (cmp : α → α → Int) : Option (Mem α × ListS) :=
  (split cmp l.size m l l.head l.size).map fun r => (r.1, r.2.1)

/-! Iterators (list.c:907-1117). -/

/-- list_iter_new (list.c:907). -/
def list_iter_new (l : ListS) : IterS :=
  ⟨0, none, l.head⟩

/-- list_iter_next (list.c:1022): yields the upcoming element and advances. -/
def list_iter_next (m : Mem α) (it : IterS) : Option (IterS × α) := do
  let nid ← it.next
  let nd ← m.get nid
  some (⟨it.index + 1, some nid, nd.next⟩, nd.data)

/-- list_iter_has_next (list.c:997). -/
def list_iter_has_next (it : IterS) : Bool :=
  it.next != none

/-- list_iter_add (list.c:961): link a fresh node behind the upcoming node,
bump size and index, and set last to the new node. -/
def list_iter_add (m : Mem α) (l : ListS) (it : IterS) (element : α) :
    Option (Mem α × ListS × IterS × Bool) := do
  let (m1, newNode) := m.alloc element
  let nid ← it.next
  let m2 ← link_behind m1 nid newNode
  some (m2, { l with size := l.size + 1 },
    { it with index := it.index + 1, last := some newNode }, true)

/-- list_iter_remove (list.c:941): unlink the last returned node, if any. -/
def list_iter_remove (m : Mem α) (l : ListS) (it : IterS) :
    Option (Mem α × ListS × IterS × Option α) :=
  match it.last with
  | none => some (m, l, it, none)
  | some lastId => (unlink m l lastId).map fun r =>
      (r.1, r.2.1, { it with last := none }, some r.2.2)

/-- list_diter_new (list.c:1040): descending iterator; starts at the tail
with index list->size - 1 (truncated at zero in the model, see the size_t
note above). -/
def list_diter_new (l : ListS) : IterS :=
  ⟨l.size - 1, none, l.tail⟩

/-- list_diter_next (list.c:1110). -/
def list_diter_next (m : Mem α) (it : IterS) : Option (IterS × α) := do
  let nid ← it.next
  let nd ← m.get nid
  some (⟨it.index + 1, some nid, nd.prev⟩, nd.data)

/-- list_diter_add (list.c:1060): link a fresh node after the upcoming node,
bump size, set last to the new node; the index is not changed. -/
def list_diter_add (m : Mem α) (l : ListS) (it : IterS) (element : α) :
    Option (Mem α × ListS × IterS × Bool) := do
  let (m1, newNode) := m.alloc element
  let nid ← it.next
  let m2 ← link_after m1 nid newNode
  some (m2, { l with size := l.size + 1 }, { it with last := some newNode }, true)

/-- list_diter_remove (list.c:1074). -/
def list_diter_remove (m : Mem α) (l : ListS) (it : IterS) :
    Option (Mem α × ListS × IterS × Option α) :=
  match it.last with
  | none => some (m, l, it, none)
  | some lastId => (unlink m l lastId).map fun r =>
      (r.1, r.2.1, { it with last := none }, some r.2.2)

/-- Forward data walk with fuel, used to exhibit the element sequence
reachable from a pointer by following next links. -/
def fwdData [Inhabited α] (m : Mem α) : Option Nat → Nat → List α
  | none, _ => []
  | some _, 0 => []
  | some i, k + 1 =>
    match m.heap i with
    | none => []
    | some nd => nd.data :: fwdData m nd.next k

/-! Concrete states used by the closed evaluation theorems below. -/

/-- Empty memory. -/
def memEmpty : Mem Int := ⟨fun _ => none, 0⟩

/-- The empty list header. -/
def listEmpty : ListS := ⟨0, none, none⟩

/-- Memory holding two singleton lists, [1] at node 0 and [2] at node 1. -/
def splMem : Mem Int :=
  ⟨fun i => if i = 0 then some ⟨1, none, none⟩
    else if i = 1 then some ⟨2, none, none⟩ else none, 2⟩

def splL1 : ListS := ⟨1, some 0, some 0⟩

def splL2 : ListS := ⟨1, some 1, some 1⟩

/-- Memory holding the list [1, 2] (nodes 0 and 1) and the singleton [9]
(node 2). -/
def spbMem : Mem Int :=
  ⟨fun i => if i = 0 then some ⟨1, some 1, none⟩
    else if i = 1 then some ⟨2, none, some 0⟩
    else if i = 2 then some ⟨9, none, none⟩ else none, 3⟩

def spbL1 : ListS := ⟨2, some 0, some 1⟩

def spbL2 : ListS := ⟨1, some 2, some 2⟩

/-- Memory holding the singleton list [10] at node 0. -/
def one10Mem : Mem Int := ⟨fun i => if i = 0 then some ⟨10, none, none⟩ else none, 1⟩

def one10L : ListS := ⟨1, some 0, some 0⟩

/-- Memory holding the singleton list [5] at node 0. -/
def one5Mem : Mem Int := ⟨fun i => if i = 0 then some ⟨5, none, none⟩ else none, 1⟩

def one5L : ListS := ⟨1, some 0, some 0⟩

/-- Memory holding the list [1, 2] at nodes 0 and 1. -/
def two12Mem : Mem Int :=
  ⟨fun i => if i = 0 then some ⟨1, some 1, none⟩
    else if i = 1 then some ⟨2, none, some 0⟩ else none, 2⟩

def two12L : ListS := ⟨2, some 0, some 1⟩

/-- Memory holding the list [10, 20] at nodes 0 and 1. -/
def two1020Mem : Mem Int :=
  ⟨fun i => if i = 0 then some ⟨10, some 1, none⟩
    else if i = 1 then some ⟨20, none, some 0⟩ else none, 2⟩

def two1020L : ListS := ⟨2, some 0, some 1⟩

/-- The contract of a three-way comparator (documented at list.c:764-769):
range exactly {-1, 0, 1}, antisymmetry under flipping, and transitivity of
the "not greater" relation. -/
def CmpLaws (cmp : α → α → Int) : Prop :=
  (∀ x y, cmp x y = -1 ∨ cmp x y = 0 ∨ cmp x y = 1) ∧
  (∀ x y, cmp y x = - cmp x y) ∧
  (∀ x y z, cmp x y ≤ 0 → cmp y z ≤ 0 → cmp x z ≤ 0)

/-- The boolean "left element goes first" test of the merge step
(list.c:844), lifted to node ids through a data assignment. -/
def cmpLe (cmp : α → α → Int) (key : Nat → α) (i j : Nat) : Bool :=
  cmp (key i) (key j) == -1 || cmp (key i) (key j) == 0

def sortIds (cmp : α → α → Int) (key : Nat → α) : Nat → List Nat → List Nat
  | 0, ids => ids
  | fuel + 1, ids =>
    if ids.length < 2 then ids
    else (sortIds cmp key fuel (ids.take (ids.length / 2))).merge
      (sortIds cmp key fuel (ids.drop (ids.length / 2))) (cmpLe cmp key)

/-- Memory holding the list [3, 1, 2] at nodes 0, 1 and 2. -/
def three312Mem : Mem Int :=
  ⟨fun i => if i = 0 then some ⟨3, some 1, none⟩
    else if i = 1 then some ⟨1, some 2, some 0⟩
    else if i = 2 then some ⟨2, none, some 1⟩ else none, 3⟩

def three312L : ListS := ⟨3, some 0, some 2⟩

/-- The ascending numeric comparator with range exactly -1, 0, 1. -/
def cmpInt (a b : Int) : Int :=
  if a < b then -1 else if a = b then 0 else 1

def key312 : Nat → Int := fun j => if j = 0 then 3 else if j = 1 then 1 else 2

/-- C4: for every memory and every pair of list headers, list_add_all returns
false and changes nothing: it delegates to list_add_all_at at index
list1.size, and both guards of list_add_all_at (empty donor, index not below
list1.size) return false before any allocation or mutation. -/
theorem list_add_all_always_fails (m : Mem α) (l1 l2 : ListS) :
    list_add_all m l1 l2 = some (m, l1, false) := by
  unfold list_add_all list_add_all_at
  rcases Nat.eq_zero_or_pos l2.size with h | h
  · simp [h]
  · simp [Nat.pos_iff_ne_zero.mp h, le_refl]

/-- Witness for C4 at a concrete input. -/
theorem list_add_all_always_fails_witness :
    list_add_all splMem splL1 splL2 = some (splMem, splL1, false) :=
  list_add_all_always_fails splMem splL1 splL2

/-- C1: the public operations do not all preserve the doubly-linked
invariant.  First conjunct: splicing [2] onto [1] succeeds and leaves
node 0 with next = node 1 while node 1 keeps prev = NULL, so adjacent nodes
A, B with A.next == B and B.prev ≠ A, and two nodes have prev == none.
Second conjunct: list_iter_add on a fresh forward cursor of [10] links the
new node 1 in front of the head without updating list->head: afterwards the
head field still names node 0, whose prev is node 1 and whose next is NULL,
so the head has a predecessor and only one node is reachable from the head
although size is 2.  Third conjunct: list_splice dereferences the NULL tail
of an empty receiver and crashes. -/
theorem splice_and_iter_add_break_invariant :
    (list_splice splMem splL1 splL2).map
        (fun r => (r.2.1, (r.1.heap 0).map NodeRec.next,
          (r.1.heap 1).map NodeRec.prev, r.2.2.2)) =
      some (⟨2, some 0, some 1⟩, some (some 1), some none, true) ∧
    (list_iter_add one10Mem one10L (list_iter_new one10L) 20).map
        (fun r => (r.2.1, (r.1.heap 0).map NodeRec.prev,
          (r.1.heap 0).map NodeRec.next, r.2.2.2)) =
      some (⟨2, some 0, some 0⟩, some (some 1), some none, true) ∧
    list_splice memEmpty listEmpty ⟨1, some 5, some 5⟩ = none := by
  refine ⟨by decide, by decide, rfl⟩

/-- C2: splicing [9] into [1, 2] before index 1 reports success and size 3,
but the forward chain from the head is [1, 9]: the donor tail keeps
next == NULL, so the original second element is no longer reachable. -/
theorem splice_before_loses_nodes :
    (list_splice_before spbMem spbL1 spbL2 1).map
        (fun r => (r.2.1.size, fwdData r.1 r.2.1.head 4, r.2.2.1, r.2.2.2)) =
      some (3, [1, 9], ⟨0, none, none⟩, true) := by
  decide

/-- C6: splicing an empty donor is claimed to be a benign no-op for every
receiver, including the empty one; but list_splice evaluates
list1->tail->next, a NULL dereference, whenever list1 is empty (first
conjunct).  For a nonempty receiver the no-op succeeds (second conjunct). -/
theorem splice_empty_crashes_on_empty_receiver :
    list_splice memEmpty listEmpty listEmpty = none ∧
    (list_splice one5Mem one5L listEmpty).map
        (fun r => (r.2.1, r.2.2.1, r.2.2.2, (r.1.heap 0).map NodeRec.next,
          (r.1.heap 0).map NodeRec.prev)) =
      some (one5L, listEmpty, true, some none, some none) := by
  exact ⟨rfl, rfl⟩

/-- C5 counterexample: on [1, 2], advance a forward cursor once (yielding 1,
last = node 0), then insert 9.  The cursor afterwards has last = the fresh
node 2, not node 0, and the following cursor remove returns 9 — the newly
inserted element — rather than 1, the most recently yielded one; the list
is back to [1, 2].  Also, the backward cursor insert does not advance the
position counter: after one yield the index is 2 and stays 2 across
list_diter_add. -/
theorem iter_add_overwrites_last :
    (list_iter_next two12Mem (list_iter_new two12L)).map
        (fun r => (r.2, r.1.last)) = some (1, some 0) ∧
    ((list_iter_next two12Mem (list_iter_new two12L)).bind
        (fun r1 => list_iter_add two12Mem two12L r1.1 9)).map
        (fun r => (r.2.2.1.index, r.2.2.1.last, r.2.1.size)) =
      some (2, some 2, 3) ∧
    (((list_iter_next two12Mem (list_iter_new two12L)).bind
        (fun r1 => list_iter_add two12Mem two12L r1.1 9)).bind
        (fun r2 => list_iter_remove r2.1 r2.2.1 r2.2.2.1)).map
        (fun r => (r.2.2.2, r.2.1.size, fwdData r.1 r.2.1.head 4)) =
      some (some 9, 2, [1, 2]) ∧
    (list_diter_next two12Mem (list_diter_new two12L)).map
        (fun r => (r.2, r.1.index)) = some (2, 2) ∧
    ((list_diter_next two12Mem (list_diter_new two12L)).bind
        (fun r1 => list_diter_add two12Mem two12L r1.1 9)).map
        (fun r => (r.2.2.1.index, r.2.2.1.last)) = some (2, some 2) := by
  refine ⟨?_, ?_, ?_, ?_, ?_⟩ <;> decide

set_option maxHeartbeats 1600000 in
/-- C10: the merge step takes the "left precedes or equals right" path
exactly when the comparator returns -1 or 0, and any other value — here every
v outside {-1, 0}, including negative values such as -2 — is treated as
"right precedes left" (first conjunct, stated on the merge of two singleton
partitions holding 10 and 20).  Consequently an order-consistent comparator
whose range leaves {-1, 0, 1}, such as plain subtraction, breaks the
sortedness guarantee of list_sort: subtraction returns -10 on (10, 20), the
merge relocates 20 in front of 10, and the sorted result of [10, 20] comes
out as [20, 10] (second conjunct). -/
theorem merge_condition_is_exactly_neg_one_or_zero (v : Int) :
    ((merge two1020Mem (some 0) (some 1) 1 1 (fun _ _ => v)).map
        (fun r => (fwdData r.1 r.2.1 3, r.2.1, r.2.2)) =
      some (if v = -1 ∨ v = 0 then (([10, 20] : List Int), some 0, some 1)
            else ([20, 10], some 1, some 0))) ∧
    ((list_sort two1020Mem two1020L (fun a b => a - b)).map
        (fun r => (fwdData r.1 r.2.head 3, r.2.head, r.2.tail)) =
      some ([20, 10], some 1, some 0)) := by
  constructor
  · by_cases h : v = -1 ∨ v = 0
    · rcases h with h | h <;> subst h <;> decide
    · rw [if_neg h]
      show (mergeLoop (fun _ _ => v) 1 1 2 0 0 0 two1020Mem
          (some 0) (some 1) (some 0) (some 1)).map _ = _
      rw [show (2 : Nat) = 1 + 1 from rfl]
      simp [mergeLoop, two1020Mem, Mem.get, Mem.getNext, Mem.getPrev, Mem.setPrev,
        Mem.setNext, Mem.set, link_behind, walkNext, fwdData, h]
  · decide

/-- Witness for C10 at the concrete out-of-range value -2: the merge treats
-2 as "right precedes left". -/
theorem merge_condition_is_exactly_neg_one_or_zero_witness :
    (merge two1020Mem (some 0) (some 1) 1 1 (fun _ _ => (-2 : Int))).map
        (fun r => (fwdData r.1 r.2.1 3, r.2.1, r.2.2)) =
      some ([20, 10], some 1, some 0) :=
  (merge_condition_is_exactly_neg_one_or_zero (-2)).1.trans (by decide)

/-! Toolkit: basic lemmas about the memory, segments and walks. -/

@[simp] theorem headN_nil (q : Option Nat) : headN [] q = q := rfl

@[simp] theorem headN_cons (i : Nat) (rest : List Nat) (q : Option Nat) :
    headN (i :: rest) q = some i := rfl

theorem headN_eq_head? (ids : List Nat) (q : Option Nat) (h : ids ≠ []) :
    headN ids q = ids.head? := by
  cases ids with
  | nil => exact absurd rfl h
  | cons i rest => rfl

theorem headN_append (xs ys : List Nat) (q : Option Nat) :
    headN (xs ++ ys) q = headN xs (headN ys q) := by
  cases xs <;> rfl

@[simp] theorem lastN_nil (p : Option Nat) : lastN p [] = p := rfl

theorem lastN_cons (p : Option Nat) (i : Nat) (rest : List Nat) :
    lastN p (i :: rest) = lastN (some i) rest := by
  cases rest with
  | nil => rfl
  | cons j t =>
    unfold lastN
    rw [List.getLast?_cons_cons]
    cases hg : (j :: t).getLast? with
    | none => exact absurd (List.getLast?_eq_none_iff.mp hg) (by simp)
    | some a => rfl

theorem lastN_eq_getLast? (p : Option Nat) (ids : List Nat) (h : ids ≠ []) :
    lastN p ids = ids.getLast? := by
  unfold lastN
  cases hg : ids.getLast? with
  | none => exact absurd (List.getLast?_eq_none_iff.mp hg) h
  | some i => rfl

theorem lastN_append (p : Option Nat) (xs ys : List Nat) :
    lastN p (xs ++ ys) = lastN (lastN p xs) ys := by
  induction xs generalizing p with
  | nil => simp
  | cons i t ih => rw [List.cons_append, lastN_cons, lastN_cons, ih]

@[simp] theorem lastN_concat (p : Option Nat) (xs : List Nat) (j : Nat) :
    lastN p (xs ++ [j]) = some j := by
  rw [lastN_append]; rfl

@[simp] theorem Mem.heap_set_self (m : Mem α) (i : Nat) (nd : NodeRec α) :
    (m.set i nd).heap i = some nd := by
  simp [Mem.set]

theorem Mem.heap_set_of_ne (m : Mem α) (i j : Nat) (nd : NodeRec α) (h : j ≠ i) :
    (m.set i nd).heap j = m.heap j := by
  simp [Mem.set, h]

@[simp] theorem Mem.set_nextId (m : Mem α) (i : Nat) (nd : NodeRec α) :
    (m.set i nd).nextId = m.nextId := rfl

@[simp] theorem Mem.free_nextId (m : Mem α) (i : Nat) :
    (m.free i).nextId = m.nextId := rfl

@[simp] theorem Mem.heap_free_self (m : Mem α) (i : Nat) :
    (m.free i).heap i = none := by
  simp [Mem.free]

theorem Mem.heap_free_of_ne (m : Mem α) (i j : Nat) (h : j ≠ i) :
    (m.free i).heap j = m.heap j := by
  simp [Mem.free, h]

theorem Mem.heap_alloc_fst (m : Mem α) (d : α) (j : Nat) :
    ((m.alloc d).1).heap j = if j = m.nextId then some ⟨d, none, none⟩ else m.heap j := rfl

@[simp] theorem Mem.alloc_fst_nextId (m : Mem α) (d : α) :
    ((m.alloc d).1).nextId = m.nextId + 1 := rfl

@[simp] theorem Mem.alloc_snd (m : Mem α) (d : α) : (m.alloc d).2 = m.nextId := rfl

theorem Mem.heap_alloc_of_ne (m : Mem α) (d : α) (j : Nat) (h : j ≠ m.nextId) :
    ((m.alloc d).1).heap j = m.heap j := by
  simp [Mem.heap_alloc_fst, h]

@[simp] theorem Mem.heap_alloc_self (m : Mem α) (d : α) :
    ((m.alloc d).1).heap m.nextId = some ⟨d, none, none⟩ := by
  simp [Mem.heap_alloc_fst]

theorem Mem.setNext_eq_some (m : Mem α) (i : Nat) (v : Option Nat) (nd : NodeRec α)
    (h : m.heap i = some nd) :
    m.setNext i v = some (m.set i { nd with next := v }) := by
  simp [Mem.setNext, Mem.get, h]

theorem Mem.setPrev_eq_some (m : Mem α) (i : Nat) (v : Option Nat) (nd : NodeRec α)
    (h : m.heap i = some nd) :
    m.setPrev i v = some (m.set i { nd with prev := v }) := by
  simp [Mem.setPrev, Mem.get, h]

@[simp] theorem seg_nil (m : Mem α) (p q : Option Nat) : seg m p [] q := trivial

theorem seg_cons (m : Mem α) (p : Option Nat) (i : Nat) (rest : List Nat) (q : Option Nat) :
    seg m p (i :: rest) q ↔ hasLinks m i p (headN rest q) ∧ seg m (some i) rest q :=
  Iff.rfl

/-- Segments only look at their own cells: agreeing heaps give the same
segments. -/
theorem seg_congr {m m' : Mem α} {ids : List Nat}
    (h : ∀ j ∈ ids, m'.heap j = m.heap j) :
    ∀ {p q : Option Nat}, seg m' p ids q ↔ seg m p ids q := by
  induction ids with
  | nil => simp
  | cons i rest ih =>
    intro p q
    rw [seg_cons, seg_cons]
    have hi : m'.heap i = m.heap i := h i (by simp)
    have hrest : ∀ j ∈ rest, m'.heap j = m.heap j := fun j hj => h j (by simp [hj])
    rw [ih hrest]
    unfold hasLinks
    rw [hi]

theorem seg_set_of_not_mem {m : Mem α} {ids : List Nat} {i : Nat} {nd : NodeRec α}
    (h : i ∉ ids) {p q : Option Nat} : seg (m.set i nd) p ids q ↔ seg m p ids q :=
  seg_congr (fun j hj => m.heap_set_of_ne i j nd (fun e => h (e ▸ hj)))

theorem seg_free_of_not_mem {m : Mem α} {ids : List Nat} {i : Nat}
    (h : i ∉ ids) {p q : Option Nat} : seg (m.free i) p ids q ↔ seg m p ids q :=
  seg_congr (fun j hj => m.heap_free_of_ne i j (fun e => h (e ▸ hj)))

theorem seg_alloc_of_not_mem {m : Mem α} {ids : List Nat} {d : α}
    (h : m.nextId ∉ ids) {p q : Option Nat} :
    seg (m.alloc d).1 p ids q ↔ seg m p ids q :=
  seg_congr (fun j hj => m.heap_alloc_of_ne d j (fun e => h (e ▸ hj)))

/-- Splitting and joining segments at an append. -/
theorem seg_append (m : Mem α) (xs ys : List Nat) :
    ∀ {p q : Option Nat},
      seg m p (xs ++ ys) q ↔ seg m p xs (headN ys q) ∧ seg m (lastN p xs) ys q := by
  induction xs with
  | nil => simp
  | cons i t ih =>
    intro p q
    rw [List.cons_append, seg_cons, seg_cons, lastN_cons, headN_append, ih, and_assoc]

@[simp] theorem walkNext_zero (m : Mem α) (p : Option Nat) : walkNext m p 0 = some p := by
  cases p <;> rfl

@[simp] theorem walkPrev_zero (m : Mem α) (p : Option Nat) : walkPrev m p 0 = some p := by
  cases p <;> rfl

theorem walkNext_succ_some (m : Mem α) (i k : Nat) (nd : NodeRec α)
    (h : m.heap i = some nd) : walkNext m (some i) (k + 1) = walkNext m nd.next k := by
  simp [walkNext, h]

theorem walkPrev_succ_some (m : Mem α) (i k : Nat) (nd : NodeRec α)
    (h : m.heap i = some nd) : walkPrev m (some i) (k + 1) = walkPrev m nd.prev k := by
  simp [walkPrev, h]

theorem seg_mem_isSome {m : Mem α} {ids : List Nat} {p q : Option Nat}
    (hseg : seg m p ids q) {i : Nat} (hi : i ∈ ids) : ∃ nd, m.heap i = some nd := by
  induction ids generalizing p with
  | nil => cases hi
  | cons j t ih =>
    rw [seg_cons] at hseg
    rcases List.mem_cons.mp hi with rfl | hi
    · rcases hseg.1.1.symm with h
      cases hh : m.heap i with
      | none => rw [hh] at h; cases h
      | some nd => exact ⟨nd, rfl⟩
    · exact ih hseg.2 hi

/-- The links of a node read off a decomposition of a segment. -/
theorem seg_links_of_decomp {m : Mem α} {p q : Option Nat} {xs ys : List Nat} {i : Nat}
    (hseg : seg m p (xs ++ i :: ys) q) :
    hasLinks m i (lastN p xs) (headN ys q) := by
  rw [seg_append] at hseg
  exact ((seg_cons m _ i ys q).mp hseg.2).1

/-- Walking next from the front of a segment lands on the k-th suffix. -/
theorem walkNext_seg {m : Mem α} {ids : List Nat} {p q : Option Nat}
    (hseg : seg m p ids q) :
    ∀ k, k ≤ ids.length → walkNext m (headN ids q) k = some (headN (ids.drop k) q) := by
  induction ids generalizing p with
  | nil =>
    intro k hk
    have : k = 0 := by simpa using hk
    subst this; simp
  | cons i t ih =>
    intro k hk
    cases k with
    | zero => simp
    | succ k =>
      rw [seg_cons] at hseg
      rcases hseg with ⟨⟨_, hnext⟩, hrest⟩
      cases hh : m.heap i with
      | none => rw [hh] at hnext; cases hnext
      | some nd =>
        rw [hh] at hnext
        have hnd : nd.next = headN t q := by simpa using hnext
        rw [headN_cons, walkNext_succ_some m i k nd hh, hnd]
        exact ih hrest k (by simpa using hk)

/-- Walking prev from the back of a segment lands on the matching prefix. -/
theorem walkPrev_seg {m : Mem α} {ids : List Nat} :
    ∀ {p q : Option Nat}, seg m p ids q →
      ∀ k, k ≤ ids.length →
        walkPrev m (lastN p ids) k = some (lastN p (ids.take (ids.length - k))) := by
  induction ids using List.reverseRecOn with
  | nil =>
    intro p q _ k hk
    have : k = 0 := by simpa using hk
    subst this; simp
  | append_singleton xs x ih =>
    intro p q hseg k hk
    rcases (seg_append m xs [x]).mp hseg with ⟨hxs, hx⟩
    cases k with
    | zero =>
      rw [walkPrev_zero]
      have : (xs ++ [x]).length - 0 = (xs ++ [x]).length := by omega
      rw [this, List.take_length]
    | succ k =>
      rcases ((seg_cons m _ x [] q).mp hx).1 with ⟨hprev, _⟩
      cases hh : m.heap x with
      | none => rw [hh] at hprev; cases hprev
      | some nd =>
        rw [hh] at hprev
        have hnd : nd.prev = lastN p xs := by simpa using hprev
        rw [lastN_concat, walkPrev_succ_some m x k nd hh, hnd]
        have hk2 : k ≤ xs.length := by simpa using hk
        rw [ih hxs k hk2]
        congr 1
        have h1 : (xs ++ [x]).length - (k + 1) = xs.length - k := by
          simp
        rw [h1]
        rw [List.take_append_of_le_length (by omega)]

/-- headN of a dropped suffix is the indexed lookup. -/
theorem headN_drop (ids : List Nat) (k : Nat) : headN (ids.drop k) none = ids[k]? := by
  rw [show ids[k]? = (ids.drop k).head? from (List.head?_drop ids k).symm]
  cases h : ids.drop k with
  | nil => rfl
  | cons i t => rfl

/-- lastN of a taken prefix is the indexed lookup at its end. -/
theorem lastN_take (ids : List Nat) (k : Nat) (hk : k < ids.length) :
    lastN none (ids.take (k + 1)) = ids[k]? := by
  have hlen : (ids.take (k + 1)).length = k + 1 := by
    rw [List.length_take]
    omega
  have hne : ids.take (k + 1) ≠ [] := by
    intro e
    rw [e] at hlen
    simp at hlen
  rw [lastN_eq_getLast? _ _ hne]
  rw [List.getLast?_eq_getElem?]
  rw [hlen]
  simp only [Nat.add_sub_cancel]
  rw [List.getElem?_take, if_pos (by omega)]

/-- get_node_at returns exactly the indexed node of a well-formed list (and
NULL out of range). -/
theorem get_node_at_spec {m : Mem α} {l : ListS} {ids : List Nat}
    (h : wf m l ids) (index : Nat) :
    get_node_at m l index = some ids[index]? := by
  rcases h with ⟨hseg, hhead, htail, hsize, _, _⟩
  unfold get_node_at
  by_cases hge : index ≥ l.size
  · rw [if_pos hge]
    have : ids.length ≤ index := by omega
    rw [List.getElem?_eq_none this]
  · rw [if_neg hge]
    have hlt : index < ids.length := by omega
    have hne : ids ≠ [] := by
      intro e; subst e; simp at hlt
    by_cases hfw : index < l.size / 2
    · rw [if_pos hfw]
      rw [hhead, ← headN_eq_head? ids none hne]
      rw [walkNext_seg hseg index (le_of_lt hlt)]
      rw [headN_drop]
    · rw [if_neg hfw]
      rw [htail, ← lastN_eq_getLast? none ids hne]
      rw [walkPrev_seg hseg (l.size - 1 - index) (by omega)]
      have : ids.length - (l.size - 1 - index) = index + 1 := by omega
      rw [this, lastN_take ids index hlt]

/-! Data preservation across pointer surgery. -/

/-- Two memories with the same allocation frontier, the same allocated cells
and the same payload in each cell; only the links may differ. -/
def sameData (m0 m1 : Mem α) : Prop :=
  m1.nextId = m0.nextId ∧
    ∀ j, (m1.heap j).map NodeRec.data = (m0.heap j).map NodeRec.data

theorem sameData_refl (m : Mem α) : sameData m m := ⟨rfl, fun _ => rfl⟩

theorem sameData_trans {m0 m1 m2 : Mem α} (h1 : sameData m0 m1)
    (h2 : sameData m1 m2) : sameData m0 m2 :=
  ⟨h2.1.trans h1.1, fun j => (h2.2 j).trans (h1.2 j)⟩

theorem sameData_set_next (v : Option Nat) {m : Mem α} {i : Nat} {nd : NodeRec α}
    (h : m.heap i = some nd) : sameData m (m.set i { nd with next := v }) := by
  refine ⟨rfl, fun j => ?_⟩
  by_cases hj : j = i
  · subst hj; simp [h]
  · rw [Mem.heap_set_of_ne m i j _ hj]

theorem sameData_set_prev (v : Option Nat) {m : Mem α} {i : Nat} {nd : NodeRec α}
    (h : m.heap i = some nd) : sameData m (m.set i { nd with prev := v }) := by
  refine ⟨rfl, fun j => ?_⟩
  by_cases hj : j = i
  · subst hj; simp [h]
  · rw [Mem.heap_set_of_ne m i j _ hj]

theorem mdata_eq_of_sameData [Inhabited α] {m0 m1 : Mem α} (h : sameData m0 m1)
    (i : Nat) : mdata m1 i = mdata m0 i := by
  unfold mdata
  rw [h.2 i]

theorem dataList_eq_of_sameData [Inhabited α] {m0 m1 : Mem α} (h : sameData m0 m1)
    (ids : List Nat) : dataList m1 ids = dataList m0 ids := by
  unfold dataList
  exact List.map_congr_left fun i _ => mdata_eq_of_sameData h i

theorem hasLinks_set_of_ne {m : Mem α} {i j : Nat} {nd : NodeRec α} {p q : Option Nat}
    (h : i ≠ j) : hasLinks (m.set j nd) i p q ↔ hasLinks m i p q := by
  unfold hasLinks
  rw [Mem.heap_set_of_ne m j i nd h]

theorem hasLinks_set_self {m : Mem α} {i : Nat} {nd : NodeRec α} :
    hasLinks (m.set i nd) i nd.prev nd.next := by
  unfold hasLinks
  simp

theorem hasLinks_elim {m : Mem α} {i : Nat} {p q : Option Nat} (h : hasLinks m i p q) :
    ∃ nd, m.heap i = some nd ∧ nd.prev = p ∧ nd.next = q := by
  rcases h with ⟨h1, h2⟩
  cases hh : m.heap i with
  | none => rw [hh] at h1; cases h1
  | some nd =>
    rw [hh] at h1 h2
    exact ⟨nd, rfl, by simpa using h1, by simpa using h2⟩


/-- Specification of link_behind for a freshly allocated orphan node: it is
inserted immediately before the base node, wherever that is in the chain. -/
theorem link_behind_orphan {m : Mem α} {X Y : List Nat} {base ins : Nat} {d : α}
    (hseg : seg m none (X ++ base :: Y) none)
    (hnodup : (X ++ base :: Y).Nodup)
    (hmem : ins ∉ X ++ base :: Y)
    (hins : m.heap ins = some ⟨d, none, none⟩) :
    ∃ m', link_behind m base ins = some m' ∧
      seg m' none (X ++ ins :: base :: Y) none ∧ sameData m m' ∧
      m'.heap ins = some ⟨d, some base, lastN none X⟩ := by
  have hbase : hasLinks m base (lastN none X) (headN Y none) := seg_links_of_decomp hseg
  rcases hasLinks_elim hbase with ⟨bnd, hb, hbprev, hbnext⟩
  have hbase_ins : base ≠ ins := by
    intro e; exact hmem (e ▸ List.mem_append_right X (List.mem_cons_self base Y))
  have hinsX : ins ∉ X := fun h => hmem (List.mem_append_left _ h)
  have hinsY : ins ∉ Y := fun h => hmem (List.mem_append_right _ (List.mem_cons_of_mem _ h))
  have hXne : ∀ j ∈ X, j ≠ ins := fun j hj e => hinsX (e ▸ hj)
  have hYne : ∀ j ∈ Y, j ≠ ins := fun j hj e => hinsY (e ▸ hj)
  have hbaseX : base ∉ X := by
    intro hx
    rcases List.nodup_append.mp hnodup with ⟨_, _, hdisj⟩
    exact hdisj hx (List.mem_cons_self base Y)
  have hbaseY : base ∉ Y := by
    rcases List.nodup_append.mp hnodup with ⟨_, hc, _⟩
    exact (List.nodup_cons.mp hc).1
  have hXnb : ∀ j ∈ X, j ≠ base := fun j hj e => hbaseX (e ▸ hj)
  have hYnb : ∀ j ∈ Y, j ≠ base := fun j hj e => hbaseY (e ▸ hj)
  have hYseg : seg m (some base) Y none := by
    rcases (seg_append m X (base :: Y)).mp hseg with ⟨_, h2⟩
    have := ((seg_cons m _ base Y none).mp h2).2
    simpa [lastN_cons] using this
  -- evaluate link_behind: ins is an orphan so the two detach writes do
  -- nothing, and base->prev is read in the original memory
  rw [link_behind]
  rw [show m.getNext ins = some none by simp [Mem.getNext, Mem.get, hins]]
  rw [show m.getPrev ins = some none by simp [Mem.getPrev, Mem.get, hins]]
  simp only [Option.bind_eq_bind, Option.some_bind, Option.pure_def]
  rw [show m.getNext ins = some none by simp [Mem.getNext, Mem.get, hins]]
  rw [show m.getPrev ins = some none by simp [Mem.getPrev, Mem.get, hins]]
  simp only [Option.some_bind]
  rw [show m.getPrev base = some bnd.prev by simp [Mem.getPrev, Mem.get, hb]]
  simp only [Option.some_bind]
  rcases X.eq_nil_or_concat with rfl | ⟨X', b', rfl⟩
  · -- X = [] case
    -- base is the head of the chain: the NULL branch of link_behind
    have hbprev' : bnd.prev = none := by simpa using hbprev
    simp only [hbprev']
    rw [Mem.setPrev_eq_some m ins none _ hins]
    simp only [Option.some_bind]
    rw [Mem.setNext_eq_some _ ins (some base) _ (Mem.heap_set_self m ins _)]
    simp only [Option.some_bind]
    rw [Mem.setPrev_eq_some _ base (some ins) _ (by
      rw [Mem.heap_set_of_ne _ _ _ _ hbase_ins, Mem.heap_set_of_ne _ _ _ _ hbase_ins]
      exact hb)]
    refine ⟨_, rfl, ?_, ?_, ?_⟩
    · rw [List.nil_append, seg_cons, seg_cons]
      refine ⟨?_, ?_, ?_⟩
      · unfold hasLinks
        rw [Mem.heap_set_of_ne _ _ _ _ (Ne.symm hbase_ins)]
        simp
      · unfold hasLinks
        simp [hbnext]
      · have hcongr : ∀ j ∈ Y, (((m.set ins ⟨d, none, none⟩).set ins
            ⟨d, some base, none⟩).set base { bnd with prev := some ins }).heap j
            = m.heap j := by
          intro j hj
          rw [Mem.heap_set_of_ne _ _ _ _ (hYnb j hj),
            Mem.heap_set_of_ne _ _ _ _ (hYne j hj),
            Mem.heap_set_of_ne _ _ _ _ (hYne j hj)]
        rw [seg_congr hcongr]
        exact hYseg
    · refine sameData_trans (sameData_set_prev none hins) ?_
      refine sameData_trans (sameData_set_next (some base) (Mem.heap_set_self m ins _)) ?_
      exact sameData_set_prev (some ins) (by
        rw [Mem.heap_set_of_ne _ _ _ _ hbase_ins, Mem.heap_set_of_ne _ _ _ _ hbase_ins]
        exact hb)
    · rw [Mem.heap_set_of_ne _ _ _ _ (Ne.symm hbase_ins)]
      simp
  · -- X = X-prime ++ [b-prime] case
    -- base has a predecessor: the non-NULL branch of link_behind
    rw [List.concat_eq_append] at hseg hnodup hmem hbprev hbase hinsX hXne hbaseX hXnb ⊢
    have hbprev' : bnd.prev = some b' := by
      rw [hbprev, lastN_concat]
    simp only [hbprev']
    have hb'ins : b' ≠ ins := hXne b' (by simp)
    have hb'base : b' ≠ base := hXnb b' (by simp)
    have hb'X' : b' ∉ X' := by
      have h2 : (X' ++ [b']).Nodup := (List.nodup_append.mp hnodup).1
      rcases List.nodup_append.mp h2 with ⟨_, _, hdisj⟩
      intro hx
      exact hdisj hx (by simp)
    have hX'nb' : ∀ j ∈ X', j ≠ b' := fun j hj e => hb'X' (e ▸ hj)
    have hb'Y : b' ∉ Y := by
      rw [List.append_assoc] at hnodup
      rcases List.nodup_append.mp hnodup with ⟨_, h2, _⟩
      rcases List.nodup_append.mp h2 with ⟨_, _, hdisj2⟩
      intro hy
      exact hdisj2 (List.mem_singleton_self b') (List.mem_cons_of_mem base hy)
    have hYnb' : ∀ j ∈ Y, j ≠ b' := fun j hj e => hb'Y (e ▸ hj)
    have hb'links : hasLinks m b' (lastN none X') (some base) := by
      have h1 := (seg_append m (X' ++ [b']) (base :: Y)).mp hseg
      have h2 := (seg_append m X' [b']).mp h1.1
      have := ((seg_cons m _ b' [] _).mp h2.2).1
      simpa using this
    rcases hasLinks_elim hb'links with ⟨b'nd, hb'h, hb'prev, hb'next⟩
    have hX'seg : seg m none X' (some b') := by
      have h1 := (seg_append m (X' ++ [b']) (base :: Y)).mp hseg
      have h2 := (seg_append m X' [b']).mp h1.1
      simpa using h2.1
    -- the four writes
    rw [Mem.setPrev_eq_some m ins (some b') _ hins]
    simp only [Option.some_bind]
    rw [Mem.setNext_eq_some _ b' (some ins) _ (by
      rw [Mem.heap_set_of_ne _ _ _ _ hb'ins]; exact hb'h)]
    simp only [Option.some_bind]
    rw [Mem.setNext_eq_some _ ins (some base) _ (by
      rw [Mem.heap_set_of_ne _ _ _ _ (Ne.symm hb'ins)]
      exact Mem.heap_set_self m ins _)]
    simp only [Option.some_bind]
    rw [Mem.setPrev_eq_some _ base (some ins) _ (by
      rw [Mem.heap_set_of_ne _ _ _ _ hbase_ins,
        Mem.heap_set_of_ne _ _ _ _ (Ne.symm hb'base),
        Mem.heap_set_of_ne _ _ _ _ hbase_ins]
      exact hb)]
    refine ⟨_, rfl, ?_, ?_, ?_⟩
    · -- the new chain X' ++ b' :: ins :: base :: Y
      rw [List.append_assoc, List.singleton_append, seg_append]
      constructor
      · -- the X' prefix is untouched
        have hcongr : ∀ j ∈ X', ((((m.set ins ⟨d, none, some b'⟩).set b'
            { b'nd with next := some ins }).set ins ⟨d, some base, some b'⟩).set base
            { bnd with prev := some ins }).heap j = m.heap j := by
          intro j hj
          have hx : j ∈ X' ++ [b'] := List.mem_append_left _ hj
          rw [Mem.heap_set_of_ne _ _ _ _ (hXnb j hx),
            Mem.heap_set_of_ne _ _ _ _ (hXne j hx),
            Mem.heap_set_of_ne _ _ _ _ (hX'nb' j hj),
            Mem.heap_set_of_ne _ _ _ _ (hXne j hx)]
        rw [show headN (b' :: ins :: base :: Y) none = some b' from rfl]
        rw [seg_congr hcongr]
        exact hX'seg
      · rw [seg_cons, seg_cons, seg_cons]
        refine ⟨?_, ?_, ?_, ?_⟩
        · -- links of the predecessor
          unfold hasLinks
          rw [Mem.heap_set_of_ne _ _ _ _ hb'base, Mem.heap_set_of_ne _ _ _ _ hb'ins]
          simp [hb'prev]
        · -- links of ins
          unfold hasLinks
          rw [Mem.heap_set_of_ne _ _ _ _ (Ne.symm hbase_ins)]
          simp
        · -- links of base
          unfold hasLinks
          simp [hbnext]
        · -- the Y suffix is untouched
          have hcongr : ∀ j ∈ Y, ((((m.set ins ⟨d, none, some b'⟩).set b'
              { b'nd with next := some ins }).set ins ⟨d, some base, some b'⟩).set base
              { bnd with prev := some ins }).heap j = m.heap j := by
            intro j hj
            rw [Mem.heap_set_of_ne _ _ _ _ (hYnb j hj),
              Mem.heap_set_of_ne _ _ _ _ (hYne j hj),
              Mem.heap_set_of_ne _ _ _ _ (hYnb' j hj),
              Mem.heap_set_of_ne _ _ _ _ (hYne j hj)]
          rw [seg_congr hcongr]
          exact hYseg
    · refine sameData_trans (sameData_set_prev (some b') hins) ?_
      refine sameData_trans (sameData_set_next (some ins) (by
        rw [Mem.heap_set_of_ne _ _ _ _ hb'ins]; exact hb'h)) ?_
      refine sameData_trans (sameData_set_next (some base) (by
        rw [Mem.heap_set_of_ne _ _ _ _ (Ne.symm hb'ins)]
        exact Mem.heap_set_self m ins _)) ?_
      exact sameData_set_prev (some ins) (by
        rw [Mem.heap_set_of_ne _ _ _ _ hbase_ins,
          Mem.heap_set_of_ne _ _ _ _ (Ne.symm hb'base),
          Mem.heap_set_of_ne _ _ _ _ hbase_ins]
        exact hb)
    · rw [Mem.heap_set_of_ne _ _ _ _ (Ne.symm hbase_ins)]
      simp [lastN_concat]

theorem getLast?_append_cons (xs : List Nat) (y : Nat) (ys : List Nat) :
    (xs ++ y :: ys).getLast? = (y :: ys).getLast? := by
  rw [List.getLast?_append]
  cases h : (y :: ys).getLast? with
  | none => exact absurd (List.getLast?_eq_none_iff.mp h) (by simp)
  | some a => rfl

/-- Specification of unlink on a well-formed list: the node at the given
position is removed, its neighbours are bridged, head and tail and size are
fixed up, and its data is returned. -/
theorem unlink_spec {m : Mem α} {l : ListS} {X Y : List Nat} {node : Nat}
    (hwf : wf m l (X ++ node :: Y)) :
    ∃ m' l' dd, unlink m l node = some (m', l', dd) ∧
      wf m' l' (X ++ Y) ∧ l'.size = l.size - 1 ∧
      (m.heap node).map NodeRec.data = some dd ∧
      m'.nextId = m.nextId ∧ m'.heap node = none ∧
      (∀ j, j ≠ node → (m'.heap j).map NodeRec.data = (m.heap j).map NodeRec.data) := by
  rcases hwf with ⟨hseg, hhead, htail, hsize, hnodup, hbound⟩
  have hnode : hasLinks m node (lastN none X) (headN Y none) := seg_links_of_decomp hseg
  rcases hasLinks_elim hnode with ⟨nnd, hn, hnprev, hnnext⟩
  have hnodeX : node ∉ X := by
    intro hx
    rcases List.nodup_append.mp hnodup with ⟨_, _, hdisj⟩
    exact hdisj hx (List.mem_cons_self node Y)
  have hnodeY : node ∉ Y := by
    rcases List.nodup_append.mp hnodup with ⟨_, hc, _⟩
    exact (List.nodup_cons.mp hc).1
  have hXnn : ∀ j ∈ X, j ≠ node := fun j hj e => hnodeX (e ▸ hj)
  have hYnn : ∀ j ∈ Y, j ≠ node := fun j hj e => hnodeY (e ▸ hj)
  have hXY : X.Disjoint (node :: Y) := (List.nodup_append.mp hnodup).2.2
  have hXsegN : seg m none X (some node) := by
    have h1 := (seg_append m X (node :: Y)).mp hseg
    simpa using h1.1
  have hYsegN : seg m (some node) Y none := by
    have h1 := (seg_append m X (node :: Y)).mp hseg
    have := ((seg_cons m _ node Y none).mp h1.2).2
    simpa using this
  -- evaluate unlink
  rw [unlink]
  rw [show m.get node = some nnd from hn]
  simp only [Option.bind_eq_bind, Option.some_bind, Option.pure_def, hnprev, hnnext]
  -- case split on whether node has a predecessor and a successor
  rcases X.eq_nil_or_concat with rfl | ⟨X', b', rfl⟩ <;>
    rcases Y with _ | ⟨y0, Y'⟩
  · -- singleton list
    simp only [lastN_nil, headN_nil]
    rw [show m.get node = some nnd from hn]
    simp only [Option.some_bind, hnprev, hnnext, lastN_nil, headN_nil, if_pos rfl]
    refine ⟨_, _, _, rfl, ?_, ?_, ?_, rfl, ?_, ?_⟩
    · refine ⟨by simp, by simp [hnnext], by simp [hnprev], ?_, by simp, by simp⟩
      simp at hsize
      simp [hsize]
    · rfl
    · simp [hn]
    · simp
    · intro j hj
      rw [Mem.heap_free_of_ne _ _ _ hj]
  · -- node is the head, Y nonempty
    simp only [lastN_nil, headN_cons]
    rw [show m.get node = some nnd from hn]
    simp only [Option.some_bind, hnprev, hnnext, lastN_nil, headN_cons, if_pos rfl]
    rw [if_neg (by simp)]
    have hy0 : y0 ≠ node := hYnn y0 (by simp)
    have hy0links : hasLinks m y0 (some node) (headN Y' none) :=
      ((seg_cons m _ y0 Y' none).mp hYsegN).1
    rcases hasLinks_elim hy0links with ⟨ynd, hyh, hyprev, hynext⟩
    rw [Mem.setPrev_eq_some m y0 none _ hyh]
    simp only [Option.some_bind]
    refine ⟨_, _, _, rfl, ?_, ?_, ?_, rfl, ?_, ?_⟩
    · refine ⟨?_, by simp [hnnext], ?_, ?_, ?_, ?_⟩
      · rw [List.nil_append, seg_cons]
        constructor
        · unfold hasLinks
          rw [Mem.heap_free_of_ne _ _ _ hy0, Mem.heap_set_self]
          simp [hynext]
        · have hcongr : ∀ j ∈ Y', ((m.set y0 { ynd with prev := none }).free node).heap j
              = m.heap j := by
            intro j hj
            have hjn : j ≠ node := hYnn j (by simp [hj])
            have hjy : j ≠ y0 := by
              intro e
              have := List.nodup_cons.mp ((List.nodup_append.mp hnodup).2.1)
              have h2 := List.nodup_cons.mp this.2
              exact h2.1 (e ▸ hj)
            rw [Mem.heap_free_of_ne _ _ _ hjn, Mem.heap_set_of_ne _ _ _ _ hjy]
          rw [seg_congr hcongr]
          have := ((seg_cons m _ y0 Y' none).mp hYsegN).2
          exact this
      · simp [htail]
      · simpa using hsize
      · have := (List.nodup_cons.mp ((List.nodup_append.mp hnodup).2.1)).2
        simpa using this
      · intro i hi
        have : i ∈ [] ++ node :: y0 :: Y' := by simp [List.mem_cons.mp hi]
        calc i < m.nextId := hbound i (by simpa using this)
        _ = _ := by simp
    · rfl
    · simp [hn]
    · simp
    · intro j hj
      rw [Mem.heap_free_of_ne _ _ _ hj]
      by_cases hjy : j = y0
      · subst hjy; simp [hyh]
      · rw [Mem.heap_set_of_ne _ _ _ _ hjy]
  · -- node is the tail, X nonempty
    rw [List.concat_eq_append] at hseg hnodup hXsegN hXnn hnodeX hnode hnprev hXY ⊢
    rw [List.concat_eq_append] at hhead htail hsize hbound
    have hb'node : b' ≠ node := hXnn b' (by simp)
    have hb'X' : b' ∉ X' := by
      have h2 : (X' ++ [b']).Nodup := (List.nodup_append.mp hnodup).1
      rcases List.nodup_append.mp h2 with ⟨_, _, hdisj⟩
      intro hx
      exact hdisj hx (by simp)
    have hX'nb' : ∀ j ∈ X', j ≠ b' := fun j hj e => hb'X' (e ▸ hj)
    have hb'links : hasLinks m b' (lastN none X') (some node) := by
      have h2 := (seg_append m X' [b']).mp hXsegN
      have := ((seg_cons m _ b' [] _).mp h2.2).1
      simpa using this
    rcases hasLinks_elim hb'links with ⟨b'nd, hb'h, hb'prev, hb'next⟩
    have hX'seg : seg m none X' (some b') := by
      have h2 := (seg_append m X' [b']).mp hXsegN
      simpa using h2.1
    simp only [hnprev, hnnext, lastN_concat, headN_nil]
    rw [Mem.setNext_eq_some m b' none _ hb'h]
    simp only [Option.some_bind]
    rw [show (m.set b' { b'nd with next := none }).get node = some nnd by
      rw [show Mem.get _ node = (m.set b' { b'nd with next := none }).heap node from rfl]
      rw [Mem.heap_set_of_ne _ _ _ _ (Ne.symm hb'node)]
      exact hn]
    simp only [Option.some_bind, hnprev, hnnext, lastN_concat, headN_nil]
    rw [if_neg (show ¬(some b' = none) by simp)]
    simp only [if_true]
    refine ⟨_, _, _, rfl, ?_, ?_, ?_, rfl, ?_, ?_⟩
    · refine ⟨?_, ?_, ?_, ?_, ?_, ?_⟩
      · rw [seg_append]
        refine ⟨?_, seg_nil _ _ _⟩
        rw [seg_append]
        constructor
        · have hcongr : ∀ j ∈ X', ((m.set b' { b'nd with next := none }).free node).heap j
              = m.heap j := by
            intro j hj
            rw [Mem.heap_free_of_ne _ _ _ (hXnn j (List.mem_append_left _ hj)),
              Mem.heap_set_of_ne _ _ _ _ (hX'nb' j hj)]
          rw [show headN [b'] (headN ([] : List Nat) none) = some b' from rfl,
            seg_congr hcongr]
          exact hX'seg
        · rw [seg_cons]
          refine ⟨?_, seg_nil _ _ _⟩
          unfold hasLinks
          rw [Mem.heap_free_of_ne _ _ _ hb'node, Mem.heap_set_self]
          simp [hb'prev]
      · rw [hhead]
        cases X' <;> simp
      · simp
      · simp at hsize ⊢
        omega
      · simpa using (List.nodup_append.mp hnodup).1
      · intro i hi
        rw [List.append_nil] at hi
        have : i < m.nextId := hbound i (List.mem_append_left _ hi)
        simpa using this
    · rfl
    · simp [hn]
    · simp
    · intro j hj
      rw [Mem.heap_free_of_ne _ _ _ hj]
      by_cases hjb : j = b'
      · subst hjb; simp [hb'h]
      · rw [Mem.heap_set_of_ne _ _ _ _ hjb]
  · -- interior node
    rw [List.concat_eq_append] at hseg hnodup hXsegN hXnn hnodeX hnode hnprev hXY ⊢
    rw [List.concat_eq_append] at hhead htail hsize hbound
    have hb'node : b' ≠ node := hXnn b' (by simp)
    have hy0 : y0 ≠ node := hYnn y0 (by simp)
    have hb'X' : b' ∉ X' := by
      have h2 : (X' ++ [b']).Nodup := (List.nodup_append.mp hnodup).1
      rcases List.nodup_append.mp h2 with ⟨_, _, hdisj⟩
      intro hx
      exact hdisj hx (by simp)
    have hX'nb' : ∀ j ∈ X', j ≠ b' := fun j hj e => hb'X' (e ▸ hj)
    have hy0mem : y0 ∈ node :: y0 :: Y' := List.mem_cons_of_mem node (List.mem_cons_self y0 Y')
    have hb'mem : b' ∈ X' ++ [b'] := List.mem_append_right X' (List.mem_singleton_self b')
    have hy0b' : y0 ≠ b' := by
      intro e
      rcases List.nodup_append.mp hnodup with ⟨_, _, hdisj⟩
      exact hdisj hb'mem (e ▸ hy0mem)
    have hy0X' : y0 ∉ X' := by
      intro hx
      rcases List.nodup_append.mp hnodup with ⟨_, _, hdisj⟩
      exact hdisj (List.mem_append_left _ hx) hy0mem
    have hX'ny0 : ∀ j ∈ X', j ≠ y0 := fun j hj e => hy0X' (e ▸ hj)
    have hb'Y' : b' ∉ Y' := by
      rcases List.nodup_append.mp hnodup with ⟨_, _, hdisj⟩
      intro hy
      exact hdisj hb'mem (List.mem_cons_of_mem node (List.mem_cons_of_mem y0 hy))
    have hY'nb' : ∀ j ∈ Y', j ≠ b' := fun j hj e => hb'Y' (e ▸ hj)
    have hY'ny0 : ∀ j ∈ Y', j ≠ y0 := by
      intro j hj e
      have h2 := (List.nodup_cons.mp ((List.nodup_append.mp hnodup).2.1)).2
      exact (List.nodup_cons.mp h2).1 (e ▸ hj)
    have hb'links : hasLinks m b' (lastN none X') (some node) := by
      have h2 := (seg_append m X' [b']).mp hXsegN
      have := ((seg_cons m _ b' [] _).mp h2.2).1
      simpa using this
    rcases hasLinks_elim hb'links with ⟨b'nd, hb'h, hb'prev, hb'next⟩
    have hX'seg : seg m none X' (some b') := by
      have h2 := (seg_append m X' [b']).mp hXsegN
      simpa using h2.1
    have hy0links : hasLinks m y0 (some node) (headN Y' none) :=
      ((seg_cons m _ y0 Y' none).mp hYsegN).1
    rcases hasLinks_elim hy0links with ⟨ynd, hyh, hyprev, hynext⟩
    have hY'seg : seg m (some y0) Y' none := ((seg_cons m _ y0 Y' none).mp hYsegN).2
    simp only [hnprev, hnnext, lastN_concat, headN_cons]
    rw [Mem.setNext_eq_some m b' (some y0) _ hb'h]
    simp only [Option.some_bind]
    rw [show (m.set b' { b'nd with next := some y0 }).get node = some nnd by
      rw [show Mem.get _ node = (m.set b' { b'nd with next := some y0 }).heap node from rfl]
      rw [Mem.heap_set_of_ne _ _ _ _ (Ne.symm hb'node)]
      exact hn]
    simp only [Option.some_bind, hnprev, hnnext, lastN_concat, headN_cons]
    rw [if_neg (show ¬(some b' = none) by simp),
      if_neg (show ¬(some y0 = none) by simp)]
    rw [Mem.setPrev_eq_some _ y0 (some b') _ (by
      rw [Mem.heap_set_of_ne _ _ _ _ hy0b']
      exact hyh)]
    simp only [Option.some_bind]
    refine ⟨_, _, _, rfl, ?_, ?_, ?_, rfl, ?_, ?_⟩
    · refine ⟨?_, ?_, ?_, ?_, ?_, ?_⟩
      · rw [List.append_assoc, List.singleton_append, seg_append]
        constructor
        · have hcongr : ∀ j ∈ X', (((m.set b' { b'nd with next := some y0 }).set y0
              { ynd with prev := some b' }).free node).heap j = m.heap j := by
            intro j hj
            rw [Mem.heap_free_of_ne _ _ _ (hXnn j (List.mem_append_left _ hj)),
              Mem.heap_set_of_ne _ _ _ _ (hX'ny0 j hj),
              Mem.heap_set_of_ne _ _ _ _ (hX'nb' j hj)]
          rw [show headN (b' :: y0 :: Y') none = some b' from rfl, seg_congr hcongr]
          exact hX'seg
        · rw [seg_cons, seg_cons]
          refine ⟨?_, ?_, ?_⟩
          · unfold hasLinks
            rw [Mem.heap_free_of_ne _ _ _ hb'node,
              Mem.heap_set_of_ne _ _ _ _ (Ne.symm hy0b'), Mem.heap_set_self]
            simp [hb'prev]
          · unfold hasLinks
            rw [Mem.heap_free_of_ne _ _ _ hy0, Mem.heap_set_self]
            simp [hynext]
          · have hcongr : ∀ j ∈ Y', (((m.set b' { b'nd with next := some y0 }).set y0
                { ynd with prev := some b' }).free node).heap j = m.heap j := by
              intro j hj
              rw [Mem.heap_free_of_ne _ _ _ (hYnn j (by simp [hj])),
                Mem.heap_set_of_ne _ _ _ _ (hY'ny0 j hj),
                Mem.heap_set_of_ne _ _ _ _ (hY'nb' j hj)]
            rw [seg_congr hcongr]
            exact hY'seg
      · rw [hhead]
        cases X' <;> simp
      · rw [htail, getLast?_append_cons]
        rw [List.append_assoc, List.singleton_append, getLast?_append_cons]
        rw [List.getLast?_cons_cons, List.getLast?_cons_cons]
      · simp at hsize ⊢
        omega
      · refine List.Nodup.sublist ?_ hnodup
        exact List.Sublist.append_left (List.sublist_cons_self node (y0 :: Y')) (X' ++ [b'])
      · intro i hi
        have : i < m.nextId := hbound i (by
          rcases List.mem_append.mp hi with h | h
          · exact List.mem_append_left _ h
          · exact List.mem_append_right _ (List.mem_cons_of_mem _ h))
        simpa using this
    · rfl
    · simp [hn]
    · simp
    · intro j hj
      rw [Mem.heap_free_of_ne _ _ _ hj]
      by_cases hjy : j = y0
      · subst hjy; simp [hyh]
      · rw [Mem.heap_set_of_ne _ _ _ _ hjy]
        by_cases hjb : j = b'
        · subst hjb; simp [hb'h]
        · rw [Mem.heap_set_of_ne _ _ _ _ hjb]

/-- Specification of link_after for a freshly allocated orphan node: it is
inserted immediately after the base node. -/
theorem link_after_orphan {m : Mem α} {X Y : List Nat} {base ins : Nat} {d : α}
    (hseg : seg m none (X ++ base :: Y) none)
    (hnodup : (X ++ base :: Y).Nodup)
    (hmem : ins ∉ X ++ base :: Y)
    (hins : m.heap ins = some ⟨d, none, none⟩) :
    ∃ m', link_after m base ins = some m' ∧
      seg m' none (X ++ base :: ins :: Y) none ∧ sameData m m' ∧
      m'.heap ins = some ⟨d, headN Y none, some base⟩ := by
  have hbase : hasLinks m base (lastN none X) (headN Y none) := seg_links_of_decomp hseg
  rcases hasLinks_elim hbase with ⟨bnd, hb, hbprev, hbnext⟩
  have hbase_ins : base ≠ ins := by
    intro e; exact hmem (e ▸ List.mem_append_right X (List.mem_cons_self base Y))
  have hinsX : ins ∉ X := fun h => hmem (List.mem_append_left _ h)
  have hinsY : ins ∉ Y := fun h => hmem (List.mem_append_right _ (List.mem_cons_of_mem _ h))
  have hXne : ∀ j ∈ X, j ≠ ins := fun j hj e => hinsX (e ▸ hj)
  have hYne : ∀ j ∈ Y, j ≠ ins := fun j hj e => hinsY (e ▸ hj)
  have hbaseX : base ∉ X := by
    intro hx
    rcases List.nodup_append.mp hnodup with ⟨_, _, hdisj⟩
    exact hdisj hx (List.mem_cons_self base Y)
  have hbaseY : base ∉ Y := by
    rcases List.nodup_append.mp hnodup with ⟨_, hc, _⟩
    exact (List.nodup_cons.mp hc).1
  have hXnb : ∀ j ∈ X, j ≠ base := fun j hj e => hbaseX (e ▸ hj)
  have hYnb : ∀ j ∈ Y, j ≠ base := fun j hj e => hbaseY (e ▸ hj)
  have hXseg : seg m none X (some base) := by
    have h1 := (seg_append m X (base :: Y)).mp hseg
    simpa using h1.1
  -- evaluate link_after: ins is an orphan so the two detach writes do nothing
  rw [link_after]
  rw [show m.getNext ins = some none by simp [Mem.getNext, Mem.get, hins]]
  rw [show m.getPrev ins = some none by simp [Mem.getPrev, Mem.get, hins]]
  simp only [Option.bind_eq_bind, Option.some_bind, Option.pure_def]
  rw [show m.getNext ins = some none by simp [Mem.getNext, Mem.get, hins]]
  rw [show m.getPrev ins = some none by simp [Mem.getPrev, Mem.get, hins]]
  simp only [Option.some_bind]
  rw [show m.getNext base = some bnd.next by simp [Mem.getNext, Mem.get, hb]]
  simp only [Option.some_bind]
  rcases Y with _ | ⟨y0, Y'⟩
  · -- base is the tail: the NULL branch of link_after
    have hbnext' : bnd.next = none := by simpa using hbnext
    simp only [hbnext']
    rw [Mem.setPrev_eq_some m ins (some base) _ hins]
    simp only [Option.some_bind]
    rw [Mem.setNext_eq_some _ base (some ins) _ (by
      rw [Mem.heap_set_of_ne _ _ _ _ hbase_ins]; exact hb)]
    simp only [Option.some_bind]
    rw [Mem.setNext_eq_some _ ins none _ (by
      rw [Mem.heap_set_of_ne _ _ _ _ (Ne.symm hbase_ins)]
      exact Mem.heap_set_self m ins _)]
    refine ⟨_, rfl, ?_, ?_, ?_⟩
    · rw [seg_append, seg_cons, seg_cons]
      refine ⟨?_, ?_, ?_, seg_nil _ _ _⟩
      · have hcongr : ∀ j ∈ X, (((m.set ins ⟨d, none, some base⟩).set base
            { bnd with next := some ins }).set ins ⟨d, none, some base⟩).heap j
            = m.heap j := by
          intro j hj
          rw [Mem.heap_set_of_ne _ _ _ _ (hXne j hj),
            Mem.heap_set_of_ne _ _ _ _ (hXnb j hj),
            Mem.heap_set_of_ne _ _ _ _ (hXne j hj)]
        rw [show headN (base :: ins :: []) none = some base from rfl, seg_congr hcongr]
        exact hXseg
      · unfold hasLinks
        rw [Mem.heap_set_of_ne _ _ _ _ hbase_ins, Mem.heap_set_self]
        simp [hbprev]
      · unfold hasLinks
        simp
    · refine sameData_trans (sameData_set_prev (some base) hins) ?_
      refine sameData_trans (sameData_set_next (some ins) (by
        rw [Mem.heap_set_of_ne _ _ _ _ hbase_ins]; exact hb)) ?_
      exact sameData_set_next none (by
        rw [Mem.heap_set_of_ne _ _ _ _ (Ne.symm hbase_ins)]
        exact Mem.heap_set_self m ins _)
    · simp
  · -- base has a successor: the non-NULL branch of link_after
    have hbnext' : bnd.next = some y0 := by simpa using hbnext
    simp only [hbnext']
    have hy0ins : y0 ≠ ins := hYne y0 (by simp)
    have hy0base : y0 ≠ base := hYnb y0 (by simp)
    have hy0Y' : y0 ∉ Y' := by
      rcases List.nodup_append.mp hnodup with ⟨_, hc, _⟩
      have h2 := (List.nodup_cons.mp hc).2
      exact (List.nodup_cons.mp h2).1
    have hY'ny0 : ∀ j ∈ Y', j ≠ y0 := fun j hj e => hy0Y' (e ▸ hj)
    have hy0links : hasLinks m y0 (some base) (headN Y' none) := by
      have h1 := (seg_append m X (base :: y0 :: Y')).mp hseg
      have h2 := ((seg_cons m _ base (y0 :: Y') none).mp h1.2).2
      exact ((seg_cons m _ y0 Y' none).mp h2).1
    rcases hasLinks_elim hy0links with ⟨ynd, hyh, hyprev, hynext⟩
    have hY'seg : seg m (some y0) Y' none := by
      have h1 := (seg_append m X (base :: y0 :: Y')).mp hseg
      have h2 := ((seg_cons m _ base (y0 :: Y') none).mp h1.2).2
      exact ((seg_cons m _ y0 Y' none).mp h2).2
    have hy0X : y0 ∉ X := by
      intro hx
      rcases List.nodup_append.mp hnodup with ⟨_, _, hdisj⟩
      exact hdisj hx (List.mem_cons_of_mem base (List.mem_cons_self y0 Y'))
    have hXny0 : ∀ j ∈ X, j ≠ y0 := fun j hj e => hy0X (e ▸ hj)
    -- the four writes
    rw [Mem.setNext_eq_some m ins (some y0) _ hins]
    simp only [Option.some_bind]
    rw [Mem.setPrev_eq_some _ y0 (some ins) _ (by
      rw [Mem.heap_set_of_ne _ _ _ _ hy0ins]; exact hyh)]
    simp only [Option.some_bind]
    rw [Mem.setPrev_eq_some _ ins (some base) _ (by
      rw [Mem.heap_set_of_ne _ _ _ _ (Ne.symm hy0ins)]
      exact Mem.heap_set_self m ins _)]
    simp only [Option.some_bind]
    rw [Mem.setNext_eq_some _ base (some ins) _ (by
      rw [Mem.heap_set_of_ne _ _ _ _ hbase_ins,
        Mem.heap_set_of_ne _ _ _ _ (Ne.symm hy0base),
        Mem.heap_set_of_ne _ _ _ _ hbase_ins]
      exact hb)]
    refine ⟨_, rfl, ?_, ?_, ?_⟩
    · rw [seg_append, seg_cons, seg_cons, seg_cons]
      refine ⟨?_, ?_, ?_, ?_, ?_⟩
      · -- the X prefix is untouched
        have hcongr : ∀ j ∈ X, ((((m.set ins ⟨d, some y0, none⟩).set y0
            { ynd with prev := some ins }).set ins ⟨d, some y0, some base⟩).set base
            { bnd with next := some ins }).heap j = m.heap j := by
          intro j hj
          rw [Mem.heap_set_of_ne _ _ _ _ (hXnb j hj),
            Mem.heap_set_of_ne _ _ _ _ (hXne j hj),
            Mem.heap_set_of_ne _ _ _ _ (hXny0 j hj),
            Mem.heap_set_of_ne _ _ _ _ (hXne j hj)]
        rw [show headN (base :: ins :: y0 :: Y') none = some base from rfl,
          seg_congr hcongr]
        exact hXseg
      · -- links of base
        unfold hasLinks
        simp [hbprev]
      · -- links of ins
        unfold hasLinks
        rw [Mem.heap_set_of_ne _ _ _ _ (Ne.symm hbase_ins), Mem.heap_set_self]
        simp
      · -- links of the old successor
        unfold hasLinks
        rw [Mem.heap_set_of_ne _ _ _ _ hy0base,
          Mem.heap_set_of_ne _ _ _ _ hy0ins, Mem.heap_set_self]
        simp [hynext]
      · -- the Y-tail is untouched
        have hcongr : ∀ j ∈ Y', ((((m.set ins ⟨d, some y0, none⟩).set y0
            { ynd with prev := some ins }).set ins ⟨d, some y0, some base⟩).set base
            { bnd with next := some ins }).heap j = m.heap j := by
          intro j hj
          have hjY : j ∈ y0 :: Y' := List.mem_cons_of_mem y0 hj
          rw [Mem.heap_set_of_ne _ _ _ _ (hYnb j hjY),
            Mem.heap_set_of_ne _ _ _ _ (hYne j hjY),
            Mem.heap_set_of_ne _ _ _ _ (hY'ny0 j hj),
            Mem.heap_set_of_ne _ _ _ _ (hYne j hjY)]
        rw [seg_congr hcongr]
        exact hY'seg
    · refine sameData_trans (sameData_set_next (some y0) hins) ?_
      refine sameData_trans (sameData_set_prev (some ins) (by
        rw [Mem.heap_set_of_ne _ _ _ _ hy0ins]; exact hyh)) ?_
      refine sameData_trans (sameData_set_prev (some base) (by
        rw [Mem.heap_set_of_ne _ _ _ _ (Ne.symm hy0ins)]
        exact Mem.heap_set_self m ins _)) ?_
      exact sameData_set_next (some ins) (by
        rw [Mem.heap_set_of_ne _ _ _ _ hbase_ins,
          Mem.heap_set_of_ne _ _ _ _ (Ne.symm hy0base),
          Mem.heap_set_of_ne _ _ _ _ hbase_ins]
        exact hb)
    · rw [Mem.heap_set_of_ne _ _ _ _ (Ne.symm hbase_ins)]
      simp

/-- Distinct ids stay distinct when a fresh id is inserted in the middle. -/
theorem nodup_insert_mid {X Y : List Nat} {v : Nat} (h : (X ++ Y).Nodup)
    (hv : v ∉ X ++ Y) : (X ++ v :: Y).Nodup := by
  rcases List.nodup_append.mp h with ⟨hX, hY, hdisj⟩
  rw [List.nodup_append]
  refine ⟨hX, ?_, ?_⟩
  · rw [List.nodup_cons]
    exact ⟨fun hvy => hv (List.mem_append_right _ hvy), hY⟩
  · intro a ha hb
    rcases List.mem_cons.mp hb with rfl | hb2
    · exact hv (List.mem_append_left _ ha)
    · exact hdisj ha hb2

/-- Allocation does not disturb a well-formed list. -/
theorem wf_alloc {m : Mem α} {l : ListS} {ids : List Nat} (hwf : wf m l ids) (d : α) :
    wf (m.alloc d).1 l ids := by
  rcases hwf with ⟨hseg, hhead, htail, hsize, hnodup, hbound⟩
  have hfresh : m.nextId ∉ ids := fun h => lt_irrefl _ (hbound _ h)
  refine ⟨(seg_alloc_of_not_mem hfresh).mpr hseg, hhead, htail, hsize, hnodup, ?_⟩
  intro i hi
  calc i < m.nextId := hbound i hi
  _ < (m.alloc d).1.nextId := by simp

theorem head?_append_ne_nil (xs ys : List Nat) (h : xs ≠ []) :
    (xs ++ ys).head? = xs.head? := by
  cases xs with
  | nil => exact absurd rfl h
  | cons a t => rfl

theorem head?_take_pos (ids : List Nat) (i : Nat) (h : 0 < i) :
    (ids.take i).head? = ids.head? := by
  cases ids with
  | nil => simp
  | cons a t =>
    cases i with
    | zero => omega
    | succ k => rfl

theorem mdata_alloc_of_lt [Inhabited α] {m : Mem α} {i : Nat} (d : α)
    (h : i ≠ m.nextId) : mdata (m.alloc d).1 i = mdata m i := by
  unfold mdata
  rw [Mem.heap_alloc_of_ne m d i h]

/-- C7: inserting at a valid index of a well-formed list succeeds, bumps the
count by one, puts the new element exactly at that index (get returns it),
and updates the head pointer when the index is 0. -/
theorem list_add_at_spec [Inhabited α] {m : Mem α} {l : ListS} {ids : List Nat}
    (hwf : wf m l ids) (x : α) (i : Nat) (hi : i < l.size) :
    ∃ m' l', list_add_at m l x i = some (m', l', true) ∧
      wf m' l' (ids.take i ++ m.nextId :: ids.drop i) ∧
      l'.size = l.size + 1 ∧
      dataList m' (ids.take i ++ m.nextId :: ids.drop i) =
        (dataList m ids).take i ++ x :: (dataList m ids).drop i ∧
      list_get m' l' i = some (some x) ∧
      (i = 0 → l'.head = some m.nextId) := by
  have hilen : i < ids.length := by
    rcases hwf with ⟨_, _, _, hsize, _, _⟩
    omega
  obtain ⟨nid, hnid⟩ : ∃ nid, ids[i]? = some nid :=
    ⟨ids[i], List.getElem?_eq_some.mpr ⟨hilen, rfl⟩⟩
  have hdecomp : ids = ids.take i ++ nid :: ids.drop (i + 1) := by
    conv_lhs => rw [← List.take_append_drop i ids]
    congr 1
    rw [List.drop_eq_getElem_cons hilen]
    congr 1
    have := List.getElem?_eq_some.mp hnid
    rcases this with ⟨h2, h3⟩
    exact h3
  have hfresh : m.nextId ∉ ids := by
    rcases hwf with ⟨_, _, _, _, _, hbound⟩
    exact fun h => lt_irrefl _ (hbound _ h)
  have hwf1 : wf (m.alloc x).1 l ids := wf_alloc hwf x
  -- evaluate list_add_at
  rw [list_add_at]
  rw [get_node_at_spec hwf i, hnid]
  simp only [Option.bind_eq_bind, Option.some_bind]
  -- the link step
  rcases hwf1 with ⟨hseg1, hhead1, htail1, hsize1, hnodup1, hbound1⟩
  have hseg1d : seg (m.alloc x).1 none (ids.take i ++ nid :: ids.drop (i + 1)) none := by
    rw [← hdecomp]; exact hseg1
  have hnodup1d : (ids.take i ++ nid :: ids.drop (i + 1)).Nodup := by
    rw [← hdecomp]; exact hnodup1
  have hmem1 : m.nextId ∉ ids.take i ++ nid :: ids.drop (i + 1) := by
    rw [← hdecomp]; exact hfresh
  obtain ⟨m2, hlink, hseg2, hsame2, hins2⟩ :=
    link_behind_orphan hseg1d hnodup1d hmem1 (Mem.heap_alloc_self m x)
  rw [show (m.alloc x).2 = m.nextId from rfl]
  rw [hlink]
  have hdropc : ids.drop i = nid :: ids.drop (i + 1) := by
    rw [List.drop_eq_getElem_cons hilen]
    congr 1
    rcases List.getElem?_eq_some.mp hnid with ⟨h2, h3⟩
    exact h3
  have hids' : ids.take i ++ m.nextId :: ids.drop i
      = ids.take i ++ m.nextId :: nid :: ids.drop (i + 1) := by
    rw [hdropc]
  have htakelen : (ids.take i).length = i := by
    rw [List.length_take]; omega
  have hgetins : (ids.take i ++ m.nextId :: ids.drop i)[i]? = some m.nextId := by
    rw [List.getElem?_append_right (by omega)]
    rw [htakelen]
    simp
  have hsize2 : m2.nextId = m.nextId + 1 := by
    rw [hsame2.1]; simp
  have hdata2 : ∀ j ∈ ids, mdata m2 j = mdata m j := by
    intro j hj
    have hjne : j ≠ m.nextId := by
      intro e; exact hfresh (e ▸ hj)
    calc mdata m2 j = mdata (m.alloc x).1 j := mdata_eq_of_sameData hsame2 j
    _ = mdata m j := mdata_alloc_of_lt x hjne
  have hmins : mdata m2 m.nextId = x := by
    unfold mdata
    rw [hins2]
    rfl
  have hwf2 : wf m2
      { (if i = 0 then { l with head := some m.nextId } else l) with
        size := (if i = 0 then { l with head := some m.nextId } else l).size + 1 }
      (ids.take i ++ m.nextId :: ids.drop i) := by
    refine ⟨?_, ?_, ?_, ?_, ?_, ?_⟩
    · rw [hids']
      exact hseg2
    · by_cases h0 : i = 0
      · subst h0
        simp
      · have : (ids.take i).head? = ids.head? := head?_take_pos ids i (by omega)
        rw [if_neg h0]
        show l.head = _
        rw [hhead1, head?_append_ne_nil _ _ (by
          intro e
          rw [e] at htakelen
          simp at htakelen
          omega), this]
    · show (if i = 0 then { l with head := some m.nextId } else l).tail = _
      have htl : (if i = 0 then { l with head := some m.nextId } else l).tail = l.tail := by
        split <;> rfl
      rw [htl, htail1, getLast?_append_cons]
      conv_lhs => rw [← List.take_append_drop i ids, hdropc, getLast?_append_cons]
      rw [hdropc, List.getLast?_cons_cons]
    · show (if i = 0 then { l with head := some m.nextId } else l).size + 1 = _
      have hsz : (if i = 0 then { l with head := some m.nextId } else l).size = l.size := by
        split <;> rfl
      rw [hsz, List.length_append, List.length_cons, htakelen, List.length_drop]
      omega
    · refine nodup_insert_mid ?_ ?_
      · rw [List.take_append_drop]
        exact hnodup1
      · rw [List.take_append_drop]
        exact hfresh
    · intro j hj
      rw [hsize2]
      rcases List.mem_append.mp hj with h | h
      · have hb := hbound1 j (List.mem_of_mem_take h)
        simp at hb
        omega
      · rcases List.mem_cons.mp h with rfl | h2
        · omega
        · have hb := hbound1 j (List.mem_of_mem_drop h2)
          simp at hb
          omega
  refine ⟨_, _, rfl, hwf2, ?_, ?_, ?_, ?_⟩
  · show (if i = 0 then { l with head := some m.nextId } else l).size + 1 = l.size + 1
    split <;> rfl
  · unfold dataList
    rw [List.map_append, List.map_cons]
    have h1 : (ids.take i).map (mdata m2) = ((ids.map (mdata m)).take i) := by
      rw [← List.map_take]
      exact List.map_congr_left fun j hj => hdata2 j (List.mem_of_mem_take hj)
    have h2 : (ids.drop i).map (mdata m2) = ((ids.map (mdata m)).drop i) := by
      rw [← List.map_drop]
      exact List.map_congr_left fun j hj => hdata2 j (List.mem_of_mem_drop hj)
    rw [h1, h2, hmins]
  · rw [list_get, get_node_at_spec hwf2 i, hgetins]
    simp only [Option.bind_eq_bind, Option.some_bind]
    rw [show m2.getData m.nextId = some x by simp [Mem.getData, Mem.get, hins2]]
    rfl
  · intro h0
    subst h0
    simp

/-- C8: the generic indexed insert rejects index == count on a nonempty list:
it returns false and the list (header and element sequence) is unchanged;
only the leaked fresh allocation has happened. -/
theorem list_add_at_end_rejected [Inhabited α] {m : Mem α} {l : ListS} {ids : List Nat}
    (hwf : wf m l ids) (x : α) (_hn : 1 ≤ l.size) :
    list_add_at m l x l.size = some ((m.alloc x).1, l, false) ∧
      wf (m.alloc x).1 l ids ∧ dataList (m.alloc x).1 ids = dataList m ids := by
  have hfresh : m.nextId ∉ ids := by
    rcases hwf with ⟨_, _, _, _, _, hbound⟩
    exact fun h => lt_irrefl _ (hbound _ h)
  refine ⟨?_, wf_alloc hwf x, ?_⟩
  · rw [list_add_at, get_node_at_spec hwf l.size]
    have hnone : ids[l.size]? = none := by
      rcases hwf with ⟨_, _, _, hsize, _, _⟩
      exact List.getElem?_eq_none (by omega)
    rw [hnone]
    rfl
  · unfold dataList
    refine List.map_congr_left fun j hj => ?_
    refine mdata_alloc_of_lt x ?_
    intro e
    exact hfresh (e ▸ hj)

/-- C5 (amended): on a cursor that has yielded at least one element and still
has an upcoming node, the cursor insert links the fresh node adjacent to the
current position (before the upcoming node for the forward cursor, after it
for the backward one); the forward cursor advances its index while the
backward one leaves it unchanged; both set last to the new node, so the
following cursor remove removes exactly the newly inserted element and
restores the original chain. -/
theorem iter_add_sets_last_to_new_node [Inhabited α] :
    (∀ (m : Mem α) (l : ListS) (X Y : List Nat) (nid : Nat) (it : IterS) (x : α),
      wf m l (X ++ nid :: Y) → it.next = some nid → X ≠ [] →
      ∃ m1 l1 it1, list_iter_add m l it x = some (m1, l1, it1, true) ∧
        it1.index = it.index + 1 ∧ it1.last = some m.nextId ∧
        wf m1 l1 (X ++ m.nextId :: nid :: Y) ∧ l1.size = l.size + 1 ∧
        ∃ m2 l2 it2, list_iter_remove m1 l1 it1 = some (m2, l2, it2, some x) ∧
          wf m2 l2 (X ++ nid :: Y) ∧ l2.size = l.size ∧ it2.last = none ∧
          dataList m2 (X ++ nid :: Y) = dataList m (X ++ nid :: Y)) ∧
    (∀ (m : Mem α) (l : ListS) (X Y : List Nat) (nid : Nat) (it : IterS) (x : α),
      wf m l (X ++ nid :: Y) → it.next = some nid → Y ≠ [] →
      ∃ m1 l1 it1, list_diter_add m l it x = some (m1, l1, it1, true) ∧
        it1.index = it.index ∧ it1.last = some m.nextId ∧
        wf m1 l1 (X ++ nid :: m.nextId :: Y) ∧ l1.size = l.size + 1 ∧
        ∃ m2 l2 it2, list_diter_remove m1 l1 it1 = some (m2, l2, it2, some x) ∧
          wf m2 l2 (X ++ nid :: Y) ∧ l2.size = l.size ∧ it2.last = none ∧
          dataList m2 (X ++ nid :: Y) = dataList m (X ++ nid :: Y)) := by
  constructor
  · intro m l X Y nid it x hwf hnext hXne
    have hwf1 : wf (m.alloc x).1 l (X ++ nid :: Y) := wf_alloc hwf x
    have hfresh : m.nextId ∉ X ++ nid :: Y := by
      rcases hwf with ⟨_, _, _, _, _, hbound⟩
      exact fun h => lt_irrefl _ (hbound _ h)
    rcases hwf1 with ⟨hseg1, hhead1, htail1, hsize1, hnodup1, hbound1⟩
    obtain ⟨m2, hlink, hseg2, hsame2, hins2⟩ :=
      link_behind_orphan hseg1 hnodup1 hfresh (Mem.heap_alloc_self m x)
    rw [list_iter_add]
    rw [show m.alloc x = ((m.alloc x).1, (m.alloc x).2) from rfl]
    rw [show (m.alloc x).2 = m.nextId from rfl]
    rw [hnext]
    simp only [Option.bind_eq_bind, Option.some_bind]
    rw [hlink]
    simp only [Option.some_bind]
    have hwf2 : wf m2 { l with size := l.size + 1 } (X ++ m.nextId :: nid :: Y) := by
      refine ⟨hseg2, ?_, ?_, ?_, ?_, ?_⟩
      · show l.head = _
        rw [hhead1, head?_append_ne_nil _ _ hXne, head?_append_ne_nil _ _ hXne]
      · show l.tail = _
        rw [htail1, getLast?_append_cons, getLast?_append_cons,
          List.getLast?_cons_cons]
      · show l.size + 1 = _
        rw [hsize1]
        simp only [List.length_append, List.length_cons]
        omega
      · exact nodup_insert_mid hnodup1 hfresh
      · intro j hj
        have h2 : m2.nextId = m.nextId + 1 := by rw [hsame2.1]; simp
        rw [h2]
        rcases List.mem_append.mp hj with h | h
        · have hb := hbound1 j (List.mem_append_left _ h)
          simp at hb
          omega
        · rcases List.mem_cons.mp h with rfl | h3
          · omega
          · have hb := hbound1 j (List.mem_append_right _ h3)
            simp at hb
            omega
    obtain ⟨m3, l3, dd, hunlink, hwf3, hsize3, hdd, hnid3, hfree3, hdata3⟩ :=
      unlink_spec hwf2
    have hddx : dd = x := by
      rw [hins2] at hdd
      simpa using hdd.symm
    subst dd
    refine ⟨m2, _, _, rfl, rfl, rfl, hwf2, rfl, m3, l3,
      (⟨it.index + 1, none, some nid⟩ : IterS), ?_, hwf3,
      by simpa using hsize3, rfl, ?_⟩
    · show (unlink m2 { l with size := l.size + 1 } m.nextId).map _ = _
      rw [hunlink]
      rfl
    · unfold dataList
      refine List.map_congr_left fun j hj => ?_
      have hjfresh : j ≠ m.nextId := by
        intro e
        exact hfresh (e ▸ hj)
      unfold mdata
      rw [hdata3 j hjfresh, hsame2.2 j, Mem.heap_alloc_of_ne m x j hjfresh]
  · intro m l X Y nid it x hwf hnext hYne
    have hwf1 : wf (m.alloc x).1 l (X ++ nid :: Y) := wf_alloc hwf x
    have hfresh : m.nextId ∉ X ++ nid :: Y := by
      rcases hwf with ⟨_, _, _, _, _, hbound⟩
      exact fun h => lt_irrefl _ (hbound _ h)
    rcases hwf1 with ⟨hseg1, hhead1, htail1, hsize1, hnodup1, hbound1⟩
    obtain ⟨m2, hlink, hseg2, hsame2, hins2⟩ :=
      link_after_orphan hseg1 hnodup1 hfresh (Mem.heap_alloc_self m x)
    rw [list_diter_add]
    rw [show m.alloc x = ((m.alloc x).1, (m.alloc x).2) from rfl]
    rw [show (m.alloc x).2 = m.nextId from rfl]
    rw [hnext]
    simp only [Option.bind_eq_bind, Option.some_bind]
    rw [hlink]
    simp only [Option.some_bind]
    have hwf2 : wf m2 { l with size := l.size + 1 } (X ++ nid :: m.nextId :: Y) := by
      refine ⟨?_, ?_, ?_, ?_, ?_, ?_⟩
      · exact hseg2
      · show l.head = _
        rw [hhead1]
        cases X with
        | nil => rfl
        | cons a t => rfl
      · show l.tail = _
        rw [htail1, getLast?_append_cons, getLast?_append_cons,
          List.getLast?_cons_cons]
        cases Y with
        | nil => exact absurd rfl hYne
        | cons y0 Y' => rw [List.getLast?_cons_cons, List.getLast?_cons_cons]
      · show l.size + 1 = _
        rw [hsize1]
        simp only [List.length_append, List.length_cons]
        omega
      · have : X ++ nid :: m.nextId :: Y = (X ++ [nid]) ++ m.nextId :: Y := by
          simp
        rw [this]
        refine nodup_insert_mid ?_ ?_
        · simpa using hnodup1
        · simpa using hfresh
      · intro j hj
        have h2 : m2.nextId = m.nextId + 1 := by rw [hsame2.1]; simp
        rw [h2]
        rcases List.mem_append.mp hj with h | h
        · have hb := hbound1 j (List.mem_append_left _ h)
          simp at hb
          omega
        · rcases List.mem_cons.mp h with rfl | h3
          · have hb := hbound1 j (List.mem_append_right _ (List.mem_cons_self _ _))
            simp at hb
            omega
          · rcases List.mem_cons.mp h3 with rfl | h4
            · omega
            · have hb := hbound1 j (List.mem_append_right _ (List.mem_cons_of_mem _ h4))
              simp at hb
              omega
    have hshape : X ++ nid :: m.nextId :: Y = (X ++ [nid]) ++ m.nextId :: Y := by
      simp
    rw [hshape] at hwf2
    obtain ⟨m3, l3, dd, hunlink, hwf3, hsize3, hdd, hnid3, hfree3, hdata3⟩ :=
      unlink_spec hwf2
    have hddx : dd = x := by
      rw [hins2] at hdd
      simpa using hdd.symm
    subst dd
    rw [← hshape] at hwf2
    have hwf3' : wf m3 l3 (X ++ nid :: Y) := by
      have he : (X ++ [nid]) ++ Y = X ++ nid :: Y := by simp
      rw [← he]
      exact hwf3
    refine ⟨m2, _, _, rfl, rfl, rfl, hwf2, rfl, m3, l3,
      (⟨it.index, none, some nid⟩ : IterS), ?_, hwf3',
      by simpa using hsize3, rfl, ?_⟩
    · show (unlink m2 { l with size := l.size + 1 } m.nextId).map _ = _
      rw [hunlink]
      rfl
    · unfold dataList
      refine List.map_congr_left fun j hj => ?_
      have hjfresh : j ≠ m.nextId := by
        intro e
        exact hfresh (e ▸ hj)
      unfold mdata
      rw [hdata3 j hjfresh, hsame2.2 j, Mem.heap_alloc_of_ne m x j hjfresh]

theorem list_add_at_spec_witness :
    wf two12Mem two12L [0, 1] ∧ 1 < two12L.size ∧
    (∃ m' l', list_add_at two12Mem two12L (5 : Int) 1 = some (m', l', true) ∧
      wf m' l' (([0, 1] : List Nat).take 1 ++ two12Mem.nextId :: ([0, 1] : List Nat).drop 1) ∧
      l'.size = two12L.size + 1 ∧
      dataList m' (([0, 1] : List Nat).take 1 ++ two12Mem.nextId :: ([0, 1] : List Nat).drop 1) =
        (dataList two12Mem [0, 1]).take 1 ++ (5 : Int) :: (dataList two12Mem [0, 1]).drop 1 ∧
      list_get m' l' 1 = some (some (5 : Int)) ∧
      (1 = 0 → l'.head = some two12Mem.nextId)) :=
  ⟨by decide, by decide, list_add_at_spec (by decide) 5 1 (by decide)⟩

theorem list_add_at_end_rejected_witness :
    wf one10Mem one10L [0] ∧ 1 ≤ one10L.size ∧
    (list_add_at one10Mem one10L (7 : Int) one10L.size =
        some ((one10Mem.alloc 7).1, one10L, false) ∧
      wf (one10Mem.alloc 7).1 one10L [0] ∧
      dataList (one10Mem.alloc 7).1 [0] = dataList one10Mem [0]) :=
  ⟨by decide, by decide, list_add_at_end_rejected (by decide) 7 (by decide)⟩

theorem iter_add_sets_last_to_new_node_witness :
    wf two12Mem two12L ([0] ++ 1 :: []) ∧ wf two12Mem two12L ([] ++ 0 :: [1]) ∧
    (∃ m1 l1 it1,
      list_iter_add two12Mem two12L ⟨1, some 0, some 1⟩ (9 : Int) = some (m1, l1, it1, true) ∧
      it1.index = 1 + 1 ∧ it1.last = some two12Mem.nextId ∧
      wf m1 l1 ([0] ++ two12Mem.nextId :: 1 :: []) ∧ l1.size = two12L.size + 1 ∧
      ∃ m2 l2 it2, list_iter_remove m1 l1 it1 = some (m2, l2, it2, some (9 : Int)) ∧
        wf m2 l2 ([0] ++ 1 :: []) ∧ l2.size = two12L.size ∧ it2.last = none ∧
        dataList m2 ([0] ++ 1 :: []) = dataList two12Mem ([0] ++ 1 :: [])) ∧
    (∃ m1 l1 it1,
      list_diter_add two12Mem two12L ⟨1, some 1, some 0⟩ (9 : Int) = some (m1, l1, it1, true) ∧
      it1.index = 1 ∧ it1.last = some two12Mem.nextId ∧
      wf m1 l1 ([] ++ 0 :: two12Mem.nextId :: [1]) ∧ l1.size = two12L.size + 1 ∧
      ∃ m2 l2 it2, list_diter_remove m1 l1 it1 = some (m2, l2, it2, some (9 : Int)) ∧
        wf m2 l2 ([] ++ 0 :: [1]) ∧ l2.size = two12L.size ∧ it2.last = none ∧
        dataList m2 ([] ++ 0 :: [1]) = dataList two12Mem ([] ++ 0 :: [1])) :=
  ⟨by decide, by decide,
   iter_add_sets_last_to_new_node.1 two12Mem two12L [0] [] 1 ⟨1, some 0, some 1⟩ 9
     (by decide) rfl (by decide),
   iter_add_sets_last_to_new_node.2 two12Mem two12L [] [1] 0 ⟨1, some 1, some 0⟩ 9
     (by decide) rfl (by decide)⟩

/-- A segment holds as soon as every decomposition point has the right links. -/
theorem seg_of_pointwise {m' : Mem α} : ∀ (ids : List Nat) (p q : Option Nat),
    (∀ P j Q, ids = P ++ j :: Q → hasLinks m' j (lastN p P) (headN Q q)) →
    seg m' p ids q := by
  intro ids
  induction ids with
  | nil => intro p q _; exact trivial
  | cons i rest ih =>
    intro p q h
    rw [seg_cons]
    constructor
    · have := h [] i rest rfl
      simpa using this
    · refine ih (some i) q ?_
      intro P j Q hPQ
      have := h (i :: P) j Q (by rw [hPQ]; simp)
      simpa [lastN_cons] using this

/-- In a duplicate-free list, the decomposition around an element is unique. -/
theorem decomp_unique {j : Nat} : ∀ {P : List Nat} {Q R S : List Nat},
    P ++ j :: Q = R ++ j :: S → (P ++ j :: Q).Nodup → P = R ∧ Q = S := by
  intro P
  induction P with
  | nil =>
    intro Q R S h hnd
    cases R with
    | nil => simpa using h
    | cons r R' =>
      simp only [List.nil_append, List.cons_append, List.cons.injEq] at h
      rcases h with ⟨rfl, rfl⟩
      exact absurd (List.mem_append_right _ (List.mem_cons_self _ _))
        (List.nodup_cons.mp hnd).1
  | cons p P' ih =>
    intro Q R S h hnd
    cases R with
    | nil =>
      simp only [List.nil_append, List.cons_append, List.cons.injEq] at h
      rcases h with ⟨rfl, rfl⟩
      exact absurd (List.mem_append_right _ (List.mem_cons_self _ _))
        (List.nodup_cons.mp hnd).1
    | cons r R' =>
      simp only [List.cons_append, List.cons.injEq] at h
      rcases h with ⟨rfl, h2⟩
      have := ih h2 (List.nodup_cons.mp hnd).2
      exact ⟨by rw [this.1], this.2⟩

theorem headN_ne_of_not_mem {L : List Nat} {j : Nat} (h : j ∉ L) :
    headN L none ≠ some j := by
  cases L with
  | nil => exact fun e => by cases e
  | cons c t =>
    intro e
    injection e with e'
    exact h (List.mem_cons.mpr (Or.inl e'.symm))

theorem lastN_ne_of_not_mem {L : List Nat} {j : Nat} (h : j ∉ L) :
    lastN none L ≠ some j := by
  rcases L.eq_nil_or_concat with rfl | ⟨L', g, rfl⟩
  · exact fun e => by cases e
  · rw [List.concat_eq_append] at h ⊢
    rw [lastN_concat]
    intro e
    injection e with e'
    exact h (List.mem_append_right _ (List.mem_cons.mpr (Or.inl e'.symm)))

theorem headN_append_cons_ne {M1 M2 : List Nat} {j : Nat}
    (hnd : (M1 ++ j :: M2).Nodup) (h1 : M1 ≠ []) :
    headN (M1 ++ j :: M2) none ≠ some j := by
  cases M1 with
  | nil => exact absurd rfl h1
  | cons c M1' =>
    simp only [List.cons_append, headN_cons]
    intro e
    injection e with e'
    rcases List.nodup_append.mp hnd with ⟨_, _, hdisj⟩
    exact hdisj (List.mem_cons.mpr (Or.inl e'.symm)) (List.mem_cons_self _ _)

theorem lastN_append_cons_ne {X1 X2 : List Nat} {j : Nat}
    (hnd : (X1 ++ j :: X2).Nodup) (h2 : X2 ≠ []) :
    lastN none (X1 ++ j :: X2) ≠ some j := by
  rcases X2.eq_nil_or_concat with rfl | ⟨X2', g, rfl⟩
  · exact absurd rfl h2
  · rw [List.concat_eq_append] at hnd ⊢
    rw [show X1 ++ j :: (X2' ++ [g]) = (X1 ++ j :: X2') ++ [g] by simp,
      lastN_concat]
    intro e
    injection e with e'
    have hnd2 : (j :: (X2' ++ [g])).Nodup := hnd.of_append_right
    exact (List.nodup_cons.mp hnd2).1
      (List.mem_append_right _ (List.mem_cons.mpr (Or.inl e'.symm)))

theorem lastN_irrel (L : List Nat) (h : L ≠ []) (p p' : Option Nat) :
    lastN p L = lastN p' L := by
  cases L with
  | nil => exact absurd rfl h
  | cons c t => rw [lastN_cons, lastN_cons]

theorem headN_irrel (L : List Nat) (h : L ≠ []) (q q' : Option Nat) :
    headN L q = headN L q' := by
  cases L with
  | nil => exact absurd rfl h
  | cons c t => rw [headN_cons, headN_cons]

/-- Rebuilding the chain after the two endpoints of a sub-chain a :: M ++ [b]
have traded places: given the links of the rewritten cells and that all other
cells kept their contents, the swapped chain is a segment again. -/
theorem swap_chain_seg {m m' : Mem α} {X M Z : List Nat} {a b : Nat}
    (hseg : seg m none (X ++ a :: (M ++ b :: Z)) none)
    (hnodup : (X ++ a :: (M ++ b :: Z)).Nodup)
    (ha : hasLinks m' a (lastN (some b) M) (headN Z none))
    (hb : hasLinks m' b (lastN none X) (headN M (some a)))
    (hx : ∀ X1 xl, X = X1 ++ [xl] → hasLinks m' xl (lastN none X1) (some b))
    (hz : ∀ z0 Z', Z = z0 :: Z' → hasLinks m' z0 (some a) (headN Z' none))
    (hm0 : ∀ c M', M = c :: M' → hasLinks m' c (some b) (headN M' (some a)))
    (hml : ∀ M1 c, M = M1 ++ [c] → hasLinks m' c (lastN (some b) M1) (some a))
    (hW : ∀ j, j ≠ a → j ≠ b → lastN none X ≠ some j → headN Z none ≠ some j →
      headN M none ≠ some j → lastN none M ≠ some j → m'.heap j = m.heap j) :
    seg m' none (X ++ b :: (M ++ a :: Z)) none := by
  have hperm : (X ++ a :: (M ++ b :: Z)).Perm (X ++ b :: (M ++ a :: Z)) := by
    refine List.Perm.append_left X ?_
    refine List.Perm.trans (List.Perm.cons a List.perm_middle) ?_
    refine List.Perm.trans (List.Perm.swap b a _) ?_
    exact List.Perm.cons b List.perm_middle.symm
  have hnodup' : (X ++ b :: (M ++ a :: Z)).Nodup := hperm.nodup hnodup
  -- distinctness facts from the original chain
  rcases List.nodup_append.mp hnodup with ⟨hXnd, hrest1, hdisj1⟩
  rcases List.nodup_cons.mp hrest1 with ⟨haMem, hrest2⟩
  rcases List.nodup_append.mp hrest2 with ⟨hMnd, hrest3, hdisj2⟩
  rcases List.nodup_cons.mp hrest3 with ⟨hbZ, hZnd⟩
  have hXa : a ∉ X := fun h => hdisj1 h (List.mem_cons_self _ _)
  have hXb : b ∉ X := fun h =>
    hdisj1 h (List.mem_cons_of_mem a (List.mem_append_right M (List.mem_cons_self _ _)))
  have hXM : ∀ j ∈ X, j ∉ M := fun j hj hm2 =>
    hdisj1 hj (List.mem_cons_of_mem a (List.mem_append_left _ hm2))
  have hXZ : ∀ j ∈ X, j ∉ Z := fun j hj hz2 =>
    hdisj1 hj (List.mem_cons_of_mem a (List.mem_append_right _ (List.mem_cons_of_mem b hz2)))
  have haM : a ∉ M := fun h => haMem (List.mem_append_left _ h)
  have hab : a ≠ b := fun e =>
    haMem (List.mem_append_right _ (by rw [e]; exact List.mem_cons_self _ _))
  have haZ : a ∉ Z := fun h => haMem (List.mem_append_right _ (List.mem_cons_of_mem b h))
  have hMb : b ∉ M := fun h => hdisj2 h (List.mem_cons_self _ _)
  have hMZ : ∀ j ∈ M, j ∉ Z := fun j hj hz2 => hdisj2 hj (List.mem_cons_of_mem b hz2)
  refine seg_of_pointwise _ none none ?_
  intro P j Q hPQ
  have hjmem : j ∈ X ++ b :: (M ++ a :: Z) := by
    rw [hPQ]; exact List.mem_append_right _ (List.mem_cons_self _ _)
  rcases List.mem_append.mp hjmem with hjX | hjrest
  · -- j lies in X
    obtain ⟨X1, X2, rfl⟩ := List.append_of_mem hjX
    have hcanon : (X1 ++ j :: X2) ++ b :: (M ++ a :: Z)
        = X1 ++ j :: (X2 ++ b :: (M ++ a :: Z)) := by simp
    obtain ⟨rfl, rfl⟩ :=
      decomp_unique (hcanon.symm.trans hPQ) (by rw [← hcanon]; exact hnodup')
    rw [headN_append]
    cases X2 with
    | nil =>
      have := hx X1 j rfl
      simpa using this
    | cons x2 X2' =>
      have horig : hasLinks m j (lastN none X1) (headN (x2 :: X2') (some a)) := by
        have hd : seg m none (X1 ++ j :: ((x2 :: X2') ++ a :: (M ++ b :: Z))) none := by
          rw [show X1 ++ j :: ((x2 :: X2') ++ a :: (M ++ b :: Z))
              = (X1 ++ j :: (x2 :: X2')) ++ a :: (M ++ b :: Z) by simp]
          exact hseg
        have := seg_links_of_decomp hd
        rwa [headN_append] at this
      have hcell : m'.heap j = m.heap j := by
        refine hW j ?_ ?_ ?_ ?_ ?_ ?_
        · exact fun e => hXa (e ▸ hjX)
        · exact fun e => hXb (e ▸ hjX)
        · exact lastN_append_cons_ne hXnd (by simp)
        · exact headN_ne_of_not_mem (hXZ j hjX)
        · exact headN_ne_of_not_mem (fun h => hXM j hjX h)
        · exact lastN_ne_of_not_mem (fun h => hXM j hjX h)
      unfold hasLinks at horig ⊢
      rw [hcell]
      simpa using horig
  rcases List.mem_cons.mp hjrest with rfl | hjrest2
  · -- j = b
    obtain ⟨rfl, rfl⟩ := decomp_unique hPQ hnodup'
    rw [headN_append]
    exact hb
  rcases List.mem_append.mp hjrest2 with hjM | hjaZ
  · -- j lies in M
    obtain ⟨M1, M2, rfl⟩ := List.append_of_mem hjM
    have hcanon : X ++ b :: ((M1 ++ j :: M2) ++ a :: Z)
        = (X ++ b :: M1) ++ j :: (M2 ++ a :: Z) := by simp
    obtain ⟨rfl, rfl⟩ :=
      decomp_unique (hcanon.symm.trans hPQ) (by rw [← hcanon]; exact hnodup')
    rw [lastN_append, lastN_cons, headN_append]
    cases M1 with
    | nil =>
      have := hm0 j M2 rfl
      simpa using this
    | cons c M1' =>
      rcases M2.eq_nil_or_concat with rfl | ⟨M2', d, rfl⟩
      · have := hml (c :: M1') j rfl
        simpa using this
      · rw [List.concat_eq_append] at hjM hMnd hseg haM hMb hXM hMZ hW ⊢
        have horig : hasLinks m j (lastN (some a) (c :: M1'))
            (headN (M2' ++ [d]) (some b)) := by
          have hd : seg m none
              ((X ++ a :: (c :: M1')) ++ j :: ((M2' ++ [d]) ++ b :: Z)) none := by
            rw [show (X ++ a :: (c :: M1')) ++ j :: ((M2' ++ [d]) ++ b :: Z)
                = X ++ a :: (((c :: M1') ++ j :: (M2' ++ [d])) ++ b :: Z) by simp]
            exact hseg
          have := seg_links_of_decomp hd
          rwa [lastN_append, lastN_cons, headN_append] at this
        have hcell : m'.heap j = m.heap j := by
          refine hW j ?_ ?_ ?_ ?_ ?_ ?_
          · exact fun e => haM (e ▸ hjM)
          · exact fun e => hMb (e ▸ hjM)
          · exact lastN_ne_of_not_mem (fun h => hXM j h hjM)
          · exact headN_ne_of_not_mem (hMZ j hjM)
          · exact headN_append_cons_ne hMnd (by simp)
          · exact lastN_append_cons_ne hMnd (by simp)
        unfold hasLinks at horig ⊢
        rw [hcell]
        simp only [headN_cons]
        rw [lastN_irrel (c :: M1') (by simp) (some b) (some a),
          headN_irrel (M2' ++ [d]) (by simp) (some a) (some b)]
        exact horig
  rcases List.mem_cons.mp hjaZ with rfl | hjZ
  · -- j = a (a was substituted by j)
    have hcanon : X ++ b :: (M ++ j :: Z) = (X ++ b :: M) ++ j :: Z := by simp
    obtain ⟨rfl, rfl⟩ :=
      decomp_unique (hcanon.symm.trans hPQ) (by rw [← hcanon]; exact hnodup')
    rw [lastN_append, lastN_cons]
    exact ha
  · -- j lies in Z
    obtain ⟨Z1, Z2, rfl⟩ := List.append_of_mem hjZ
    have hcanon : X ++ b :: (M ++ a :: (Z1 ++ j :: Z2))
        = (X ++ b :: (M ++ a :: Z1)) ++ j :: Z2 := by simp
    obtain ⟨rfl, rfl⟩ :=
      decomp_unique (hcanon.symm.trans hPQ) (by rw [← hcanon]; exact hnodup')
    rw [lastN_append, lastN_cons, lastN_append, lastN_cons]
    cases Z1 with
    | nil =>
      have := hz j Z2 rfl
      simpa using this
    | cons z1 Z1' =>
      have horig : hasLinks m j (lastN (some b) (z1 :: Z1')) (headN Z2 none) := by
        have hd : seg m none
            ((X ++ a :: (M ++ b :: (z1 :: Z1'))) ++ j :: Z2) none := by
          rw [show (X ++ a :: (M ++ b :: (z1 :: Z1'))) ++ j :: Z2
              = X ++ a :: (M ++ b :: ((z1 :: Z1') ++ j :: Z2)) by simp]
          exact hseg
        have := seg_links_of_decomp hd
        rwa [lastN_append, lastN_cons, lastN_append, lastN_cons] at this
      have hcell : m'.heap j = m.heap j := by
        refine hW j ?_ ?_ ?_ ?_ ?_ ?_
        · exact fun e => haZ (e ▸ hjZ)
        · exact fun e => hbZ (e ▸ hjZ)
        · exact lastN_ne_of_not_mem (fun h => hXZ j h hjZ)
        · exact headN_append_cons_ne hZnd (by simp)
        · exact headN_ne_of_not_mem (fun h => hMZ j h hjZ)
        · exact lastN_ne_of_not_mem (fun h => hMZ j h hjZ)
      unfold hasLinks at horig ⊢
      rw [hcell]
      rw [lastN_irrel (z1 :: Z1') (by simp) (some a) (some b)]
      exact horig

theorem lastN_some_eq (c : Nat) (L : List Nat) : ∃ v, lastN (some c) L = some v := by
  unfold lastN
  cases L.getLast? <;> exact ⟨_, rfl⟩

/-- Replacing a cell with one holding the same data preserves all data. -/
theorem sameData_set_data {m : Mem α} {i : Nat} {nd' : NodeRec α}
    (h : (m.heap i).map NodeRec.data = some nd'.data) : sameData m (m.set i nd') := by
  refine ⟨rfl, fun j => ?_⟩
  by_cases hj : j = i
  · subst hj
    rw [Mem.heap_set_self]
    exact h.symm
  · rw [Mem.heap_set_of_ne m i j _ hj]

/-- swap_adjacent on two neighbouring chain members a and b (a before b)
succeeds and exchanges their positions, touching no data. -/
theorem swap_adjacent_spec {m : Mem α} {X Z : List Nat} {a b : Nat}
    (hseg : seg m none (X ++ a :: b :: Z) none)
    (hnodup : (X ++ a :: b :: Z).Nodup)
    (hXZiff : X = [] ↔ Z = []) :
    ∃ m', swap_adjacent m a b = some m' ∧
      seg m' none (X ++ b :: a :: Z) none ∧ sameData m m' := by
  have hA : hasLinks m a (lastN none X) (some b) := by
    have := seg_links_of_decomp hseg
    simpa using this
  have hB : hasLinks m b (some a) (headN Z none) := by
    have hd : seg m none ((X ++ [a]) ++ b :: Z) none := by
      rw [show (X ++ [a]) ++ b :: Z = X ++ a :: b :: Z by simp]
      exact hseg
    have := seg_links_of_decomp hd
    simpa using this
  rcases hasLinks_elim hA with ⟨nda, hah, haprev, hanext⟩
  rcases hasLinks_elim hB with ⟨ndb, hbh, hbprev, hbnext⟩
  obtain ⟨ad, an, ap⟩ := nda
  obtain ⟨bd, bn, bp⟩ := ndb
  simp only at hah haprev hanext hbh hbprev hbnext
  subst hanext
  subst hbprev
  rcases List.nodup_append.mp hnodup with ⟨hXnd, hr1, hd1⟩
  rcases List.nodup_cons.mp hr1 with ⟨haMem, hr2⟩
  rcases List.nodup_cons.mp hr2 with ⟨hbZ, hZnd⟩
  have hab : a ≠ b := fun e => haMem (List.mem_cons.mpr (Or.inl e))
  have haZ : a ∉ Z := fun h => haMem (List.mem_cons_of_mem b h)
  have hXa : a ∉ X := fun h => hd1 h (List.mem_cons_self _ _)
  have hXb : b ∉ X := fun h => hd1 h (List.mem_cons_of_mem a (List.mem_cons_self _ _))
  have hXZd : ∀ j ∈ X, j ∉ Z := fun j hj hz =>
    hd1 hj (List.mem_cons_of_mem a (List.mem_cons_of_mem b hz))
  rw [swap_adjacent]
  rw [show m.get a = some ⟨ad, some b, ap⟩ from hah]
  simp only [Option.bind_eq_bind, Option.some_bind]
  simp only [if_true]
  rw [show m.get b = some ⟨bd, bn, some a⟩ from hbh]
  simp only [Option.some_bind]
  rcases X.eq_nil_or_concat with rfl | ⟨X1, xl, rfl⟩
  · -- X = [] and hence Z = []
    have hZnil : Z = [] := hXZiff.mp rfl
    subst hZnil
    have hbn : bn = none := by simpa using hbnext
    have hap : ap = none := by simpa using haprev
    subst hbn
    subst hap
    have hR2 : (m.set a ⟨ad, none, none⟩).heap b = some ⟨bd, none, some a⟩ := by
      rw [Mem.heap_set_of_ne _ _ _ _ (Ne.symm hab)]; exact hbh
    have hR3 : ((m.set a ⟨ad, none, none⟩).set b ⟨bd, none, none⟩).heap a
        = some ⟨ad, none, none⟩ := by
      rw [Mem.heap_set_of_ne _ _ _ _ hab]; exact Mem.heap_set_self m a _
    have hR4 : (((m.set a ⟨ad, none, none⟩).set b ⟨bd, none, none⟩).set a
        ⟨ad, none, some b⟩).heap b = some ⟨bd, none, none⟩ := by
      rw [Mem.heap_set_of_ne _ _ _ _ (Ne.symm hab)]; exact Mem.heap_set_self _ b _
    simp only [Option.pure_def, Option.some_bind]
    rw [show m.get b = some ⟨bd, none, some a⟩ from hbh]
    simp only [Option.some_bind]
    rw [Mem.setNext_eq_some m a none ⟨ad, some b, none⟩ hah]
    simp only [Option.some_bind]
    rw [show (m.set a ⟨ad, none, none⟩).get a = some ⟨ad, none, none⟩ from
      Mem.heap_set_self m a _]
    simp only [Option.some_bind, Option.pure_def]
    rw [Mem.setPrev_eq_some _ b none _ hR2]
    simp only [Option.some_bind]
    rw [Mem.setPrev_eq_some _ a (some b) _ hR3]
    simp only [Option.some_bind]
    rw [Mem.setNext_eq_some _ b (some a) _ hR4]
    refine ⟨_, rfl, ?_, ?_⟩
    · rw [show ([] : List Nat) ++ b :: a :: ([] : List Nat)
          = [] ++ b :: (([] : List Nat) ++ a :: []) by simp]
      refine @swap_chain_seg α m _ _ _ _ _ _ ?_ ?_ ?_ ?_ ?_ ?_ ?_ ?_ ?_
      · simpa using hseg
      · simpa using hnodup
      · unfold hasLinks
        rw [Mem.heap_set_of_ne _ _ _ _ hab, Mem.heap_set_self]
        simp
      · unfold hasLinks
        rw [Mem.heap_set_self]
        simp
      · intro X1 xl h; cases X1 <;> cases h
      · intro z0 Z' h; cases h
      · intro c M' h; cases h
      · intro M1 c h; cases M1 <;> cases h
      · intro j hja hjb _ _ _ _
        rw [Mem.heap_set_of_ne _ _ _ _ hjb, Mem.heap_set_of_ne _ _ _ _ hja,
          Mem.heap_set_of_ne _ _ _ _ hjb, Mem.heap_set_of_ne _ _ _ _ hja]
    · refine sameData_trans ?_ (sameData_set_data (by simp [hR4]))
      refine sameData_trans ?_ (sameData_set_data (by simp [hR3]))
      refine sameData_trans ?_ (sameData_set_data (by simp [hR2]))
      exact sameData_set_data (by simp [hah])
  · -- X = X1 ++ [xl], so Z = z0 :: Z'
    have hZne : Z ≠ [] := by
      intro h
      have := hXZiff.mpr h
      simp at this
    rcases Z with _ | ⟨z0, Z'⟩
    · exact absurd rfl hZne
    rw [List.concat_eq_append] at hseg hnodup hXa hXb hXZd hXnd haprev hA ⊢
    have hbn : bn = some z0 := by simpa using hbnext
    have hap : ap = some xl := by
      rw [haprev, lastN_concat]
    subst hbn
    subst hap
    have hzl : hasLinks m z0 (some b) (headN Z' none) := by
      have hd : seg m none ((((X1 ++ [xl]) ++ [a]) ++ [b]) ++ z0 :: Z') none := by
        rw [show (((X1 ++ [xl]) ++ [a]) ++ [b]) ++ z0 :: Z'
            = (X1 ++ [xl]) ++ a :: b :: z0 :: Z' by simp]
        exact hseg
      have := seg_links_of_decomp hd
      rwa [lastN_concat] at this
    have hxl : hasLinks m xl (lastN none X1) (some a) := by
      have hd : seg m none (X1 ++ xl :: (a :: b :: z0 :: Z')) none := by
        rw [show X1 ++ xl :: (a :: b :: z0 :: Z')
            = (X1 ++ [xl]) ++ a :: b :: z0 :: Z' by simp]
        exact hseg
      have := seg_links_of_decomp hd
      simpa using this
    rcases hasLinks_elim hzl with ⟨ndz, hzh, hzprev, hznext⟩
    rcases hasLinks_elim hxl with ⟨ndx, hxh, hxprev, hxnext⟩
    obtain ⟨zd, zn, zp⟩ := ndz
    obtain ⟨xd, xn, xp⟩ := ndx
    simp only at hzh hzprev hznext hxh hxprev hxnext
    subst hzprev
    subst hznext
    subst hxnext
    subst hxprev
    have hxlX1 : xl ∉ X1 := by
      rcases List.nodup_append.mp hXnd with ⟨_, _, hdj⟩
      exact fun h => hdj h (List.mem_cons_self _ _)
    have hxlmem : xl ∈ X1 ++ [xl] := List.mem_append_right _ (List.mem_cons_self _ _)
    have hz0mem : z0 ∈ z0 :: Z' := List.mem_cons_self _ _
    have hxla : xl ≠ a := fun e => hXa (e ▸ hxlmem)
    have hxlb : xl ≠ b := fun e => hXb (e ▸ hxlmem)
    have hxlz0 : xl ≠ z0 := fun e => hXZd xl hxlmem (e ▸ hz0mem)
    have haz0 : a ≠ z0 := fun e => haZ (e ▸ hz0mem)
    have hbz0 : b ≠ z0 := fun e => hbZ (e ▸ hz0mem)
    have hRb1 : (m.set z0 ⟨zd, headN Z' none, some a⟩).heap b
        = some ⟨bd, some z0, some a⟩ := by
      rw [Mem.heap_set_of_ne _ _ _ _ hbz0]; exact hbh
    have hRa1 : (m.set z0 ⟨zd, headN Z' none, some a⟩).heap a
        = some ⟨ad, some b, some xl⟩ := by
      rw [Mem.heap_set_of_ne _ _ _ _ haz0]; exact hah
    have hRx1 : ((m.set z0 ⟨zd, headN Z' none, some a⟩).set a
        ⟨ad, some z0, some xl⟩).heap xl = some ⟨xd, some a, lastN none X1⟩ := by
      rw [Mem.heap_set_of_ne _ _ _ _ hxla, Mem.heap_set_of_ne _ _ _ _ hxlz0]
      exact hxh
    have hRb2 : (((m.set z0 ⟨zd, headN Z' none, some a⟩).set a
        ⟨ad, some z0, some xl⟩).set xl ⟨xd, some b, lastN none X1⟩).heap b
        = some ⟨bd, some z0, some a⟩ := by
      rw [Mem.heap_set_of_ne _ _ _ _ hxlb.symm, Mem.heap_set_of_ne _ _ _ _ (Ne.symm hab),
        Mem.heap_set_of_ne _ _ _ _ hbz0]
      exact hbh
    have hRa2 : ((((m.set z0 ⟨zd, headN Z' none, some a⟩).set a
        ⟨ad, some z0, some xl⟩).set xl ⟨xd, some b, lastN none X1⟩).set b
        ⟨bd, some z0, some xl⟩).heap a = some ⟨ad, some z0, some xl⟩ := by
      rw [Mem.heap_set_of_ne _ _ _ _ hab, Mem.heap_set_of_ne _ _ _ _ (Ne.symm hxla)]
      exact Mem.heap_set_self _ a _
    have hRb3 : (((((m.set z0 ⟨zd, headN Z' none, some a⟩).set a
        ⟨ad, some z0, some xl⟩).set xl ⟨xd, some b, lastN none X1⟩).set b
        ⟨bd, some z0, some xl⟩).set a ⟨ad, some z0, some b⟩).heap b
        = some ⟨bd, some z0, some xl⟩ := by
      rw [Mem.heap_set_of_ne _ _ _ _ (Ne.symm hab)]
      exact Mem.heap_set_self _ b _
    simp only [Option.some_bind]
    rw [Mem.setPrev_eq_some m z0 (some a) ⟨zd, headN Z' none, some b⟩ hzh]
    simp only [Option.some_bind]
    rw [show (m.set z0 ⟨zd, headN Z' none, some a⟩).get b = some ⟨bd, some z0, some a⟩
        from hRb1]
    simp only [Option.some_bind]
    rw [Mem.setNext_eq_some _ a (some z0) _ hRa1]
    simp only [Option.some_bind]
    rw [show ((m.set z0 ⟨zd, headN Z' none, some a⟩).set a
        ⟨ad, some z0, some xl⟩).get a = some ⟨ad, some z0, some xl⟩ from
      Mem.heap_set_self _ a _]
    simp only [Option.some_bind]
    rw [Mem.setNext_eq_some _ xl (some b) _ hRx1]
    simp only [Option.some_bind]
    rw [show (((m.set z0 ⟨zd, headN Z' none, some a⟩).set a
        ⟨ad, some z0, some xl⟩).set xl ⟨xd, some b, lastN none X1⟩).get a
        = some ⟨ad, some z0, some xl⟩ from by
      unfold Mem.get
      rw [Mem.heap_set_of_ne _ _ _ _ (Ne.symm hxla)]
      exact Mem.heap_set_self _ a _]
    simp only [Option.some_bind]
    rw [Mem.setPrev_eq_some _ b (some xl) _ hRb2]
    simp only [Option.some_bind]
    rw [Mem.setPrev_eq_some _ a (some b) _ hRa2]
    simp only [Option.some_bind]
    rw [Mem.setNext_eq_some _ b (some a) _ hRb3]
    refine ⟨_, rfl, ?_, ?_⟩
    · rw [show (X1 ++ [xl]) ++ b :: a :: z0 :: Z'
          = (X1 ++ [xl]) ++ b :: (([] : List Nat) ++ a :: (z0 :: Z')) by simp]
      refine @swap_chain_seg α m _ _ _ _ _ _ ?_ ?_ ?_ ?_ ?_ ?_ ?_ ?_ ?_
      · simpa using hseg
      · simpa using hnodup
      · unfold hasLinks
        rw [Mem.heap_set_of_ne _ _ _ _ hab, Mem.heap_set_self]
        simp
      · unfold hasLinks
        rw [Mem.heap_set_self]
        simp [lastN_concat]
      · intro X1' xl' h
        have hx1 : X1' = X1 ∧ xl' = xl := by
          have h2 : X1' ++ [xl'] = X1 ++ [xl] := h.symm
          exact ⟨(List.append_inj' h2 rfl).1,
            by simpa using (List.append_inj' h2 rfl).2⟩
        rcases hx1 with ⟨rfl, rfl⟩
        unfold hasLinks
        rw [Mem.heap_set_of_ne _ _ _ _ hxlb, Mem.heap_set_of_ne _ _ _ _ hxla,
          Mem.heap_set_of_ne _ _ _ _ hxlb, Mem.heap_set_self]
        simp
      · intro z0' Z'' h
        injection h with h1 h2
        subst h1; subst h2
        unfold hasLinks
        rw [Mem.heap_set_of_ne _ _ _ _ hbz0.symm, Mem.heap_set_of_ne _ _ _ _ haz0.symm,
          Mem.heap_set_of_ne _ _ _ _ hbz0.symm, Mem.heap_set_of_ne _ _ _ _ hxlz0.symm,
          Mem.heap_set_of_ne _ _ _ _ haz0.symm, Mem.heap_set_self]
        simp
      · intro c M' h; cases h
      · intro M1 c h; cases M1 <;> cases h
      · intro j hja hjb hjxl hjz0 _ _
        have hjxl' : j ≠ xl := by
          intro e
          exact hjxl (by rw [lastN_concat, e])
        have hjz0' : j ≠ z0 := by
          intro e
          exact hjz0 (by rw [e]; rfl)
        rw [Mem.heap_set_of_ne _ _ _ _ hjb, Mem.heap_set_of_ne _ _ _ _ hja,
          Mem.heap_set_of_ne _ _ _ _ hjb, Mem.heap_set_of_ne _ _ _ _ hjxl',
          Mem.heap_set_of_ne _ _ _ _ hja, Mem.heap_set_of_ne _ _ _ _ hjz0']
    · refine sameData_trans ?_ (sameData_set_data (by simp [hRb3]))
      refine sameData_trans ?_ (sameData_set_data (by simp [hRa2]))
      refine sameData_trans ?_ (sameData_set_data (by simp [hRb2]))
      refine sameData_trans ?_ (sameData_set_data (by simp [hRx1]))
      refine sameData_trans ?_ (sameData_set_data (by simp [hRa1]))
      exact sameData_set_data (by simp [hzh])
/-- swap on two chain members a and b (a anywhere before b) succeeds and
exchanges their positions, touching no data.  The two flanks X and Z are
simultaneously empty or simultaneously nonempty, as in the reverse loop. -/
theorem swap_spec {m : Mem α} {X M Z : List Nat} {a b : Nat}
    (hseg : seg m none (X ++ a :: (M ++ b :: Z)) none)
    (hnodup : (X ++ a :: (M ++ b :: Z)).Nodup)
    (hXZiff : X = [] ↔ Z = []) :
    ∃ m', swap m a b = some m' ∧
      seg m' none (X ++ b :: (M ++ a :: Z)) none ∧ sameData m m' := by
  have hA : hasLinks m a (lastN none X) (headN M (some b)) := by
    have := seg_links_of_decomp hseg
    rwa [headN_append] at this
  have hB : hasLinks m b (lastN (some a) M) (headN Z none) := by
    have hd : seg m none ((X ++ a :: M) ++ b :: Z) none := by
      rw [show (X ++ a :: M) ++ b :: Z = X ++ a :: (M ++ b :: Z) by simp]
      exact hseg
    have := seg_links_of_decomp hd
    rwa [lastN_append, lastN_cons] at this
  rcases hasLinks_elim hA with ⟨nda, hah, haprev, hanext⟩
  rcases hasLinks_elim hB with ⟨ndb, hbh, hbprev, hbnext⟩
  obtain ⟨ad, an, ap⟩ := nda
  obtain ⟨bd, bn, bp⟩ := ndb
  simp only at hah haprev hanext hbh hbprev hbnext
  subst hanext hbnext haprev hbprev
  rcases List.nodup_append.mp hnodup with ⟨hXnd, hr1, hd1⟩
  rcases List.nodup_cons.mp hr1 with ⟨haMem, hr2⟩
  rcases List.nodup_append.mp hr2 with ⟨hMnd, hr3, hd2⟩
  rcases List.nodup_cons.mp hr3 with ⟨hbZ, hZnd⟩
  have hab : a ≠ b := fun e =>
    haMem (List.mem_append_right _ (List.mem_cons.mpr (Or.inl e)))
  have haM : a ∉ M := fun h => haMem (List.mem_append_left _ h)
  have haZ : a ∉ Z := fun h =>
    haMem (List.mem_append_right _ (List.mem_cons_of_mem b h))
  have hXa : a ∉ X := fun h => hd1 h (List.mem_cons_self _ _)
  have hXb : b ∉ X := fun h =>
    hd1 h (List.mem_cons_of_mem a (List.mem_append_right _ (List.mem_cons_self _ _)))
  have hXM : ∀ j ∈ X, j ∉ M := fun j hj hjm =>
    hd1 hj (List.mem_cons_of_mem a (List.mem_append_left _ hjm))
  have hXZd : ∀ j ∈ X, j ∉ Z := fun j hj hz =>
    hd1 hj (List.mem_cons_of_mem a (List.mem_append_right _ (List.mem_cons_of_mem b hz)))
  have hMb : b ∉ M := fun h => hd2 h (List.mem_cons_self _ _)
  have hMZ : ∀ j ∈ M, j ∉ Z := fun j hj hz => hd2 hj (List.mem_cons_of_mem b hz)
  rw [swap]
  rw [show m.get a = some ⟨ad, headN M (some b), lastN none X⟩ from hah]
  simp only [Option.bind_eq_bind, Option.some_bind]
  rw [show m.get b = some ⟨bd, headN Z none, lastN (some a) M⟩ from hbh]
  simp only [Option.some_bind]
  cases M with
  | nil =>
    simp only [headN_nil]
    rw [if_pos (Or.inl trivial)]
    have hseg' : seg m none (X ++ a :: b :: Z) none := by
      rw [show X ++ a :: b :: Z = X ++ a :: ([] ++ b :: Z) by simp]
      exact hseg
    have hnodup' : (X ++ a :: b :: Z).Nodup := by
      rw [show X ++ a :: b :: Z = X ++ a :: ([] ++ b :: Z) by simp]
      exact hnodup
    obtain ⟨m', hm', hseg2, hsame⟩ := swap_adjacent_spec hseg' hnodup' hXZiff
    refine ⟨m', hm', ?_, hsame⟩
    rw [show X ++ b :: ([] ++ a :: Z) = X ++ b :: a :: Z by simp]
    exact hseg2
  | cons m0 M' =>
    have hm0M : m0 ∈ m0 :: M' := List.mem_cons_self _ _
    have hm0b : m0 ≠ b := fun e => hMb (e ▸ hm0M)
    have hm0a : m0 ≠ a := fun e => haM (e ▸ hm0M)
    rw [if_neg (by
      rintro (h | h)
      · exact hm0b (by simpa using h)
      · exact headN_ne_of_not_mem haZ h)]
    have hm0l : hasLinks m m0 (some a) (headN M' (some b)) := by
      have hd : seg m none ((X ++ [a]) ++ m0 :: (M' ++ b :: Z)) none := by
        rw [show (X ++ [a]) ++ m0 :: (M' ++ b :: Z)
            = X ++ a :: ((m0 :: M') ++ b :: Z) by simp]
        exact hseg
      have := seg_links_of_decomp hd
      rwa [lastN_concat, headN_append, headN_cons] at this
    rcases hasLinks_elim hm0l with ⟨ndm0, hm0h, hm0prev, hm0next⟩
    obtain ⟨m0d, m0n, m0p⟩ := ndm0
    simp only at hm0h hm0prev hm0next
    subst hm0prev hm0next
    rcases X.eq_nil_or_concat with rfl | ⟨X1, xl, rfl⟩
    · -- X = [] and hence Z = []
      have hZnil : Z = [] := hXZiff.mp rfl
      subst hZnil
      rcases M'.eq_nil_or_concat with rfl | ⟨M'', ml, rfl⟩
      · -- M = [m0]
        simp only [headN_nil, headN_cons, lastN_nil, lastN_cons] at hah hbh hm0h ⊢
        have hS2 : (m.set b ⟨bd, none, none⟩).heap m0 = some ⟨m0d, some b, some a⟩ := by
          rw [Mem.heap_set_of_ne _ _ _ _ hm0b]; exact hm0h
        have hS3 : ((m.set b ⟨bd, none, none⟩).set m0 ⟨m0d, some b, some b⟩).heap b
            = some ⟨bd, none, none⟩ := by
          rw [Mem.heap_set_of_ne _ _ _ _ (Ne.symm hm0b)]
          exact Mem.heap_set_self _ b _
        have hS4 : (((m.set b ⟨bd, none, none⟩).set m0 ⟨m0d, some b, some b⟩).set b
            ⟨bd, some m0, none⟩).heap m0 = some ⟨m0d, some b, some b⟩ := by
          rw [Mem.heap_set_of_ne _ _ _ _ hm0b]
          exact Mem.heap_set_self _ m0 _
        have hS5 : ((((m.set b ⟨bd, none, none⟩).set m0 ⟨m0d, some b, some b⟩).set b
            ⟨bd, some m0, none⟩).set m0 ⟨m0d, some a, some b⟩).heap a
            = some ⟨ad, some m0, none⟩ := by
          rw [Mem.heap_set_of_ne _ _ _ _ (Ne.symm hm0a), Mem.heap_set_of_ne _ _ _ _ hab,
            Mem.heap_set_of_ne _ _ _ _ (Ne.symm hm0a), Mem.heap_set_of_ne _ _ _ _ hab]
          exact hah
        have hS6 : (((((m.set b ⟨bd, none, none⟩).set m0 ⟨m0d, some b, some b⟩).set b
            ⟨bd, some m0, none⟩).set m0 ⟨m0d, some a, some b⟩).set a
            ⟨ad, some m0, some m0⟩).heap a = some ⟨ad, some m0, some m0⟩ :=
          Mem.heap_set_self _ a _
        simp only [Option.pure_def, Option.some_bind]
        rw [Mem.setPrev_eq_some _ _ _ _ hbh]
        simp only [Option.some_bind]
        rw [Mem.setPrev_eq_some _ _ _ _ hS2]
        simp only [Option.some_bind]
        rw [Mem.setNext_eq_some _ _ _ _ hS3]
        simp only [Option.some_bind]
        rw [Mem.setNext_eq_some _ _ _ _ hS4]
        simp only [Option.some_bind]
        rw [Mem.setPrev_eq_some _ _ _ _ hS5]
        simp only [Option.some_bind, Option.pure_def]
        rw [Mem.setNext_eq_some _ _ _ _ hS6]
        refine ⟨_, rfl, ?_, ?_⟩
        · refine @swap_chain_seg α m _ _ _ _ _ _ ?_ ?_ ?_ ?_ ?_ ?_ ?_ ?_ ?_
          · exact hseg
          · exact hnodup
          · unfold hasLinks
            rw [Mem.heap_set_self]
            simp [lastN_cons]
          · unfold hasLinks
            rw [Mem.heap_set_of_ne _ _ _ _ (Ne.symm hab),
              Mem.heap_set_of_ne _ _ _ _ (Ne.symm hab),
              Mem.heap_set_of_ne _ _ _ _ (Ne.symm hm0b), Mem.heap_set_self]
            simp [lastN_cons]
          · intro X1 xl h; cases X1 <;> cases h
          · intro z0 Z' h; cases h
          · intro c M2 h
            injection h with h1 h2
            subst h1
            subst h2
            unfold hasLinks
            rw [Mem.heap_set_of_ne _ _ _ _ hm0a, Mem.heap_set_of_ne _ _ _ _ hm0a,
              Mem.heap_set_self]
            simp
          · intro M1 c h
            cases M1 with
            | nil =>
              injection h with h1 h2
              subst h1
              unfold hasLinks
              rw [Mem.heap_set_of_ne _ _ _ _ hm0a, Mem.heap_set_of_ne _ _ _ _ hm0a,
                Mem.heap_set_self]
              simp
            | cons p P =>
              injection h with h1 h2
              cases P <;> cases h2
          · intro j hja hjb _ _ hjm0h _
            have hjm0 : j ≠ m0 := by
              intro e
              exact hjm0h (by rw [e]; rfl)
            rw [Mem.heap_set_of_ne _ _ _ _ hja, Mem.heap_set_of_ne _ _ _ _ hja,
              Mem.heap_set_of_ne _ _ _ _ hjm0, Mem.heap_set_of_ne _ _ _ _ hjb,
              Mem.heap_set_of_ne _ _ _ _ hjm0, Mem.heap_set_of_ne _ _ _ _ hjb]
        · refine sameData_trans ?_ (sameData_set_data (by simp [hS6]))
          refine sameData_trans ?_ (sameData_set_data (by simp [hS5]))
          refine sameData_trans ?_ (sameData_set_data (by simp [hS4]))
          refine sameData_trans ?_ (sameData_set_data (by simp [hS3]))
          refine sameData_trans ?_ (sameData_set_data (by simp [hS2]))
          exact sameData_set_data (by simp [hbh])
      · -- M = m0 :: M'' ++ [ml]
        rw [List.concat_eq_append] at hseg hnodup hMnd haM hMb hXM hMZ hbh hm0h ⊢
        simp only [headN_nil, headN_cons, lastN_nil, lastN_cons, lastN_concat]
          at hah hbh hm0h ⊢
        have hmll : hasLinks m ml (lastN (some m0) M'') (some b) := by
          have hd : seg m none (([] ++ a :: (m0 :: M'')) ++ ml :: (b :: [])) none := by
            rw [show ([] ++ a :: (m0 :: M'')) ++ ml :: (b :: [])
                = [] ++ a :: ((m0 :: (M'' ++ [ml])) ++ b :: []) by simp]
            exact hseg
          have := seg_links_of_decomp hd
          simpa [lastN_cons] using this
        rcases hasLinks_elim hmll with ⟨ndml, hmlh, hmlprev, hmlnext⟩
        obtain ⟨mld, mln, mlp⟩ := ndml
        simp only at hmlh hmlprev hmlnext
        subst hmlprev hmlnext
        have hmlM : ml ∈ m0 :: (M'' ++ [ml]) :=
          List.mem_cons_of_mem _ (List.mem_append_right _ (List.mem_cons_self _ _))
        have hm0ml : m0 ≠ ml := fun e => (List.nodup_cons.mp hMnd).1
          (List.mem_append_right _ (List.mem_cons.mpr (Or.inl e)))
        have hmla : ml ≠ a := fun e => haM (e ▸ hmlM)
        have hmlb : ml ≠ b := fun e => hMb (e ▸ hmlM)
        have hT2 : (m.set b ⟨bd, none, none⟩).heap m0
            = some ⟨m0d, headN (M'' ++ [ml]) (some b), some a⟩ := by
          rw [Mem.heap_set_of_ne _ _ _ _ hm0b]; exact hm0h
        have hT3 : ((m.set b ⟨bd, none, none⟩).set m0
            ⟨m0d, headN (M'' ++ [ml]) (some b), some b⟩).heap b
            = some ⟨bd, none, none⟩ := by
          rw [Mem.heap_set_of_ne _ _ _ _ (Ne.symm hm0b)]
          exact Mem.heap_set_self _ b _
        have hT4 : (((m.set b ⟨bd, none, none⟩).set m0
            ⟨m0d, headN (M'' ++ [ml]) (some b), some b⟩).set b
            ⟨bd, some m0, none⟩).heap ml
            = some ⟨mld, some b, lastN (some m0) M''⟩ := by
          rw [Mem.heap_set_of_ne _ _ _ _ hmlb,
            Mem.heap_set_of_ne _ _ _ _ (Ne.symm hm0ml),
            Mem.heap_set_of_ne _ _ _ _ hmlb]
          exact hmlh
        have hT5 : ((((m.set b ⟨bd, none, none⟩).set m0
            ⟨m0d, headN (M'' ++ [ml]) (some b), some b⟩).set b
            ⟨bd, some m0, none⟩).set ml ⟨mld, some a, lastN (some m0) M''⟩).heap a
            = some ⟨ad, some m0, none⟩ := by
          rw [Mem.heap_set_of_ne _ _ _ _ (Ne.symm hmla), Mem.heap_set_of_ne _ _ _ _ hab,
            Mem.heap_set_of_ne _ _ _ _ (Ne.symm hm0a), Mem.heap_set_of_ne _ _ _ _ hab]
          exact hah
        have hT6 : (((((m.set b ⟨bd, none, none⟩).set m0
            ⟨m0d, headN (M'' ++ [ml]) (some b), some b⟩).set b
            ⟨bd, some m0, none⟩).set ml ⟨mld, some a, lastN (some m0) M''⟩).set a
            ⟨ad, some m0, some ml⟩).heap a = some ⟨ad, some m0, some ml⟩ :=
          Mem.heap_set_self _ a _
        simp only [Option.pure_def, Option.some_bind]
        rw [Mem.setPrev_eq_some _ _ _ _ hbh]
        simp only [Option.some_bind]
        rw [Mem.setPrev_eq_some _ _ _ _ hT2]
        simp only [Option.some_bind]
        rw [Mem.setNext_eq_some _ _ _ _ hT3]
        simp only [Option.some_bind]
        rw [Mem.setNext_eq_some _ _ _ _ hT4]
        simp only [Option.some_bind]
        rw [Mem.setPrev_eq_some _ _ _ _ hT5]
        simp only [Option.some_bind, Option.pure_def]
        rw [Mem.setNext_eq_some _ _ _ _ hT6]
        refine ⟨_, rfl, ?_, ?_⟩
        · refine @swap_chain_seg α m _ _ _ _ _ _ ?_ ?_ ?_ ?_ ?_ ?_ ?_ ?_ ?_
          · exact hseg
          · exact hnodup
          · unfold hasLinks
            rw [Mem.heap_set_self]
            simp [lastN_cons]
          · unfold hasLinks
            rw [Mem.heap_set_of_ne _ _ _ _ (Ne.symm hab),
              Mem.heap_set_of_ne _ _ _ _ (Ne.symm hab),
              Mem.heap_set_of_ne _ _ _ _ (Ne.symm hmlb), Mem.heap_set_self]
            simp
          · intro X1 xl h; cases X1 <;> cases h
          · intro z0 Z' h; cases h
          · intro c M2 h
            injection h with h1 h2
            subst h1
            subst h2
            unfold hasLinks
            rw [Mem.heap_set_of_ne _ _ _ _ hm0a, Mem.heap_set_of_ne _ _ _ _ hm0a,
              Mem.heap_set_of_ne _ _ _ _ hm0ml, Mem.heap_set_of_ne _ _ _ _ hm0b,
              Mem.heap_set_self]
            rw [headN_irrel (M'' ++ [ml]) (by simp) (some a) (some b)]
            simp
          · intro M1 c h
            cases M1 with
            | nil =>
              injection h with h1 h2
              cases M'' <;> cases h2
            | cons p P =>
              injection h with h1 h2
              subst h1
              obtain ⟨rfl, hc⟩ := List.append_inj' h2 rfl
              injection hc with hc1 _
              subst hc1
              unfold hasLinks
              rw [Mem.heap_set_of_ne _ _ _ _ hmla, Mem.heap_set_of_ne _ _ _ _ hmla,
                Mem.heap_set_self]
              simp [lastN_cons]
          · intro j hja hjb _ _ hjm0h hjmlh
            have hjm0 : j ≠ m0 := by
              intro e
              exact hjm0h (by rw [e]; rfl)
            have hjml : j ≠ ml := by
              intro e
              exact hjmlh (by rw [e]; simp [lastN_cons])
            rw [Mem.heap_set_of_ne _ _ _ _ hja, Mem.heap_set_of_ne _ _ _ _ hja,
              Mem.heap_set_of_ne _ _ _ _ hjml, Mem.heap_set_of_ne _ _ _ _ hjb,
              Mem.heap_set_of_ne _ _ _ _ hjm0, Mem.heap_set_of_ne _ _ _ _ hjb]
        · refine sameData_trans ?_ (sameData_set_data (by simp [hT6]))
          refine sameData_trans ?_ (sameData_set_data (by simp [hT5]))
          refine sameData_trans ?_ (sameData_set_data (by simp [hT4]))
          refine sameData_trans ?_ (sameData_set_data (by simp [hT3]))
          refine sameData_trans ?_ (sameData_set_data (by simp [hT2]))
          exact sameData_set_data (by simp [hbh])
    · -- X = X1 ++ [xl] and Z = z0 :: Z'
      have hZne : Z ≠ [] := by
        intro h
        have := hXZiff.mpr h
        simp at this
      rcases Z with _ | ⟨z0, Z'⟩
      · exact absurd rfl hZne
      rw [List.concat_eq_append] at hseg hnodup hXnd hXa hXb hXM hXZd hah ⊢
      have hz0Z : z0 ∈ z0 :: Z' := List.mem_cons_self _ _
      have hxlX : xl ∈ X1 ++ [xl] := List.mem_append_right _ (List.mem_cons_self _ _)
      have hxlX1 : xl ∉ X1 := by
        rcases List.nodup_append.mp hXnd with ⟨_, _, hdj⟩
        exact fun h => hdj h (List.mem_cons_self _ _)
      have hxla : xl ≠ a := fun e => hXa (e ▸ hxlX)
      have hxlb : xl ≠ b := fun e => hXb (e ▸ hxlX)
      have hxlm0 : xl ≠ m0 := fun e => hXM xl hxlX (e ▸ hm0M)
      have hxlz0 : xl ≠ z0 := fun e => hXZd xl hxlX (e ▸ hz0Z)
      have haz0 : a ≠ z0 := fun e => haZ (e ▸ hz0Z)
      have hbz0 : b ≠ z0 := fun e => hbZ (e ▸ hz0Z)
      have hm0z0 : m0 ≠ z0 := fun e => hMZ m0 hm0M (e ▸ hz0Z)
      have hxll : hasLinks m xl (lastN none X1) (some a) := by
        have hd : seg m none (X1 ++ xl :: (a :: ((m0 :: M') ++ b :: (z0 :: Z')))) none := by
          rw [show X1 ++ xl :: (a :: ((m0 :: M') ++ b :: (z0 :: Z')))
              = (X1 ++ [xl]) ++ a :: ((m0 :: M') ++ b :: (z0 :: Z')) by simp]
          exact hseg
        have := seg_links_of_decomp hd
        simpa using this
      have hz0l : hasLinks m z0 (some b) (headN Z' none) := by
        have hd : seg m none ((((X1 ++ [xl]) ++ a :: (m0 :: M')) ++ [b]) ++ z0 :: Z')
            none := by
          rw [show (((X1 ++ [xl]) ++ a :: (m0 :: M')) ++ [b]) ++ z0 :: Z'
              = (X1 ++ [xl]) ++ a :: ((m0 :: M') ++ b :: (z0 :: Z')) by simp]
          exact hseg
        have := seg_links_of_decomp hd
        rwa [lastN_concat] at this
      rcases hasLinks_elim hxll with ⟨ndx, hxh, hxprev, hxnext⟩
      rcases hasLinks_elim hz0l with ⟨ndz, hzh, hzprev, hznext⟩
      obtain ⟨xd, xn, xp⟩ := ndx
      obtain ⟨zd, zn, zp⟩ := ndz
      simp only at hxh hxprev hxnext hzh hzprev hznext
      subst hxprev hxnext hzprev hznext
      rcases M'.eq_nil_or_concat with rfl | ⟨M'', ml, rfl⟩
      · -- M = [m0]
        simp only [headN_nil, headN_cons, lastN_nil, lastN_cons, lastN_concat]
          at hah hbh hm0h ⊢
        have hU2 : (m.set xl ⟨xd, some b, lastN none X1⟩).heap b
            = some ⟨bd, some z0, some m0⟩ := by
          rw [Mem.heap_set_of_ne _ _ _ _ (Ne.symm hxlb)]; exact hbh
        have hU3 : ((m.set xl ⟨xd, some b, lastN none X1⟩).set b
            ⟨bd, some z0, some xl⟩).heap m0 = some ⟨m0d, some b, some a⟩ := by
          rw [Mem.heap_set_of_ne _ _ _ _ hm0b, Mem.heap_set_of_ne _ _ _ _ (Ne.symm hxlm0)]
          exact hm0h
        have hU4 : (((m.set xl ⟨xd, some b, lastN none X1⟩).set b
            ⟨bd, some z0, some xl⟩).set m0 ⟨m0d, some b, some b⟩).heap b
            = some ⟨bd, some z0, some xl⟩ := by
          rw [Mem.heap_set_of_ne _ _ _ _ (Ne.symm hm0b)]
          exact Mem.heap_set_self _ b _
        have hU5 : ((((m.set xl ⟨xd, some b, lastN none X1⟩).set b
            ⟨bd, some z0, some xl⟩).set m0 ⟨m0d, some b, some b⟩).set b
            ⟨bd, some m0, some xl⟩).heap m0 = some ⟨m0d, some b, some b⟩ := by
          rw [Mem.heap_set_of_ne _ _ _ _ hm0b]
          exact Mem.heap_set_self _ m0 _
        have hU6 : (((((m.set xl ⟨xd, some b, lastN none X1⟩).set b
            ⟨bd, some z0, some xl⟩).set m0 ⟨m0d, some b, some b⟩).set b
            ⟨bd, some m0, some xl⟩).set m0 ⟨m0d, some a, some b⟩).heap a
            = some ⟨ad, some m0, some xl⟩ := by
          rw [Mem.heap_set_of_ne _ _ _ _ (Ne.symm hm0a), Mem.heap_set_of_ne _ _ _ _ hab,
            Mem.heap_set_of_ne _ _ _ _ (Ne.symm hm0a), Mem.heap_set_of_ne _ _ _ _ hab,
            Mem.heap_set_of_ne _ _ _ _ (Ne.symm hxla)]
          exact hah
        have hU7 : ((((((m.set xl ⟨xd, some b, lastN none X1⟩).set b
            ⟨bd, some z0, some xl⟩).set m0 ⟨m0d, some b, some b⟩).set b
            ⟨bd, some m0, some xl⟩).set m0 ⟨m0d, some a, some b⟩).set a
            ⟨ad, some m0, some m0⟩).heap z0 = some ⟨zd, headN Z' none, some b⟩ := by
          rw [Mem.heap_set_of_ne _ _ _ _ (Ne.symm haz0),
            Mem.heap_set_of_ne _ _ _ _ (Ne.symm hm0z0),
            Mem.heap_set_of_ne _ _ _ _ (Ne.symm hbz0),
            Mem.heap_set_of_ne _ _ _ _ (Ne.symm hm0z0),
            Mem.heap_set_of_ne _ _ _ _ (Ne.symm hbz0),
            Mem.heap_set_of_ne _ _ _ _ (Ne.symm hxlz0)]
          exact hzh
        have hU8 : (((((((m.set xl ⟨xd, some b, lastN none X1⟩).set b
            ⟨bd, some z0, some xl⟩).set m0 ⟨m0d, some b, some b⟩).set b
            ⟨bd, some m0, some xl⟩).set m0 ⟨m0d, some a, some b⟩).set a
            ⟨ad, some m0, some m0⟩).set z0 ⟨zd, headN Z' none, some a⟩).heap a
            = some ⟨ad, some m0, some m0⟩ := by
          rw [Mem.heap_set_of_ne _ _ _ _ haz0]
          exact Mem.heap_set_self _ a _
        rw [Mem.setNext_eq_some _ _ _ _ hxh]
        simp only [Option.some_bind]
        rw [Mem.setPrev_eq_some _ _ _ _ hU2]
        simp only [Option.some_bind]
        rw [Mem.setPrev_eq_some _ _ _ _ hU3]
        simp only [Option.some_bind]
        rw [Mem.setNext_eq_some _ _ _ _ hU4]
        simp only [Option.some_bind]
        rw [Mem.setNext_eq_some _ _ _ _ hU5]
        simp only [Option.some_bind]
        rw [Mem.setPrev_eq_some _ _ _ _ hU6]
        simp only [Option.some_bind]
        rw [Mem.setPrev_eq_some _ _ _ _ hU7]
        simp only [Option.some_bind]
        rw [Mem.setNext_eq_some _ _ _ _ hU8]
        refine ⟨_, rfl, ?_, ?_⟩
        · refine @swap_chain_seg α m _ _ _ _ _ _ ?_ ?_ ?_ ?_ ?_ ?_ ?_ ?_ ?_
          · exact hseg
          · exact hnodup
          · unfold hasLinks
            rw [Mem.heap_set_self]
            simp [lastN_cons]
          · unfold hasLinks
            rw [Mem.heap_set_of_ne _ _ _ _ (Ne.symm hab), Mem.heap_set_of_ne _ _ _ _ hbz0,
              Mem.heap_set_of_ne _ _ _ _ (Ne.symm hab),
              Mem.heap_set_of_ne _ _ _ _ (Ne.symm hm0b), Mem.heap_set_self]
            simp
          · intro X1' xl' h
            have h2 : X1' ++ [xl'] = X1 ++ [xl] := h.symm
            obtain ⟨rfl, hc⟩ := List.append_inj' h2 rfl
            injection hc with hc1 _
            subst hc1
            unfold hasLinks
            rw [Mem.heap_set_of_ne _ _ _ _ hxla, Mem.heap_set_of_ne _ _ _ _ hxlz0,
              Mem.heap_set_of_ne _ _ _ _ hxla, Mem.heap_set_of_ne _ _ _ _ hxlm0,
              Mem.heap_set_of_ne _ _ _ _ hxlb, Mem.heap_set_of_ne _ _ _ _ hxlm0,
              Mem.heap_set_of_ne _ _ _ _ hxlb, Mem.heap_set_self]
            simp
          · intro z0' Z'' h
            injection h with h1 h2
            subst h1
            subst h2
            unfold hasLinks
            rw [Mem.heap_set_of_ne _ _ _ _ (Ne.symm haz0), Mem.heap_set_self]
            simp
          · intro c M2 h
            injection h with h1 h2
            subst h1
            subst h2
            unfold hasLinks
            rw [Mem.heap_set_of_ne _ _ _ _ hm0a, Mem.heap_set_of_ne _ _ _ _ hm0z0,
              Mem.heap_set_of_ne _ _ _ _ hm0a, Mem.heap_set_self]
            simp
          · intro M1 c h
            cases M1 with
            | nil =>
              injection h with h1 h2
              subst h1
              unfold hasLinks
              rw [Mem.heap_set_of_ne _ _ _ _ hm0a, Mem.heap_set_of_ne _ _ _ _ hm0z0,
                Mem.heap_set_of_ne _ _ _ _ hm0a, Mem.heap_set_self]
              simp
            | cons p P =>
              injection h with h1 h2
              cases P <;> cases h2
          · intro j hja hjb hjxlG hjz0G hjm0G _
            have hjxl : j ≠ xl := by
              intro e
              exact hjxlG (by rw [e]; simp)
            have hjz0 : j ≠ z0 := by
              intro e
              exact hjz0G (by rw [e]; rfl)
            have hjm0 : j ≠ m0 := by
              intro e
              exact hjm0G (by rw [e]; rfl)
            rw [Mem.heap_set_of_ne _ _ _ _ hja, Mem.heap_set_of_ne _ _ _ _ hjz0,
              Mem.heap_set_of_ne _ _ _ _ hja, Mem.heap_set_of_ne _ _ _ _ hjm0,
              Mem.heap_set_of_ne _ _ _ _ hjb, Mem.heap_set_of_ne _ _ _ _ hjm0,
              Mem.heap_set_of_ne _ _ _ _ hjb, Mem.heap_set_of_ne _ _ _ _ hjxl]
        · refine sameData_trans ?_ (sameData_set_data (by simp [hU8]))
          refine sameData_trans ?_ (sameData_set_data (by simp [hU7]))
          refine sameData_trans ?_ (sameData_set_data (by simp [hU6]))
          refine sameData_trans ?_ (sameData_set_data (by simp [hU5]))
          refine sameData_trans ?_ (sameData_set_data (by simp [hU4]))
          refine sameData_trans ?_ (sameData_set_data (by simp [hU3]))
          refine sameData_trans ?_ (sameData_set_data (by simp [hU2]))
          exact sameData_set_data (by simp [hxh])
      · -- M = m0 :: M'' ++ [ml]
        rw [List.concat_eq_append] at hseg hnodup hMnd haM hMb hXM hMZ hbh hm0h hm0M ⊢
        simp only [headN_nil, headN_cons, lastN_nil, lastN_cons, lastN_concat]
          at hah hbh hm0h ⊢
        have hmll : hasLinks m ml (lastN (some m0) M'') (some b) := by
          have hd : seg m none (((X1 ++ [xl]) ++ a :: (m0 :: M''))
              ++ ml :: (b :: (z0 :: Z'))) none := by
            rw [show ((X1 ++ [xl]) ++ a :: (m0 :: M'')) ++ ml :: (b :: (z0 :: Z'))
                = (X1 ++ [xl]) ++ a :: ((m0 :: (M'' ++ [ml])) ++ b :: (z0 :: Z'))
                by simp]
            exact hseg
          have := seg_links_of_decomp hd
          simpa [lastN_append, lastN_cons] using this
        rcases hasLinks_elim hmll with ⟨ndml, hmlh, hmlprev, hmlnext⟩
        obtain ⟨mld, mln, mlp⟩ := ndml
        simp only at hmlh hmlprev hmlnext
        subst hmlprev hmlnext
        have hmlM : ml ∈ m0 :: (M'' ++ [ml]) :=
          List.mem_cons_of_mem _ (List.mem_append_right _ (List.mem_cons_self _ _))
        have hm0ml : m0 ≠ ml := fun e => (List.nodup_cons.mp hMnd).1
          (List.mem_append_right _ (List.mem_cons.mpr (Or.inl e)))
        have hmla : ml ≠ a := fun e => haM (e ▸ hmlM)
        have hmlb : ml ≠ b := fun e => hMb (e ▸ hmlM)
        have hmlz0 : ml ≠ z0 := fun e => hMZ ml hmlM (e ▸ hz0Z)
        have hxlml : xl ≠ ml := fun e => hXM xl hxlX (e ▸ hmlM)
        have hV2 : (m.set xl ⟨xd, some b, lastN none X1⟩).heap b
            = some ⟨bd, some z0, some ml⟩ := by
          rw [Mem.heap_set_of_ne _ _ _ _ (Ne.symm hxlb)]; exact hbh
        have hV3 : ((m.set xl ⟨xd, some b, lastN none X1⟩).set b
            ⟨bd, some z0, some xl⟩).heap m0
            = some ⟨m0d, headN (M'' ++ [ml]) (some b), some a⟩ := by
          rw [Mem.heap_set_of_ne _ _ _ _ hm0b, Mem.heap_set_of_ne _ _ _ _ (Ne.symm hxlm0)]
          exact hm0h
        have hV4 : (((m.set xl ⟨xd, some b, lastN none X1⟩).set b
            ⟨bd, some z0, some xl⟩).set m0
            ⟨m0d, headN (M'' ++ [ml]) (some b), some b⟩).heap b
            = some ⟨bd, some z0, some xl⟩ := by
          rw [Mem.heap_set_of_ne _ _ _ _ (Ne.symm hm0b)]
          exact Mem.heap_set_self _ b _
        have hV5 : ((((m.set xl ⟨xd, some b, lastN none X1⟩).set b
            ⟨bd, some z0, some xl⟩).set m0
            ⟨m0d, headN (M'' ++ [ml]) (some b), some b⟩).set b
            ⟨bd, some m0, some xl⟩).heap ml
            = some ⟨mld, some b, lastN (some m0) M''⟩ := by
          rw [Mem.heap_set_of_ne _ _ _ _ hmlb, Mem.heap_set_of_ne _ _ _ _ (Ne.symm hm0ml),
            Mem.heap_set_of_ne _ _ _ _ hmlb, Mem.heap_set_of_ne _ _ _ _ (Ne.symm hxlml)]
          exact hmlh
        have hV6 : (((((m.set xl ⟨xd, some b, lastN none X1⟩).set b
            ⟨bd, some z0, some xl⟩).set m0
            ⟨m0d, headN (M'' ++ [ml]) (some b), some b⟩).set b
            ⟨bd, some m0, some xl⟩).set ml ⟨mld, some a, lastN (some m0) M''⟩).heap a
            = some ⟨ad, some m0, some xl⟩ := by
          rw [Mem.heap_set_of_ne _ _ _ _ (Ne.symm hmla), Mem.heap_set_of_ne _ _ _ _ hab,
            Mem.heap_set_of_ne _ _ _ _ (Ne.symm hm0a), Mem.heap_set_of_ne _ _ _ _ hab,
            Mem.heap_set_of_ne _ _ _ _ (Ne.symm hxla)]
          exact hah
        have hV7 : ((((((m.set xl ⟨xd, some b, lastN none X1⟩).set b
            ⟨bd, some z0, some xl⟩).set m0
            ⟨m0d, headN (M'' ++ [ml]) (some b), some b⟩).set b
            ⟨bd, some m0, some xl⟩).set ml ⟨mld, some a, lastN (some m0) M''⟩).set a
            ⟨ad, some m0, some ml⟩).heap z0 = some ⟨zd, headN Z' none, some b⟩ := by
          rw [Mem.heap_set_of_ne _ _ _ _ (Ne.symm haz0),
            Mem.heap_set_of_ne _ _ _ _ (Ne.symm hmlz0),
            Mem.heap_set_of_ne _ _ _ _ (Ne.symm hbz0),
            Mem.heap_set_of_ne _ _ _ _ (Ne.symm hm0z0),
            Mem.heap_set_of_ne _ _ _ _ (Ne.symm hbz0),
            Mem.heap_set_of_ne _ _ _ _ (Ne.symm hxlz0)]
          exact hzh
        have hV8 : (((((((m.set xl ⟨xd, some b, lastN none X1⟩).set b
            ⟨bd, some z0, some xl⟩).set m0
            ⟨m0d, headN (M'' ++ [ml]) (some b), some b⟩).set b
            ⟨bd, some m0, some xl⟩).set ml ⟨mld, some a, lastN (some m0) M''⟩).set a
            ⟨ad, some m0, some ml⟩).set z0 ⟨zd, headN Z' none, some a⟩).heap a
            = some ⟨ad, some m0, some ml⟩ := by
          rw [Mem.heap_set_of_ne _ _ _ _ haz0]
          exact Mem.heap_set_self _ a _
        rw [Mem.setNext_eq_some _ _ _ _ hxh]
        simp only [Option.some_bind]
        rw [Mem.setPrev_eq_some _ _ _ _ hV2]
        simp only [Option.some_bind]
        rw [Mem.setPrev_eq_some _ _ _ _ hV3]
        simp only [Option.some_bind]
        rw [Mem.setNext_eq_some _ _ _ _ hV4]
        simp only [Option.some_bind]
        rw [Mem.setNext_eq_some _ _ _ _ hV5]
        simp only [Option.some_bind]
        rw [Mem.setPrev_eq_some _ _ _ _ hV6]
        simp only [Option.some_bind]
        rw [Mem.setPrev_eq_some _ _ _ _ hV7]
        simp only [Option.some_bind]
        rw [Mem.setNext_eq_some _ _ _ _ hV8]
        refine ⟨_, rfl, ?_, ?_⟩
        · refine @swap_chain_seg α m _ _ _ _ _ _ ?_ ?_ ?_ ?_ ?_ ?_ ?_ ?_ ?_
          · exact hseg
          · exact hnodup
          · unfold hasLinks
            rw [Mem.heap_set_self]
            simp [lastN_cons]
          · unfold hasLinks
            rw [Mem.heap_set_of_ne _ _ _ _ (Ne.symm hab), Mem.heap_set_of_ne _ _ _ _ hbz0,
              Mem.heap_set_of_ne _ _ _ _ (Ne.symm hab),
              Mem.heap_set_of_ne _ _ _ _ (Ne.symm hmlb), Mem.heap_set_self]
            simp
          · intro X1' xl' h
            have h2 : X1' ++ [xl'] = X1 ++ [xl] := h.symm
            obtain ⟨rfl, hc⟩ := List.append_inj' h2 rfl
            injection hc with hc1 _
            subst hc1
            unfold hasLinks
            rw [Mem.heap_set_of_ne _ _ _ _ hxla, Mem.heap_set_of_ne _ _ _ _ hxlz0,
              Mem.heap_set_of_ne _ _ _ _ hxla, Mem.heap_set_of_ne _ _ _ _ hxlml,
              Mem.heap_set_of_ne _ _ _ _ hxlb, Mem.heap_set_of_ne _ _ _ _ hxlm0,
              Mem.heap_set_of_ne _ _ _ _ hxlb, Mem.heap_set_self]
            simp
          · intro z0' Z'' h
            injection h with h1 h2
            subst h1
            subst h2
            unfold hasLinks
            rw [Mem.heap_set_of_ne _ _ _ _ (Ne.symm haz0), Mem.heap_set_self]
            simp
          · intro c M2 h
            injection h with h1 h2
            subst h1
            subst h2
            unfold hasLinks
            rw [Mem.heap_set_of_ne _ _ _ _ hm0a, Mem.heap_set_of_ne _ _ _ _ hm0z0,
              Mem.heap_set_of_ne _ _ _ _ hm0a, Mem.heap_set_of_ne _ _ _ _ hm0ml,
              Mem.heap_set_of_ne _ _ _ _ hm0b, Mem.heap_set_self]
            rw [headN_irrel (M'' ++ [ml]) (by simp) (some a) (some b)]
            simp
          · intro M1 c h
            cases M1 with
            | nil =>
              injection h with h1 h2
              cases M'' <;> cases h2
            | cons p P =>
              injection h with h1 h2
              subst h1
              obtain ⟨rfl, hc⟩ := List.append_inj' h2 rfl
              injection hc with hc1 _
              subst hc1
              unfold hasLinks
              rw [Mem.heap_set_of_ne _ _ _ _ hmla, Mem.heap_set_of_ne _ _ _ _ hmlz0,
                Mem.heap_set_of_ne _ _ _ _ hmla, Mem.heap_set_self]
              simp [lastN_cons]
          · intro j hja hjb hjxlG hjz0G hjm0G hjmlG
            have hjxl : j ≠ xl := by
              intro e
              exact hjxlG (by rw [e]; simp)
            have hjz0 : j ≠ z0 := by
              intro e
              exact hjz0G (by rw [e]; rfl)
            have hjm0 : j ≠ m0 := by
              intro e
              exact hjm0G (by rw [e]; rfl)
            have hjml : j ≠ ml := by
              intro e
              exact hjmlG (by rw [e]; simp [lastN_cons])
            rw [Mem.heap_set_of_ne _ _ _ _ hja, Mem.heap_set_of_ne _ _ _ _ hjz0,
              Mem.heap_set_of_ne _ _ _ _ hja, Mem.heap_set_of_ne _ _ _ _ hjml,
              Mem.heap_set_of_ne _ _ _ _ hjb, Mem.heap_set_of_ne _ _ _ _ hjm0,
              Mem.heap_set_of_ne _ _ _ _ hjb, Mem.heap_set_of_ne _ _ _ _ hjxl]
        · refine sameData_trans ?_ (sameData_set_data (by simp [hV8]))
          refine sameData_trans ?_ (sameData_set_data (by simp [hV7]))
          refine sameData_trans ?_ (sameData_set_data (by simp [hV6]))
          refine sameData_trans ?_ (sameData_set_data (by simp [hV5]))
          refine sameData_trans ?_ (sameData_set_data (by simp [hV4]))
          refine sameData_trans ?_ (sameData_set_data (by simp [hV3]))
          refine sameData_trans ?_ (sameData_set_data (by simp [hV2]))
          exact sameData_set_data (by simp [hxh])


/-- The reverse loop, run size/2 times over a middle section whose flanks have
equal emptiness, reverses the middle section in place. -/
theorem reverseLoop_spec : ∀ (n : Nat) (M X Z : List Nat) (m : Mem α) (lp rp : Option Nat),
    M.length ≤ n → seg m none (X ++ (M ++ Z)) none → (X ++ (M ++ Z)).Nodup →
    (X = [] ↔ Z = []) →
    (2 ≤ M.length → lp = headN M none ∧ rp = lastN none M) →
    ∃ m', reverseLoop m lp rp (M.length / 2) = some m' ∧
      seg m' none (X ++ (M.reverse ++ Z)) none ∧ sameData m m' := by
  intro n
  induction n with
  | zero =>
    intro M X Z m lp rp hlen hseg hnodup hXZiff hp
    have hM : M = [] := List.length_eq_zero.mp (Nat.le_zero.mp hlen)
    subst hM
    refine ⟨m, ?_, by simpa using hseg, sameData_refl m⟩
    rw [Nat.div_eq_of_lt (show ([] : List Nat).length < 2 by simp)]
    cases lp <;> cases rp <;> rfl
  | succ n ih =>
    intro M X Z m lp rp hlen hseg hnodup hXZiff hp
    match M, hlen, hseg, hnodup, hp with
    | [], _, hseg, _, _ =>
      refine ⟨m, ?_, by simpa using hseg, sameData_refl m⟩
      rw [Nat.div_eq_of_lt (show ([] : List Nat).length < 2 by simp)]
      cases lp <;> cases rp <;> rfl
    | [c], _, hseg, _, _ =>
      refine ⟨m, ?_, by simpa using hseg, sameData_refl m⟩
      rw [Nat.div_eq_of_lt (show [c].length < 2 by simp)]
      cases lp <;> cases rp <;> rfl
    | a :: c :: rest, hlen, hseg, hnodup, hp =>
      rcases (c :: rest).eq_nil_or_concat with habs | ⟨M', b, hM1⟩
      · cases habs
      rw [List.concat_eq_append] at hM1
      rw [hM1] at hseg hnodup hlen hp ⊢
      have hlp : lp = some a := (hp (by simp)).1
      have hrp : rp = some b := by
        rw [(hp (by simp)).2, lastN_cons, lastN_concat]
      subst hlp
      subst hrp
      have hdiv : (a :: (M' ++ [b])).length / 2 = M'.length / 2 + 1 := by
        simp only [List.length_cons, List.length_append, List.length_cons,
          List.length_nil]
        rw [show M'.length + (0 + 1) + 1 = M'.length + 2 by omega]
        exact Nat.add_div_right _ (by omega)
      rw [hdiv]
      have hseg' : seg m none (X ++ a :: (M' ++ b :: Z)) none := by
        rw [show X ++ a :: (M' ++ b :: Z) = X ++ ((a :: (M' ++ [b])) ++ Z) by simp]
        exact hseg
      have hnodup' : (X ++ a :: (M' ++ b :: Z)).Nodup := by
        rw [show X ++ a :: (M' ++ b :: Z) = X ++ ((a :: (M' ++ [b])) ++ Z) by simp]
        exact hnodup
      have hA : hasLinks m a (lastN none X) (headN M' (some b)) := by
        have := seg_links_of_decomp hseg'
        rwa [headN_append, headN_cons] at this
      have hB : hasLinks m b (lastN (some a) M') (headN Z none) := by
        have hd : seg m none ((X ++ a :: M') ++ b :: Z) none := by
          rw [show (X ++ a :: M') ++ b :: Z = X ++ a :: (M' ++ b :: Z) by simp]
          exact hseg'
        have := seg_links_of_decomp hd
        rwa [lastN_append, lastN_cons] at this
      have hga : m.getNext a = some (headN M' (some b)) := by
        unfold Mem.getNext Mem.get
        exact hA.2
      have hgb : m.getPrev b = some (lastN (some a) M') := by
        unfold Mem.getPrev Mem.get
        exact hB.1
      obtain ⟨m1, hswap, hseg1, hsame1⟩ := swap_spec hseg' hnodup' hXZiff
      have hseg1' : seg m1 none ((X ++ [b]) ++ (M' ++ (a :: Z))) none := by
        rw [show (X ++ [b]) ++ (M' ++ (a :: Z)) = X ++ b :: (M' ++ a :: Z) by simp]
        exact hseg1
      have hperm : (X ++ a :: (M' ++ b :: Z)).Perm ((X ++ [b]) ++ (M' ++ (a :: Z))) := by
        rw [show (X ++ [b]) ++ (M' ++ (a :: Z)) = X ++ b :: (M' ++ a :: Z) by simp]
        refine List.Perm.append_left X ?_
        refine List.Perm.trans (List.Perm.cons a List.perm_middle) ?_
        refine List.Perm.trans (List.Perm.swap b a _) ?_
        exact List.Perm.cons b List.perm_middle.symm
      have hnodup1 : ((X ++ [b]) ++ (M' ++ (a :: Z))).Nodup := hperm.nodup hnodup'
      have hXZiff1 : X ++ [b] = [] ↔ a :: Z = [] := by
        constructor <;> intro h <;> simp at h
      have hp1 : 2 ≤ M'.length →
          headN M' (some b) = headN M' none ∧ lastN (some a) M' = lastN none M' := by
        intro h2
        have hne : M' ≠ [] := by
          intro e
          rw [e] at h2
          simp at h2
        exact ⟨headN_irrel M' hne _ _, lastN_irrel M' hne _ _⟩
      obtain ⟨m2, hloop, hseg2, hsame2⟩ :=
        ih M' (X ++ [b]) (a :: Z) m1 (headN M' (some b)) (lastN (some a) M')
          (by simp at hlen ⊢; omega) hseg1' hnodup1 hXZiff1 hp1
      refine ⟨m2, ?_, ?_, sameData_trans hsame1 hsame2⟩
      · simp only [reverseLoop]
        rw [hga]
        simp only [Option.bind_eq_bind, Option.some_bind]
        rw [hgb]
        simp only [Option.some_bind]
        rw [hswap]
        simp only [Option.some_bind]
        exact hloop
      · rw [show X ++ ((a :: (M' ++ [b])).reverse ++ Z)
            = (X ++ [b]) ++ (M'.reverse ++ (a :: Z)) by simp]
        exact hseg2

/-- list_reverse on a well-formed list succeeds, reverses the chain in place
(swapping the head and tail fields) and changes no data. -/
theorem list_reverse_spec {m : Mem α} {l : ListS} {ids : List Nat} (hwf : wf m l ids) :
    ∃ m', list_reverse m l = some (m', ⟨l.size, l.tail, l.head⟩) ∧
      wf m' ⟨l.size, l.tail, l.head⟩ ids.reverse ∧ sameData m m' := by
  rcases hwf with ⟨hseg, hhead, htail, hsize, hnodup, hbound⟩
  have hp : 2 ≤ ids.length → l.head = headN ids none ∧ l.tail = lastN none ids := by
    intro h2
    have hne : ids ≠ [] := by
      intro e
      rw [e] at h2
      simp at h2
    exact ⟨hhead.trans (headN_eq_head? ids none hne).symm,
      htail.trans (lastN_eq_getLast? none ids hne).symm⟩
  obtain ⟨m', hloop, hseg', hsame⟩ :=
    reverseLoop_spec ids.length ids [] [] m l.head l.tail le_rfl
      (by simpa using hseg) (by simpa using hnodup) Iff.rfl hp
  have heval : list_reverse m l = some (m', ⟨l.size, l.tail, l.head⟩) := by
    rw [list_reverse, hsize, hloop]
    rfl
  refine ⟨m', heval, ?_, hsame⟩
  refine ⟨by simpa using hseg', ?_, ?_, ?_, ?_, ?_⟩
  · show l.tail = ids.reverse.head?
    rw [htail, List.head?_reverse]
  · show l.head = ids.reverse.getLast?
    rw [hhead, List.getLast?_reverse]
  · show l.size = ids.reverse.length
    rw [hsize, List.length_reverse]
  · exact List.nodup_reverse.mpr hnodup
  · intro i hi
    rw [hsame.1]
    exact hbound i (List.mem_reverse.mp hi)

/-- C9: reversing a well-formed list twice succeeds, restores the exact
original header (head, tail and node count), the original chain of nodes and
the original element sequence. -/
theorem reverse_twice_identity [Inhabited α] {m : Mem α} {l : ListS} {ids : List Nat}
    (hwf : wf m l ids) :
    ∃ m1 l1, list_reverse m l = some (m1, l1) ∧
      ∃ m2, list_reverse m1 l1 = some (m2, l) ∧ wf m2 l ids ∧
        dataList m2 ids = dataList m ids := by
  obtain ⟨m1, hev1, hwf1, hsame1⟩ := list_reverse_spec hwf
  obtain ⟨m2, hev2, hwf2, hsame2⟩ := list_reverse_spec hwf1
  refine ⟨m1, ⟨l.size, l.tail, l.head⟩, hev1, m2, ?_, ?_, ?_⟩
  · exact hev2
  · have := hwf2
    simpa using this
  · rw [dataList_eq_of_sameData hsame2, dataList_eq_of_sameData hsame1]

theorem reverse_twice_identity_witness :
    wf two12Mem two12L [0, 1] ∧
    ∃ m1 l1, list_reverse two12Mem two12L = some (m1, l1) ∧
      ∃ m2, list_reverse m1 l1 = some (m2, two12L) ∧ wf m2 two12L [0, 1] ∧
        dataList m2 [0, 1] = dataList two12Mem [0, 1] :=
  ⟨by decide, reverse_twice_identity (by decide)⟩

/-- Rebuilding the chain after a node ins sitting somewhere after base has
been moved directly in front of base: given the links of the rewritten cells
and that all other cells kept their contents, the new chain is a segment. -/
theorem move_chain_seg {m m' : Mem α} {A B C : List Nat} {base ins : Nat}
    (hseg : seg m none (A ++ base :: (B ++ ins :: C)) none)
    (hnodup : (A ++ base :: (B ++ ins :: C)).Nodup)
    (hins : hasLinks m' ins (lastN none A) (some base))
    (hbase : hasLinks m' base (some ins) (headN (B ++ C) none))
    (ha : ∀ A1 al, A = A1 ++ [al] → hasLinks m' al (lastN none A1) (some ins))
    (hbl : ∀ B1 bl, B = B1 ++ [bl] → hasLinks m' bl (lastN (some base) B1) (headN C none))
    (hc0 : ∀ c0 C', C = c0 :: C' → hasLinks m' c0 (lastN (some base) B) (headN C' none))
    (hW : ∀ j, j ≠ ins → j ≠ base → lastN none A ≠ some j → lastN none B ≠ some j →
      headN C none ≠ some j → m'.heap j = m.heap j) :
    seg m' none (A ++ ins :: base :: (B ++ C)) none := by
  have hperm : (A ++ base :: (B ++ ins :: C)).Perm (A ++ ins :: base :: (B ++ C)) := by
    refine List.Perm.append_left A ?_
    refine List.Perm.trans (List.Perm.cons base List.perm_middle) ?_
    exact List.Perm.swap ins base _
  have hnodup' : (A ++ ins :: base :: (B ++ C)).Nodup := hperm.nodup hnodup
  rcases List.nodup_append.mp hnodup with ⟨hAnd, hrest1, hdisj1⟩
  rcases List.nodup_cons.mp hrest1 with ⟨hbaseMem, hrest2⟩
  rcases List.nodup_append.mp hrest2 with ⟨hBnd, hrest3, hdisj2⟩
  rcases List.nodup_cons.mp hrest3 with ⟨hinsC, hCnd⟩
  have hAbase : base ∉ A := fun h => hdisj1 h (List.mem_cons_self _ _)
  have hAins : ins ∉ A := fun h =>
    hdisj1 h (List.mem_cons_of_mem base (List.mem_append_right B (List.mem_cons_self _ _)))
  have hAB : ∀ j ∈ A, j ∉ B := fun j hj hb =>
    hdisj1 hj (List.mem_cons_of_mem base (List.mem_append_left _ hb))
  have hAC : ∀ j ∈ A, j ∉ C := fun j hj hc =>
    hdisj1 hj (List.mem_cons_of_mem base
      (List.mem_append_right _ (List.mem_cons_of_mem ins hc)))
  have hbaseB : base ∉ B := fun h => hbaseMem (List.mem_append_left _ h)
  have hbase_ins : base ≠ ins := fun e =>
    hbaseMem (List.mem_append_right _ (by rw [e]; exact List.mem_cons_self _ _))
  have hbaseC : base ∉ C := fun h =>
    hbaseMem (List.mem_append_right _ (List.mem_cons_of_mem ins h))
  have hBins : ins ∉ B := fun h => hdisj2 h (List.mem_cons_self _ _)
  have hBC : ∀ j ∈ B, j ∉ C := fun j hj hc => hdisj2 hj (List.mem_cons_of_mem ins hc)
  refine seg_of_pointwise _ none none ?_
  intro P j Q hPQ
  have hjmem : j ∈ A ++ ins :: base :: (B ++ C) := by
    rw [hPQ]; exact List.mem_append_right _ (List.mem_cons_self _ _)
  rcases List.mem_append.mp hjmem with hjA | hjrest
  · -- j lies in A
    obtain ⟨A1, A2, rfl⟩ := List.append_of_mem hjA
    have hcanon : (A1 ++ j :: A2) ++ ins :: base :: (B ++ C)
        = A1 ++ j :: (A2 ++ ins :: base :: (B ++ C)) := by simp
    obtain ⟨rfl, rfl⟩ :=
      decomp_unique (hcanon.symm.trans hPQ) (by rw [← hcanon]; exact hnodup')
    rw [headN_append]
    cases A2 with
    | nil =>
      have := ha A1 j rfl
      simpa using this
    | cons a2 A2' =>
      have horig : hasLinks m j (lastN none A1) (headN (a2 :: A2') (some base)) := by
        have hd : seg m none (A1 ++ j :: ((a2 :: A2') ++ base :: (B ++ ins :: C)))
            none := by
          rw [show A1 ++ j :: ((a2 :: A2') ++ base :: (B ++ ins :: C))
              = (A1 ++ j :: (a2 :: A2')) ++ base :: (B ++ ins :: C) by simp]
          exact hseg
        have := seg_links_of_decomp hd
        rwa [headN_append] at this
      have hcell : m'.heap j = m.heap j := by
        refine hW j ?_ ?_ ?_ ?_ ?_
        · exact fun e => hAins (e ▸ hjA)
        · exact fun e => hAbase (e ▸ hjA)
        · exact lastN_append_cons_ne hAnd (by simp)
        · exact lastN_ne_of_not_mem (fun h => hAB j hjA h)
        · exact headN_ne_of_not_mem (hAC j hjA)
      unfold hasLinks at horig ⊢
      rw [hcell]
      simpa using horig
  rcases List.mem_cons.mp hjrest with rfl | hjrest2
  · -- j = ins
    obtain ⟨rfl, rfl⟩ := decomp_unique hPQ hnodup'
    simpa using hins
  rcases List.mem_cons.mp hjrest2 with rfl | hjrest3
  · -- j = base
    have hcanon : A ++ ins :: j :: (B ++ C) = (A ++ [ins]) ++ j :: (B ++ C) := by simp
    obtain ⟨rfl, rfl⟩ :=
      decomp_unique (hcanon.symm.trans hPQ) (by rw [← hcanon]; exact hnodup')
    rw [lastN_concat]
    exact hbase
  rcases List.mem_append.mp hjrest3 with hjB | hjC
  · -- j lies in B
    obtain ⟨B1, B2, rfl⟩ := List.append_of_mem hjB
    have hcanon : A ++ ins :: base :: ((B1 ++ j :: B2) ++ C)
        = (A ++ ins :: base :: B1) ++ j :: (B2 ++ C) := by simp
    obtain ⟨rfl, rfl⟩ :=
      decomp_unique (hcanon.symm.trans hPQ) (by rw [← hcanon]; exact hnodup')
    rw [lastN_append, lastN_cons, lastN_cons, headN_append]
    cases B2 with
    | nil =>
      have := hbl B1 j rfl
      simpa using this
    | cons b2 B2' =>
      have horig : hasLinks m j (lastN (some base) B1)
          (headN (b2 :: B2') (some ins)) := by
        have hd : seg m none
            ((A ++ base :: B1) ++ j :: ((b2 :: B2') ++ ins :: C)) none := by
          rw [show (A ++ base :: B1) ++ j :: ((b2 :: B2') ++ ins :: C)
              = A ++ base :: ((B1 ++ j :: (b2 :: B2')) ++ ins :: C) by simp]
          exact hseg
        have := seg_links_of_decomp hd
        rwa [lastN_append, lastN_cons, headN_append] at this
      have hcell : m'.heap j = m.heap j := by
        refine hW j ?_ ?_ ?_ ?_ ?_
        · exact fun e => hBins (e ▸ hjB)
        · exact fun e => hbaseB (e ▸ hjB)
        · exact lastN_ne_of_not_mem (fun h => hAB j h hjB)
        · exact lastN_append_cons_ne hBnd (by simp)
        · exact headN_ne_of_not_mem (hBC j hjB)
      unfold hasLinks at horig ⊢
      rw [hcell]
      simpa using horig
  · -- j lies in C
    obtain ⟨C1, C2, rfl⟩ := List.append_of_mem hjC
    have hcanon : A ++ ins :: base :: (B ++ (C1 ++ j :: C2))
        = (A ++ ins :: base :: (B ++ C1)) ++ j :: C2 := by simp
    obtain ⟨rfl, rfl⟩ :=
      decomp_unique (hcanon.symm.trans hPQ) (by rw [← hcanon]; exact hnodup')
    rw [lastN_append, lastN_cons, lastN_cons, lastN_append]
    cases C1 with
    | nil =>
      have := hc0 j C2 rfl
      simpa using this
    | cons c1 C1' =>
      have horig : hasLinks m j (lastN (some ins) (c1 :: C1')) (headN C2 none) := by
        have hd : seg m none
            ((A ++ base :: (B ++ ins :: (c1 :: C1'))) ++ j :: C2) none := by
          rw [show (A ++ base :: (B ++ ins :: (c1 :: C1'))) ++ j :: C2
              = A ++ base :: (B ++ ins :: ((c1 :: C1') ++ j :: C2)) by simp]
          exact hseg
        have := seg_links_of_decomp hd
        rwa [lastN_append, lastN_cons, lastN_append, lastN_cons] at this
      have hcell : m'.heap j = m.heap j := by
        refine hW j ?_ ?_ ?_ ?_ ?_
        · exact fun e => hinsC (e ▸ hjC)
        · exact fun e => hbaseC (e ▸ hjC)
        · exact lastN_ne_of_not_mem (fun h => hAC j h hjC)
        · exact lastN_ne_of_not_mem (fun h => hBC j h hjC)
        · exact headN_append_cons_ne hCnd (by simp)
      unfold hasLinks at horig ⊢
      rw [hcell]
      rw [lastN_irrel (c1 :: C1') (by simp) (lastN (some base) B) (some ins)]
      exact horig

/-- link_behind where both nodes lie in the same chain, ins after base:
the ins node is moved directly in front of base; no data changes. -/
theorem link_behind_move {m : Mem α} {A B C : List Nat} {base ins : Nat}
    (hseg : seg m none (A ++ base :: (B ++ ins :: C)) none)
    (hnodup : (A ++ base :: (B ++ ins :: C)).Nodup) :
    ∃ m', link_behind m base ins = some m' ∧
      seg m' none (A ++ ins :: base :: (B ++ C)) none ∧ sameData m m' := by
  rcases List.nodup_append.mp hnodup with ⟨hAnd, hrest1, hdisj1⟩
  rcases List.nodup_cons.mp hrest1 with ⟨hbaseMem, hrest2⟩
  rcases List.nodup_append.mp hrest2 with ⟨hBnd, hrest3, hdisj2⟩
  rcases List.nodup_cons.mp hrest3 with ⟨hinsC, hCnd⟩
  have hAbase : base ∉ A := fun h => hdisj1 h (List.mem_cons_self _ _)
  have hAins : ins ∉ A := fun h =>
    hdisj1 h (List.mem_cons_of_mem base (List.mem_append_right B (List.mem_cons_self _ _)))
  have hAB : ∀ j ∈ A, j ∉ B := fun j hj hb =>
    hdisj1 hj (List.mem_cons_of_mem base (List.mem_append_left _ hb))
  have hAC : ∀ j ∈ A, j ∉ C := fun j hj hc =>
    hdisj1 hj (List.mem_cons_of_mem base
      (List.mem_append_right _ (List.mem_cons_of_mem ins hc)))
  have hbaseB : base ∉ B := fun h => hbaseMem (List.mem_append_left _ h)
  have hbase_ins : base ≠ ins := fun e =>
    hbaseMem (List.mem_append_right _ (by rw [e]; exact List.mem_cons_self _ _))
  have hbaseC : base ∉ C := fun h =>
    hbaseMem (List.mem_append_right _ (List.mem_cons_of_mem ins h))
  have hBins : ins ∉ B := fun h => hdisj2 h (List.mem_cons_self _ _)
  have hBC : ∀ j ∈ B, j ∉ C := fun j hj hc => hdisj2 hj (List.mem_cons_of_mem ins hc)
  have hinsL : hasLinks m ins (lastN (some base) B) (headN C none) := by
    have hd : seg m none ((A ++ base :: B) ++ ins :: C) none := by
      rw [show (A ++ base :: B) ++ ins :: C = A ++ base :: (B ++ ins :: C) by simp]
      exact hseg
    have := seg_links_of_decomp hd
    rwa [lastN_append, lastN_cons] at this
  have hbaseL : hasLinks m base (lastN none A) (headN B (some ins)) := by
    have := seg_links_of_decomp hseg
    rwa [headN_append] at this
  rcases hasLinks_elim hinsL with ⟨ndi, hih, hiprev, hinext⟩
  rcases hasLinks_elim hbaseL with ⟨ndb, hbh, hbprev, hbnext⟩
  obtain ⟨ind, inn, inp⟩ := ndi
  obtain ⟨bad, ban, bap⟩ := ndb
  simp only at hih hiprev hinext hbh hbprev hbnext
  subst hiprev hinext hbprev hbnext
  rw [link_behind]
  rw [show m.getNext ins = some (headN C none) from by
    simp [Mem.getNext, Mem.get, hih]]
  simp only [Option.bind_eq_bind, Option.some_bind]
  rw [show m.getPrev ins = some (lastN (some base) B) from by
    simp [Mem.getPrev, Mem.get, hih]]
  simp only [Option.some_bind]
  rcases C with _ | ⟨c0, C'⟩
  · -- C = []
    simp only [headN_nil] at hih ⊢
    simp only [Option.pure_def, Option.some_bind]
    rw [show m.getPrev ins = some (lastN (some base) B) from by
      simp [Mem.getPrev, Mem.get, hih]]
    simp only [Option.some_bind]
    rw [show m.getNext ins = some none from by
      simp [Mem.getNext, Mem.get, hih]]
    simp only [Option.some_bind]
    rcases B.eq_nil_or_concat with rfl | ⟨B1, bl, rfl⟩
    · -- B = []
      simp only [lastN_nil, headN_nil] at hih hbh ⊢
      rcases A.eq_nil_or_concat with rfl | ⟨A1, al, rfl⟩
      · -- A = []  (chain [base, ins])
        simp only [lastN_nil] at hbh ⊢
        have hK2 : (m.set base ⟨bad, none, none⟩).heap ins
            = some ⟨ind, none, some base⟩ := by
          rw [Mem.heap_set_of_ne _ _ _ _ (Ne.symm hbase_ins)]; exact hih
        have hK3 : ((m.set base ⟨bad, none, none⟩).set ins
            ⟨ind, none, none⟩).heap ins = some ⟨ind, none, none⟩ :=
          Mem.heap_set_self _ ins _
        have hK4 : (((m.set base ⟨bad, none, none⟩).set ins
            ⟨ind, none, none⟩).set ins ⟨ind, some base, none⟩).heap base
            = some ⟨bad, none, none⟩ := by
          rw [Mem.heap_set_of_ne _ _ _ _ hbase_ins, Mem.heap_set_of_ne _ _ _ _ hbase_ins]
          exact Mem.heap_set_self _ base _
        rw [Mem.setNext_eq_some _ _ _ _ hbh]
        simp only [Option.some_bind]
        rw [show (m.set base ⟨bad, none, none⟩).getPrev base = some none from by
          simp [Mem.getPrev, Mem.get]]
        simp only [Option.some_bind]
        rw [Mem.setPrev_eq_some _ _ _ _ hK2]
        simp only [Option.some_bind]
        rw [Mem.setNext_eq_some _ _ _ _ hK3]
        simp only [Option.some_bind]
        rw [Mem.setPrev_eq_some _ _ _ _ hK4]
        refine ⟨_, rfl, ?_, ?_⟩
        · refine @move_chain_seg α m _ _ _ _ _ _ ?_ ?_ ?_ ?_ ?_ ?_ ?_ ?_
          · exact hseg
          · exact hnodup
          · unfold hasLinks
            rw [Mem.heap_set_of_ne _ _ _ _ (Ne.symm hbase_ins), Mem.heap_set_self]
            simp
          · unfold hasLinks
            rw [Mem.heap_set_self]
            simp
          · intro A1 al h; cases A1 <;> cases h
          · intro B1 bl h; cases B1 <;> cases h
          · intro c0 C' h; cases h
          · intro j hji hjb _ _ _
            rw [Mem.heap_set_of_ne _ _ _ _ hjb, Mem.heap_set_of_ne _ _ _ _ hji,
              Mem.heap_set_of_ne _ _ _ _ hji, Mem.heap_set_of_ne _ _ _ _ hjb]
        · refine sameData_trans ?_ (sameData_set_data (by simp [hK4]))
          refine sameData_trans ?_ (sameData_set_data (by simp [hK3]))
          refine sameData_trans ?_ (sameData_set_data (by simp [hK2]))
          exact sameData_set_data (by simp [hbh])
      · -- A = A1 ++ [al]
        rw [List.concat_eq_append] at hseg hnodup hAnd hAbase hAins hAB hAC hbh ⊢
        simp only [lastN_concat] at hbh ⊢
        have hall : hasLinks m al (lastN none A1) (some base) := by
          have hd : seg m none (A1 ++ al :: (base :: ins :: [])) none := by
            rw [show A1 ++ al :: (base :: ins :: [])
                = (A1 ++ [al]) ++ base :: ([] ++ ins :: []) by simp]
            exact hseg
          have := seg_links_of_decomp hd
          simpa using this
        rcases hasLinks_elim hall with ⟨nda, hall2, halprev, halnext⟩
        obtain ⟨ald, aln, alp⟩ := nda
        simp only at hall2 halprev halnext
        subst halprev halnext
        have halmem : al ∈ A1 ++ [al] := List.mem_append_right _ (List.mem_cons_self _ _)
        have halbase : al ≠ base := fun e => hAbase (e ▸ halmem)
        have halins : al ≠ ins := fun e => hAins (e ▸ halmem)
        have hK2 : (m.set base ⟨bad, none, some al⟩).heap ins
            = some ⟨ind, none, some base⟩ := by
          rw [Mem.heap_set_of_ne _ _ _ _ (Ne.symm hbase_ins)]; exact hih
        have hK3 : ((m.set base ⟨bad, none, some al⟩).set ins
            ⟨ind, none, some al⟩).heap al = some ⟨ald, some base, lastN none A1⟩ := by
          rw [Mem.heap_set_of_ne _ _ _ _ halins, Mem.heap_set_of_ne _ _ _ _ halbase]
          exact hall2
        have hK4 : (((m.set base ⟨bad, none, some al⟩).set ins
            ⟨ind, none, some al⟩).set al ⟨ald, some ins, lastN none A1⟩).heap ins
            = some ⟨ind, none, some al⟩ := by
          rw [Mem.heap_set_of_ne _ _ _ _ (Ne.symm halins)]
          exact Mem.heap_set_self _ ins _
        have hK5 : ((((m.set base ⟨bad, none, some al⟩).set ins
            ⟨ind, none, some al⟩).set al ⟨ald, some ins, lastN none A1⟩).set ins
            ⟨ind, some base, some al⟩).heap base = some ⟨bad, none, some al⟩ := by
          rw [Mem.heap_set_of_ne _ _ _ _ hbase_ins,
            Mem.heap_set_of_ne _ _ _ _ (Ne.symm halbase),
            Mem.heap_set_of_ne _ _ _ _ hbase_ins]
          exact Mem.heap_set_self _ base _
        rw [Mem.setNext_eq_some _ _ _ _ hbh]
        simp only [Option.some_bind]
        rw [show (m.set base ⟨bad, none, some al⟩).getPrev base = some (some al) from by
          simp [Mem.getPrev, Mem.get]]
        simp only [Option.some_bind]
        rw [Mem.setPrev_eq_some _ _ _ _ hK2]
        simp only [Option.some_bind]
        rw [Mem.setNext_eq_some _ _ _ _ hK3]
        simp only [Option.some_bind]
        rw [Mem.setNext_eq_some _ _ _ _ hK4]
        simp only [Option.some_bind]
        rw [Mem.setPrev_eq_some _ _ _ _ hK5]
        refine ⟨_, rfl, ?_, ?_⟩
        · refine @move_chain_seg α m _ _ _ _ _ _ ?_ ?_ ?_ ?_ ?_ ?_ ?_ ?_
          · exact hseg
          · exact hnodup
          · unfold hasLinks
            rw [Mem.heap_set_of_ne _ _ _ _ (Ne.symm hbase_ins), Mem.heap_set_self]
            simp
          · unfold hasLinks
            rw [Mem.heap_set_self]
            simp
          · intro A1' al' h
            have h2 : A1' ++ [al'] = A1 ++ [al] := h.symm
            obtain ⟨rfl, hc⟩ := List.append_inj' h2 rfl
            injection hc with hc1 _
            subst hc1
            unfold hasLinks
            rw [Mem.heap_set_of_ne _ _ _ _ halbase, Mem.heap_set_of_ne _ _ _ _ halins,
              Mem.heap_set_self]
            simp
          · intro B1 bl h; cases B1 <;> cases h
          · intro c0 C' h; cases h
          · intro j hji hjb hjalG _ _
            have hjal : j ≠ al := by
              intro e
              exact hjalG (by rw [e]; simp)
            rw [Mem.heap_set_of_ne _ _ _ _ hjb, Mem.heap_set_of_ne _ _ _ _ hji,
              Mem.heap_set_of_ne _ _ _ _ hjal, Mem.heap_set_of_ne _ _ _ _ hji,
              Mem.heap_set_of_ne _ _ _ _ hjb]
        · refine sameData_trans ?_ (sameData_set_data (by simp [hK5]))
          refine sameData_trans ?_ (sameData_set_data (by simp [hK4]))
          refine sameData_trans ?_ (sameData_set_data (by simp [hK3]))
          refine sameData_trans ?_ (sameData_set_data (by simp [hK2]))
          exact sameData_set_data (by simp [hbh])
    · -- B = B1 ++ [bl]
      rw [List.concat_eq_append] at hseg hnodup hBnd hbaseB hBins hBC hAB hih hbh ⊢
      simp only [lastN_concat] at hih ⊢
      have hbll : hasLinks m bl (lastN (some base) B1) (some ins) := by
        have hd : seg m none ((A ++ base :: B1) ++ bl :: (ins :: [])) none := by
          rw [show (A ++ base :: B1) ++ bl :: (ins :: [])
              = A ++ base :: ((B1 ++ [bl]) ++ ins :: []) by simp]
          exact hseg
        have := seg_links_of_decomp hd
        rwa [lastN_append, lastN_cons] at this
      rcases hasLinks_elim hbll with ⟨ndl, hbl2, hblprev, hblnext⟩
      obtain ⟨bld, bln, blp⟩ := ndl
      simp only at hbl2 hblprev hblnext
      subst hblprev hblnext
      have hblmem : bl ∈ B1 ++ [bl] := List.mem_append_right _ (List.mem_cons_self _ _)
      have hblbase : bl ≠ base := fun e => hbaseB (e ▸ hblmem)
      have hblins : bl ≠ ins := fun e => hBins (e ▸ hblmem)
      rw [Mem.setNext_eq_some _ _ _ _ hbl2]
      simp only [Option.some_bind]
      rw [show (m.set bl ⟨bld, none, lastN (some base) B1⟩).getPrev base
          = some (lastN none A) from by
        unfold Mem.getPrev Mem.get
        rw [Mem.heap_set_of_ne _ _ _ _ (Ne.symm hblbase), hbh]
        rfl]
      simp only [Option.some_bind]
      rcases A.eq_nil_or_concat with rfl | ⟨A1, al, rfl⟩
      · -- A = []
        simp only [lastN_nil] at hbh ⊢
        have hK2 : (m.set bl ⟨bld, none, lastN (some base) B1⟩).heap ins
            = some ⟨ind, none, some bl⟩ := by
          rw [Mem.heap_set_of_ne _ _ _ _ (Ne.symm hblins)]; exact hih
        have hK3 : ((m.set bl ⟨bld, none, lastN (some base) B1⟩).set ins
            ⟨ind, none, none⟩).heap ins = some ⟨ind, none, none⟩ :=
          Mem.heap_set_self _ ins _
        have hK4 : (((m.set bl ⟨bld, none, lastN (some base) B1⟩).set ins
            ⟨ind, none, none⟩).set ins ⟨ind, some base, none⟩).heap base
            = some ⟨bad, headN (B1 ++ [bl]) (some ins), none⟩ := by
          rw [Mem.heap_set_of_ne _ _ _ _ hbase_ins, Mem.heap_set_of_ne _ _ _ _ hbase_ins,
            Mem.heap_set_of_ne _ _ _ _ (Ne.symm hblbase)]
          exact hbh
        rw [Mem.setPrev_eq_some _ _ _ _ hK2]
        simp only [Option.some_bind]
        rw [Mem.setNext_eq_some _ _ _ _ hK3]
        simp only [Option.some_bind]
        rw [Mem.setPrev_eq_some _ _ _ _ hK4]
        refine ⟨_, rfl, ?_, ?_⟩
        · refine @move_chain_seg α m _ _ _ _ _ _ ?_ ?_ ?_ ?_ ?_ ?_ ?_ ?_
          · exact hseg
          · exact hnodup
          · unfold hasLinks
            rw [Mem.heap_set_of_ne _ _ _ _ (Ne.symm hbase_ins), Mem.heap_set_self]
            simp
          · unfold hasLinks
            rw [Mem.heap_set_self]
            simp only [Option.map_some]
            constructor
            · rfl
            · rw [headN_irrel ((B1 ++ [bl]) ++ []) (by simp) none (some ins)]
              simp
          · intro A1 al h; cases A1 <;> cases h
          · intro B1' bl' h
            have h2 : B1' ++ [bl'] = B1 ++ [bl] := h.symm
            obtain ⟨rfl, hc⟩ := List.append_inj' h2 rfl
            injection hc with hc1 _
            subst hc1
            unfold hasLinks
            rw [Mem.heap_set_of_ne _ _ _ _ hblbase, Mem.heap_set_of_ne _ _ _ _ hblins,
              Mem.heap_set_of_ne _ _ _ _ hblins, Mem.heap_set_self]
            simp
          · intro c0 C' h; cases h
          · intro j hji hjb _ hjblG _
            have hjbl : j ≠ bl := by
              intro e
              exact hjblG (by rw [e]; simp)
            rw [Mem.heap_set_of_ne _ _ _ _ hjb, Mem.heap_set_of_ne _ _ _ _ hji,
              Mem.heap_set_of_ne _ _ _ _ hji, Mem.heap_set_of_ne _ _ _ _ hjbl]
        · refine sameData_trans ?_ (sameData_set_data (by simp [hK4]))
          refine sameData_trans ?_ (sameData_set_data (by simp [hK3]))
          refine sameData_trans ?_ (sameData_set_data (by simp [hK2]))
          exact sameData_set_data (by simp [hbl2])
      · -- A = A1 ++ [al]
        rw [List.concat_eq_append] at hseg hnodup hAnd hAbase hAins hAB hAC hbh ⊢
        simp only [lastN_concat] at hbh ⊢
        have hall : hasLinks m al (lastN none A1) (some base) := by
          have hd : seg m none (A1 ++ al :: (base :: ((B1 ++ [bl]) ++ [ins]))) none := by
            rw [show A1 ++ al :: (base :: ((B1 ++ [bl]) ++ [ins]))
                = (A1 ++ [al]) ++ base :: ((B1 ++ [bl]) ++ ins :: []) by simp]
            exact hseg
          have := seg_links_of_decomp hd
          simpa using this
        rcases hasLinks_elim hall with ⟨nda, hall2, halprev, halnext⟩
        obtain ⟨ald, aln, alp⟩ := nda
        simp only at hall2 halprev halnext
        subst halprev halnext
        have halmem : al ∈ A1 ++ [al] := List.mem_append_right _ (List.mem_cons_self _ _)
        have halbase : al ≠ base := fun e => hAbase (e ▸ halmem)
        have halins : al ≠ ins := fun e => hAins (e ▸ halmem)
        have halbl : al ≠ bl := fun e => hAB al halmem (e ▸ hblmem)
        have hK2 : (m.set bl ⟨bld, none, lastN (some base) B1⟩).heap ins
            = some ⟨ind, none, some bl⟩ := by
          rw [Mem.heap_set_of_ne _ _ _ _ (Ne.symm hblins)]; exact hih
        have hK3 : ((m.set bl ⟨bld, none, lastN (some base) B1⟩).set ins
            ⟨ind, none, some al⟩).heap al = some ⟨ald, some base, lastN none A1⟩ := by
          rw [Mem.heap_set_of_ne _ _ _ _ halins, Mem.heap_set_of_ne _ _ _ _ halbl]
          exact hall2
        have hK4 : (((m.set bl ⟨bld, none, lastN (some base) B1⟩).set ins
            ⟨ind, none, some al⟩).set al ⟨ald, some ins, lastN none A1⟩).heap ins
            = some ⟨ind, none, some al⟩ := by
          rw [Mem.heap_set_of_ne _ _ _ _ (Ne.symm halins)]
          exact Mem.heap_set_self _ ins _
        have hK5 : ((((m.set bl ⟨bld, none, lastN (some base) B1⟩).set ins
            ⟨ind, none, some al⟩).set al ⟨ald, some ins, lastN none A1⟩).set ins
            ⟨ind, some base, some al⟩).heap base
            = some ⟨bad, headN (B1 ++ [bl]) (some ins), some al⟩ := by
          rw [Mem.heap_set_of_ne _ _ _ _ hbase_ins,
            Mem.heap_set_of_ne _ _ _ _ (Ne.symm halbase),
            Mem.heap_set_of_ne _ _ _ _ hbase_ins,
            Mem.heap_set_of_ne _ _ _ _ (Ne.symm hblbase)]
          exact hbh
        rw [Mem.setPrev_eq_some _ _ _ _ hK2]
        simp only [Option.some_bind]
        rw [Mem.setNext_eq_some _ _ _ _ hK3]
        simp only [Option.some_bind]
        rw [Mem.setNext_eq_some _ _ _ _ hK4]
        simp only [Option.some_bind]
        rw [Mem.setPrev_eq_some _ _ _ _ hK5]
        refine ⟨_, rfl, ?_, ?_⟩
        · refine @move_chain_seg α m _ _ _ _ _ _ ?_ ?_ ?_ ?_ ?_ ?_ ?_ ?_
          · exact hseg
          · exact hnodup
          · unfold hasLinks
            rw [Mem.heap_set_of_ne _ _ _ _ (Ne.symm hbase_ins), Mem.heap_set_self]
            simp
          · unfold hasLinks
            rw [Mem.heap_set_self]
            simp only [Option.map_some]
            constructor
            · rfl
            · rw [headN_irrel ((B1 ++ [bl]) ++ []) (by simp) none (some ins)]
              simp
          · intro A1' al' h
            have h2 : A1' ++ [al'] = A1 ++ [al] := h.symm
            obtain ⟨rfl, hc⟩ := List.append_inj' h2 rfl
            injection hc with hc1 _
            subst hc1
            unfold hasLinks
            rw [Mem.heap_set_of_ne _ _ _ _ halbase, Mem.heap_set_of_ne _ _ _ _ halins,
              Mem.heap_set_self]
            simp
          · intro B1' bl' h
            have h2 : B1' ++ [bl'] = B1 ++ [bl] := h.symm
            obtain ⟨rfl, hc⟩ := List.append_inj' h2 rfl
            injection hc with hc1 _
            subst hc1
            unfold hasLinks
            rw [Mem.heap_set_of_ne _ _ _ _ hblbase, Mem.heap_set_of_ne _ _ _ _ hblins,
              Mem.heap_set_of_ne _ _ _ _ (Ne.symm halbl),
              Mem.heap_set_of_ne _ _ _ _ hblins, Mem.heap_set_self]
            simp
          · intro c0 C' h; cases h
          · intro j hji hjb hjalG hjblG _
            have hjal : j ≠ al := by
              intro e
              exact hjalG (by rw [e]; simp)
            have hjbl : j ≠ bl := by
              intro e
              exact hjblG (by rw [e]; simp)
            rw [Mem.heap_set_of_ne _ _ _ _ hjb, Mem.heap_set_of_ne _ _ _ _ hji,
              Mem.heap_set_of_ne _ _ _ _ hjal, Mem.heap_set_of_ne _ _ _ _ hji,
              Mem.heap_set_of_ne _ _ _ _ hjbl]
        · refine sameData_trans ?_ (sameData_set_data (by simp [hK5]))
          refine sameData_trans ?_ (sameData_set_data (by simp [hK4]))
          refine sameData_trans ?_ (sameData_set_data (by simp [hK3]))
          refine sameData_trans ?_ (sameData_set_data (by simp [hK2]))
          exact sameData_set_data (by simp [hbl2])
  · -- C = c0 :: C'
    simp only [headN_cons] at hih ⊢
    have hc0mem : c0 ∈ c0 :: C' := List.mem_cons_self _ _
    have hinsc0 : ins ≠ c0 := fun e => hinsC (e ▸ hc0mem)
    have hbasec0 : base ≠ c0 := fun e => hbaseC (e ▸ hc0mem)
    have hc0l : hasLinks m c0 (some ins) (headN C' none) := by
      have hd : seg m none ((A ++ base :: (B ++ [ins])) ++ c0 :: C') none := by
        rw [show (A ++ base :: (B ++ [ins])) ++ c0 :: C'
            = A ++ base :: (B ++ ins :: (c0 :: C')) by simp]
        exact hseg
      have := seg_links_of_decomp hd
      rwa [lastN_append, lastN_cons, lastN_concat] at this
    rcases hasLinks_elim hc0l with ⟨ndc, hc0h, hc0prev, hc0next⟩
    obtain ⟨cd, cn, cp⟩ := ndc
    simp only at hc0h hc0prev hc0next
    subst hc0prev hc0next
    rw [Mem.setPrev_eq_some _ _ _ _ hc0h]
    simp only [Option.some_bind]
    rw [show (m.set c0 ⟨cd, headN C' none, lastN (some base) B⟩).getPrev ins
        = some (lastN (some base) B) from by
      unfold Mem.getPrev Mem.get
      rw [Mem.heap_set_of_ne _ _ _ _ hinsc0, hih]
      rfl]
    simp only [Option.some_bind]
    rw [show (m.set c0 ⟨cd, headN C' none, lastN (some base) B⟩).getNext ins
        = some (some c0) from by
      unfold Mem.getNext Mem.get
      rw [Mem.heap_set_of_ne _ _ _ _ hinsc0, hih]
      rfl]
    simp only [Option.some_bind]
    rcases B.eq_nil_or_concat with rfl | ⟨B1, bl, rfl⟩
    · -- B = []
      simp only [lastN_nil, headN_nil] at hih hbh ⊢
      have hJ2 : (m.set c0 ⟨cd, headN C' none, some base⟩).heap base
          = some ⟨bad, some ins, lastN none A⟩ := by
        rw [Mem.heap_set_of_ne _ _ _ _ hbasec0]; exact hbh
      rw [Mem.setNext_eq_some _ _ _ _ hJ2]
      simp only [Option.some_bind]
      rw [show ((m.set c0 ⟨cd, headN C' none, some base⟩).set base
          ⟨bad, some c0, lastN none A⟩).getPrev base = some (lastN none A) from by
        simp [Mem.getPrev, Mem.get]]
      simp only [Option.some_bind]
      rcases A.eq_nil_or_concat with rfl | ⟨A1, al, rfl⟩
      · -- A = []
        simp only [lastN_nil] at hJ2 ⊢
        have hJ3 : ((m.set c0 ⟨cd, headN C' none, some base⟩).set base
            ⟨bad, some c0, none⟩).heap ins = some ⟨ind, some c0, some base⟩ := by
          rw [Mem.heap_set_of_ne _ _ _ _ (Ne.symm hbase_ins),
            Mem.heap_set_of_ne _ _ _ _ hinsc0]
          exact hih
        have hJ4 : (((m.set c0 ⟨cd, headN C' none, some base⟩).set base
            ⟨bad, some c0, none⟩).set ins ⟨ind, some c0, none⟩).heap ins
            = some ⟨ind, some c0, none⟩ := Mem.heap_set_self _ ins _
        have hJ5 : ((((m.set c0 ⟨cd, headN C' none, some base⟩).set base
            ⟨bad, some c0, none⟩).set ins ⟨ind, some c0, none⟩).set ins
            ⟨ind, some base, none⟩).heap base = some ⟨bad, some c0, none⟩ := by
          rw [Mem.heap_set_of_ne _ _ _ _ hbase_ins, Mem.heap_set_of_ne _ _ _ _ hbase_ins]
          exact Mem.heap_set_self _ base _
        rw [Mem.setPrev_eq_some _ _ _ _ hJ3]
        simp only [Option.some_bind]
        rw [Mem.setNext_eq_some _ _ _ _ hJ4]
        simp only [Option.some_bind]
        rw [Mem.setPrev_eq_some _ _ _ _ hJ5]
        refine ⟨_, rfl, ?_, ?_⟩
        · refine @move_chain_seg α m _ _ _ _ _ _ ?_ ?_ ?_ ?_ ?_ ?_ ?_ ?_
          · exact hseg
          · exact hnodup
          · unfold hasLinks
            rw [Mem.heap_set_of_ne _ _ _ _ (Ne.symm hbase_ins), Mem.heap_set_self]
            simp
          · unfold hasLinks
            rw [Mem.heap_set_self]
            simp
          · intro A1 al h; cases A1 <;> cases h
          · intro B1 bl h; cases B1 <;> cases h
          · intro c0' C'' h
            injection h with h1 h2
            subst h1
            subst h2
            unfold hasLinks
            rw [Mem.heap_set_of_ne _ _ _ _ (Ne.symm hbasec0),
              Mem.heap_set_of_ne _ _ _ _ (Ne.symm hinsc0),
              Mem.heap_set_of_ne _ _ _ _ (Ne.symm hinsc0),
              Mem.heap_set_of_ne _ _ _ _ (Ne.symm hbasec0), Mem.heap_set_self]
            simp
          · intro j hji hjb _ _ hjc0G
            have hjc0 : j ≠ c0 := by
              intro e
              exact hjc0G (by rw [e]; rfl)
            rw [Mem.heap_set_of_ne _ _ _ _ hjb, Mem.heap_set_of_ne _ _ _ _ hji,
              Mem.heap_set_of_ne _ _ _ _ hji, Mem.heap_set_of_ne _ _ _ _ hjb,
              Mem.heap_set_of_ne _ _ _ _ hjc0]
        · refine sameData_trans ?_ (sameData_set_data (by simp [hJ5]))
          refine sameData_trans ?_ (sameData_set_data (by simp [hJ4]))
          refine sameData_trans ?_ (sameData_set_data (by simp [hJ3]))
          refine sameData_trans ?_ (sameData_set_data (by simp [hJ2]))
          exact sameData_set_data (by simp [hc0h])
      · -- A = A1 ++ [al]
        rw [List.concat_eq_append] at hseg hnodup hAnd hAbase hAins hAB hAC hbh hJ2 ⊢
        simp only [lastN_concat] at hbh hJ2 ⊢
        have hall : hasLinks m al (lastN none A1) (some base) := by
          have hd : seg m none (A1 ++ al :: (base :: ins :: c0 :: C')) none := by
            rw [show A1 ++ al :: (base :: ins :: c0 :: C')
                = (A1 ++ [al]) ++ base :: ([] ++ ins :: (c0 :: C')) by simp]
            exact hseg
          have := seg_links_of_decomp hd
          simpa using this
        rcases hasLinks_elim hall with ⟨nda, hall2, halprev, halnext⟩
        obtain ⟨ald, aln, alp⟩ := nda
        simp only at hall2 halprev halnext
        subst halprev halnext
        have halmem : al ∈ A1 ++ [al] := List.mem_append_right _ (List.mem_cons_self _ _)
        have halbase : al ≠ base := fun e => hAbase (e ▸ halmem)
        have halins : al ≠ ins := fun e => hAins (e ▸ halmem)
        have halc0 : al ≠ c0 := fun e => hAC al halmem (e ▸ hc0mem)
        have hJ3 : ((m.set c0 ⟨cd, headN C' none, some base⟩).set base
            ⟨bad, some c0, some al⟩).heap ins = some ⟨ind, some c0, some base⟩ := by
          rw [Mem.heap_set_of_ne _ _ _ _ (Ne.symm hbase_ins),
            Mem.heap_set_of_ne _ _ _ _ hinsc0]
          exact hih
        have hJ4 : (((m.set c0 ⟨cd, headN C' none, some base⟩).set base
            ⟨bad, some c0, some al⟩).set ins ⟨ind, some c0, some al⟩).heap al
            = some ⟨ald, some base, lastN none A1⟩ := by
          rw [Mem.heap_set_of_ne _ _ _ _ halins, Mem.heap_set_of_ne _ _ _ _ halbase,
            Mem.heap_set_of_ne _ _ _ _ halc0]
          exact hall2
        have hJ5 : ((((m.set c0 ⟨cd, headN C' none, some base⟩).set base
            ⟨bad, some c0, some al⟩).set ins ⟨ind, some c0, some al⟩).set al
            ⟨ald, some ins, lastN none A1⟩).heap ins = some ⟨ind, some c0, some al⟩ := by
          rw [Mem.heap_set_of_ne _ _ _ _ (Ne.symm halins)]
          exact Mem.heap_set_self _ ins _
        have hJ6 : (((((m.set c0 ⟨cd, headN C' none, some base⟩).set base
            ⟨bad, some c0, some al⟩).set ins ⟨ind, some c0, some al⟩).set al
            ⟨ald, some ins, lastN none A1⟩).set ins ⟨ind, some base, some al⟩).heap base
            = some ⟨bad, some c0, some al⟩ := by
          rw [Mem.heap_set_of_ne _ _ _ _ hbase_ins,
            Mem.heap_set_of_ne _ _ _ _ (Ne.symm halbase),
            Mem.heap_set_of_ne _ _ _ _ hbase_ins]
          exact Mem.heap_set_self _ base _
        rw [Mem.setPrev_eq_some _ _ _ _ hJ3]
        simp only [Option.some_bind]
        rw [Mem.setNext_eq_some _ _ _ _ hJ4]
        simp only [Option.some_bind]
        rw [Mem.setNext_eq_some _ _ _ _ hJ5]
        simp only [Option.some_bind]
        rw [Mem.setPrev_eq_some _ _ _ _ hJ6]
        refine ⟨_, rfl, ?_, ?_⟩
        · refine @move_chain_seg α m _ _ _ _ _ _ ?_ ?_ ?_ ?_ ?_ ?_ ?_ ?_
          · exact hseg
          · exact hnodup
          · unfold hasLinks
            rw [Mem.heap_set_of_ne _ _ _ _ (Ne.symm hbase_ins), Mem.heap_set_self]
            simp
          · unfold hasLinks
            rw [Mem.heap_set_self]
            simp
          · intro A1' al' h
            have h2 : A1' ++ [al'] = A1 ++ [al] := h.symm
            obtain ⟨rfl, hc⟩ := List.append_inj' h2 rfl
            injection hc with hc1 _
            subst hc1
            unfold hasLinks
            rw [Mem.heap_set_of_ne _ _ _ _ halbase, Mem.heap_set_of_ne _ _ _ _ halins,
              Mem.heap_set_self]
            simp
          · intro B1 bl h; cases B1 <;> cases h
          · intro c0' C'' h
            injection h with h1 h2
            subst h1
            subst h2
            unfold hasLinks
            rw [Mem.heap_set_of_ne _ _ _ _ (Ne.symm hbasec0),
              Mem.heap_set_of_ne _ _ _ _ (Ne.symm hinsc0),
              Mem.heap_set_of_ne _ _ _ _ (Ne.symm halc0),
              Mem.heap_set_of_ne _ _ _ _ (Ne.symm hinsc0),
              Mem.heap_set_of_ne _ _ _ _ (Ne.symm hbasec0), Mem.heap_set_self]
            simp
          · intro j hji hjb hjalG _ hjc0G
            have hjal : j ≠ al := by
              intro e
              exact hjalG (by rw [e]; simp)
            have hjc0 : j ≠ c0 := by
              intro e
              exact hjc0G (by rw [e]; rfl)
            rw [Mem.heap_set_of_ne _ _ _ _ hjb, Mem.heap_set_of_ne _ _ _ _ hji,
              Mem.heap_set_of_ne _ _ _ _ hjal, Mem.heap_set_of_ne _ _ _ _ hji,
              Mem.heap_set_of_ne _ _ _ _ hjb, Mem.heap_set_of_ne _ _ _ _ hjc0]
        · refine sameData_trans ?_ (sameData_set_data (by simp [hJ6]))
          refine sameData_trans ?_ (sameData_set_data (by simp [hJ5]))
          refine sameData_trans ?_ (sameData_set_data (by simp [hJ4]))
          refine sameData_trans ?_ (sameData_set_data (by simp [hJ3]))
          refine sameData_trans ?_ (sameData_set_data (by simp [hJ2]))
          exact sameData_set_data (by simp [hc0h])
    · -- B = B1 ++ [bl]
      rw [List.concat_eq_append] at hseg hnodup hBnd hbaseB hBins hBC hAB hih hbh ⊢
      simp only [lastN_concat] at hih ⊢
      have hbll : hasLinks m bl (lastN (some base) B1) (some ins) := by
        have hd : seg m none ((A ++ base :: B1) ++ bl :: (ins :: c0 :: C')) none := by
          rw [show (A ++ base :: B1) ++ bl :: (ins :: c0 :: C')
              = A ++ base :: ((B1 ++ [bl]) ++ ins :: (c0 :: C')) by simp]
          exact hseg
        have := seg_links_of_decomp hd
        rwa [lastN_append, lastN_cons] at this
      rcases hasLinks_elim hbll with ⟨ndl, hbl2, hblprev, hblnext⟩
      obtain ⟨bld, bln, blp⟩ := ndl
      simp only at hbl2 hblprev hblnext
      subst hblprev hblnext
      have hblmem : bl ∈ B1 ++ [bl] := List.mem_append_right _ (List.mem_cons_self _ _)
      have hblbase : bl ≠ base := fun e => hbaseB (e ▸ hblmem)
      have hblins : bl ≠ ins := fun e => hBins (e ▸ hblmem)
      have hblc0 : bl ≠ c0 := fun e => hBC bl hblmem (e ▸ hc0mem)
      have hI2 : (m.set c0 ⟨cd, headN C' none, some bl⟩).heap bl
          = some ⟨bld, some ins, lastN (some base) B1⟩ := by
        rw [Mem.heap_set_of_ne _ _ _ _ hblc0]; exact hbl2
      rw [Mem.setNext_eq_some _ _ _ _ hI2]
      simp only [Option.some_bind]
      rw [show ((m.set c0 ⟨cd, headN C' none, some bl⟩).set bl
          ⟨bld, some c0, lastN (some base) B1⟩).getPrev base
          = some (lastN none A) from by
        unfold Mem.getPrev Mem.get
        rw [Mem.heap_set_of_ne _ _ _ _ (Ne.symm hblbase),
          Mem.heap_set_of_ne _ _ _ _ hbasec0, hbh]
        rfl]
      simp only [Option.some_bind]
      rcases A.eq_nil_or_concat with rfl | ⟨A1, al, rfl⟩
      · -- A = []
        simp only [lastN_nil] at hbh ⊢
        have hI3 : ((m.set c0 ⟨cd, headN C' none, some bl⟩).set bl
            ⟨bld, some c0, lastN (some base) B1⟩).heap ins
            = some ⟨ind, some c0, some bl⟩ := by
          rw [Mem.heap_set_of_ne _ _ _ _ (Ne.symm hblins),
            Mem.heap_set_of_ne _ _ _ _ hinsc0]
          exact hih
        have hI4 : (((m.set c0 ⟨cd, headN C' none, some bl⟩).set bl
            ⟨bld, some c0, lastN (some base) B1⟩).set ins
            ⟨ind, some c0, none⟩).heap ins = some ⟨ind, some c0, none⟩ :=
          Mem.heap_set_self _ ins _
        have hI5 : ((((m.set c0 ⟨cd, headN C' none, some bl⟩).set bl
            ⟨bld, some c0, lastN (some base) B1⟩).set ins
            ⟨ind, some c0, none⟩).set ins ⟨ind, some base, none⟩).heap base
            = some ⟨bad, headN (B1 ++ [bl]) (some ins), none⟩ := by
          rw [Mem.heap_set_of_ne _ _ _ _ hbase_ins, Mem.heap_set_of_ne _ _ _ _ hbase_ins,
            Mem.heap_set_of_ne _ _ _ _ (Ne.symm hblbase),
            Mem.heap_set_of_ne _ _ _ _ hbasec0]
          exact hbh
        rw [Mem.setPrev_eq_some _ _ _ _ hI3]
        simp only [Option.some_bind]
        rw [Mem.setNext_eq_some _ _ _ _ hI4]
        simp only [Option.some_bind]
        rw [Mem.setPrev_eq_some _ _ _ _ hI5]
        refine ⟨_, rfl, ?_, ?_⟩
        · refine @move_chain_seg α m _ _ _ _ _ _ ?_ ?_ ?_ ?_ ?_ ?_ ?_ ?_
          · exact hseg
          · exact hnodup
          · unfold hasLinks
            rw [Mem.heap_set_of_ne _ _ _ _ (Ne.symm hbase_ins), Mem.heap_set_self]
            simp
          · unfold hasLinks
            rw [Mem.heap_set_self]
            simp [headN_append]
          · intro A1 al h; cases A1 <;> cases h
          · intro B1' bl' h
            have h2 : B1' ++ [bl'] = B1 ++ [bl] := h.symm
            obtain ⟨rfl, hc⟩ := List.append_inj' h2 rfl
            injection hc with hc1 _
            subst hc1
            unfold hasLinks
            rw [Mem.heap_set_of_ne _ _ _ _ hblbase, Mem.heap_set_of_ne _ _ _ _ hblins,
              Mem.heap_set_of_ne _ _ _ _ hblins, Mem.heap_set_self]
            simp
          · intro c0' C'' h
            injection h with h1 h2
            subst h1
            subst h2
            unfold hasLinks
            rw [Mem.heap_set_of_ne _ _ _ _ (Ne.symm hbasec0),
              Mem.heap_set_of_ne _ _ _ _ (Ne.symm hinsc0),
              Mem.heap_set_of_ne _ _ _ _ (Ne.symm hinsc0),
              Mem.heap_set_of_ne _ _ _ _ (Ne.symm hblc0), Mem.heap_set_self]
            simp [lastN_cons]
          · intro j hji hjb _ hjblG hjc0G
            have hjbl : j ≠ bl := by
              intro e
              exact hjblG (by rw [e]; simp)
            have hjc0 : j ≠ c0 := by
              intro e
              exact hjc0G (by rw [e]; rfl)
            rw [Mem.heap_set_of_ne _ _ _ _ hjb, Mem.heap_set_of_ne _ _ _ _ hji,
              Mem.heap_set_of_ne _ _ _ _ hji, Mem.heap_set_of_ne _ _ _ _ hjbl,
              Mem.heap_set_of_ne _ _ _ _ hjc0]
        · refine sameData_trans ?_ (sameData_set_data (by simp [hI5]))
          refine sameData_trans ?_ (sameData_set_data (by simp [hI4]))
          refine sameData_trans ?_ (sameData_set_data (by simp [hI3]))
          refine sameData_trans ?_ (sameData_set_data (by simp [hI2]))
          exact sameData_set_data (by simp [hc0h])
      · -- A = A1 ++ [al]
        rw [List.concat_eq_append] at hseg hnodup hAnd hAbase hAins hAB hAC hbh ⊢
        simp only [lastN_concat] at hbh ⊢
        have hall : hasLinks m al (lastN none A1) (some base) := by
          have hd : seg m none
              (A1 ++ al :: (base :: ((B1 ++ [bl]) ++ ins :: (c0 :: C')))) none := by
            rw [show A1 ++ al :: (base :: ((B1 ++ [bl]) ++ ins :: (c0 :: C')))
                = (A1 ++ [al]) ++ base :: ((B1 ++ [bl]) ++ ins :: (c0 :: C')) by simp]
            exact hseg
          have := seg_links_of_decomp hd
          simpa using this
        rcases hasLinks_elim hall with ⟨nda, hall2, halprev, halnext⟩
        obtain ⟨ald, aln, alp⟩ := nda
        simp only at hall2 halprev halnext
        subst halprev halnext
        have halmem : al ∈ A1 ++ [al] := List.mem_append_right _ (List.mem_cons_self _ _)
        have halbase : al ≠ base := fun e => hAbase (e ▸ halmem)
        have halins : al ≠ ins := fun e => hAins (e ▸ halmem)
        have halc0 : al ≠ c0 := fun e => hAC al halmem (e ▸ hc0mem)
        have halbl : al ≠ bl := fun e => hAB al halmem (e ▸ hblmem)
        have hI3 : ((m.set c0 ⟨cd, headN C' none, some bl⟩).set bl
            ⟨bld, some c0, lastN (some base) B1⟩).heap ins
            = some ⟨ind, some c0, some bl⟩ := by
          rw [Mem.heap_set_of_ne _ _ _ _ (Ne.symm hblins),
            Mem.heap_set_of_ne _ _ _ _ hinsc0]
          exact hih
        have hI4 : (((m.set c0 ⟨cd, headN C' none, some bl⟩).set bl
            ⟨bld, some c0, lastN (some base) B1⟩).set ins
            ⟨ind, some c0, some al⟩).heap al
            = some ⟨ald, some base, lastN none A1⟩ := by
          rw [Mem.heap_set_of_ne _ _ _ _ halins, Mem.heap_set_of_ne _ _ _ _ halbl,
            Mem.heap_set_of_ne _ _ _ _ halc0]
          exact hall2
        have hI5 : ((((m.set c0 ⟨cd, headN C' none, some bl⟩).set bl
            ⟨bld, some c0, lastN (some base) B1⟩).set ins
            ⟨ind, some c0, some al⟩).set al ⟨ald, some ins, lastN none A1⟩).heap ins
            = some ⟨ind, some c0, some al⟩ := by
          rw [Mem.heap_set_of_ne _ _ _ _ (Ne.symm halins)]
          exact Mem.heap_set_self _ ins _
        have hI6 : (((((m.set c0 ⟨cd, headN C' none, some bl⟩).set bl
            ⟨bld, some c0, lastN (some base) B1⟩).set ins
            ⟨ind, some c0, some al⟩).set al ⟨ald, some ins, lastN none A1⟩).set ins
            ⟨ind, some base, some al⟩).heap base
            = some ⟨bad, headN (B1 ++ [bl]) (some ins), some al⟩ := by
          rw [Mem.heap_set_of_ne _ _ _ _ hbase_ins,
            Mem.heap_set_of_ne _ _ _ _ (Ne.symm halbase),
            Mem.heap_set_of_ne _ _ _ _ hbase_ins,
            Mem.heap_set_of_ne _ _ _ _ (Ne.symm hblbase),
            Mem.heap_set_of_ne _ _ _ _ hbasec0]
          exact hbh
        rw [Mem.setPrev_eq_some _ _ _ _ hI3]
        simp only [Option.some_bind]
        rw [Mem.setNext_eq_some _ _ _ _ hI4]
        simp only [Option.some_bind]
        rw [Mem.setNext_eq_some _ _ _ _ hI5]
        simp only [Option.some_bind]
        rw [Mem.setPrev_eq_some _ _ _ _ hI6]
        refine ⟨_, rfl, ?_, ?_⟩
        · refine @move_chain_seg α m _ _ _ _ _ _ ?_ ?_ ?_ ?_ ?_ ?_ ?_ ?_
          · exact hseg
          · exact hnodup
          · unfold hasLinks
            rw [Mem.heap_set_of_ne _ _ _ _ (Ne.symm hbase_ins), Mem.heap_set_self]
            simp
          · unfold hasLinks
            rw [Mem.heap_set_self]
            simp [headN_append]
          · intro A1' al' h
            have h2 : A1' ++ [al'] = A1 ++ [al] := h.symm
            obtain ⟨rfl, hc⟩ := List.append_inj' h2 rfl
            injection hc with hc1 _
            subst hc1
            unfold hasLinks
            rw [Mem.heap_set_of_ne _ _ _ _ halbase, Mem.heap_set_of_ne _ _ _ _ halins,
              Mem.heap_set_self]
            simp
          · intro B1' bl' h
            have h2 : B1' ++ [bl'] = B1 ++ [bl] := h.symm
            obtain ⟨rfl, hc⟩ := List.append_inj' h2 rfl
            injection hc with hc1 _
            subst hc1
            unfold hasLinks
            rw [Mem.heap_set_of_ne _ _ _ _ hblbase, Mem.heap_set_of_ne _ _ _ _ hblins,
              Mem.heap_set_of_ne _ _ _ _ (Ne.symm halbl),
              Mem.heap_set_of_ne _ _ _ _ hblins, Mem.heap_set_self]
            simp
          · intro c0' C'' h
            injection h with h1 h2
            subst h1
            subst h2
            unfold hasLinks
            rw [Mem.heap_set_of_ne _ _ _ _ (Ne.symm hbasec0),
              Mem.heap_set_of_ne _ _ _ _ (Ne.symm hinsc0),
              Mem.heap_set_of_ne _ _ _ _ (Ne.symm halc0),
              Mem.heap_set_of_ne _ _ _ _ (Ne.symm hinsc0),
              Mem.heap_set_of_ne _ _ _ _ (Ne.symm hblc0), Mem.heap_set_self]
            simp [lastN_cons]
          · intro j hji hjb hjalG hjblG hjc0G
            have hjal : j ≠ al := by
              intro e
              exact hjalG (by rw [e]; simp)
            have hjbl : j ≠ bl := by
              intro e
              exact hjblG (by rw [e]; simp)
            have hjc0 : j ≠ c0 := by
              intro e
              exact hjc0G (by rw [e]; rfl)
            rw [Mem.heap_set_of_ne _ _ _ _ hjb, Mem.heap_set_of_ne _ _ _ _ hji,
              Mem.heap_set_of_ne _ _ _ _ hjal, Mem.heap_set_of_ne _ _ _ _ hji,
              Mem.heap_set_of_ne _ _ _ _ hjbl, Mem.heap_set_of_ne _ _ _ _ hjc0]
        · refine sameData_trans ?_ (sameData_set_data (by simp [hI6]))
          refine sameData_trans ?_ (sameData_set_data (by simp [hI5]))
          refine sameData_trans ?_ (sameData_set_data (by simp [hI4]))
          refine sameData_trans ?_ (sameData_set_data (by simp [hI3]))
          refine sameData_trans ?_ (sameData_set_data (by simp [hI2]))
          exact sameData_set_data (by simp [hc0h])

theorem CmpLaws.self_eq_zero {cmp : α → α → Int} (h : CmpLaws cmp) (x : α) :
    cmp x x = 0 := by
  have := h.2.1 x x
  omega

theorem cmpLe_true_iff {cmp : α → α → Int} {key : Nat → α} {i j : Nat} :
    cmpLe cmp key i j = true ↔
      (cmp (key i) (key j) = -1 ∨ cmp (key i) (key j) = 0) := by
  unfold cmpLe
  simp

theorem headN_absorb {R S : List Nat} (h : R ≠ []) :
    headN (R ++ S) none = headN R none := by
  cases R with
  | nil => exact absurd rfl h
  | cons r t => rw [List.cons_append, headN_cons, headN_cons]

theorem headN_append_absorb {L R S : List Nat} (h : R ≠ []) :
    headN (L ++ (R ++ S)) none = headN (L ++ R) none := by
  rw [headN_append, headN_append, headN_append, headN_irrel R h (headN S none) none]

/-- Invariant of the merge loop (list.c:841-886): the chain consists of an
untouched prefix P, the already-merged section D, the remaining left and
right partitions in place, and an untouched suffix S.  Each iteration either
declares the head of the remaining left partition in place or moves the head
of the remaining right partition in front of it, so the merged section grows
exactly as the abstract stable merge of the two partitions. -/
theorem mergeLoop_spec {cmp : α → α → Int} {key : Nat → α} (hlaws : CmpLaws cmp)
    (l_size r_size : Nat) :
    ∀ (fuel : Nat) (D Lr Rr P S : List Nat) (m : Mem α) (l r : Nat)
      (left right : Option Nat),
    fuel = Lr.length + Rr.length →
    D.length = l + r →
    l + Lr.length = l_size →
    r + Rr.length = r_size →
    1 ≤ l_size → l_size ≤ r_size →
    Rr ≠ [] →
    (Lr = [] → D ≠ []) →
    (D = [] → right = headN Rr none) →
    left = headN D (headN Lr none) →
    seg m none (P ++ (D ++ (Lr ++ (Rr ++ S)))) none →
    (P ++ (D ++ (Lr ++ (Rr ++ S)))).Nodup →
    (∀ j, j ∈ Lr ++ Rr → (m.heap j).map NodeRec.data = some (key j)) →
    ∃ m', mergeLoop cmp l_size r_size fuel (l + r) l r m
        (headN (Lr ++ Rr) none) (headN Rr none) left right
        = some (m', headN (D ++ Lr.merge Rr (cmpLe cmp key)) none,
            lastN none (D ++ Lr.merge Rr (cmpLe cmp key))) ∧
      seg m' none (P ++ (D ++ (Lr.merge Rr (cmpLe cmp key) ++ S))) none ∧
      sameData m m' := by
  intro fuel
  induction fuel with
  | zero =>
    intro D Lr Rr P S m l r left right hfuel _ _ _ _ _ hRr _ _ _ _ _ _
    exfalso
    rcases Rr with _ | ⟨x, t⟩
    · exact hRr rfl
    · simp only [List.length_cons] at hfuel
      omega
  | succ n ih =>
    intro D Lr Rr P S m l r left right hfuel hDlen hl hr hls1 hlr hRr hLrD hright
      hleft hseg hnodup hkey
    rcases Rr with _ | ⟨rp0, Rr'⟩
    · exact absurd rfl hRr
    cases Lr with
    | nil =>
      have hD : D ≠ [] := hLrD rfl
      have hl' : l = l_size := by simpa using hl
      have hk0 := hkey rp0 (by simp)
      cases hh : m.heap rp0 with
      | none => rw [hh] at hk0; cases hk0
      | some nd =>
      rw [hh] at hk0
      have hdata : nd.data = key rp0 := by simpa using hk0
      have hsub : seg m (lastN (lastN none P) D) (rp0 :: Rr') (headN S none) := by
        rcases (seg_append m P _).mp hseg with ⟨_, h2⟩
        rcases (seg_append m D _).mp h2 with ⟨_, h3⟩
        simp only [List.nil_append] at h3
        exact ((seg_append m (rp0 :: Rr') S).mp h3).1
      obtain ⟨R1, rl, hR⟩ : ∃ R1 rl, rp0 :: Rr' = R1 ++ [rl] := by
        rcases (rp0 :: Rr').eq_nil_or_concat with h | ⟨R1, rl, h⟩
        · cases h
        · exact ⟨R1, rl, by rw [h, List.concat_eq_append]⟩
      have hwalk : walkNext m (some rp0) (r_size - 1 - r) = some (some rl) := by
        have := walkNext_seg hsub Rr'.length (by simp)
        rw [show r_size - 1 - r = Rr'.length from by
          simp only [List.length_cons] at hr; omega]
        rw [show (some rp0 : Option Nat) = headN (rp0 :: Rr') (headN S none) from rfl]
        rw [this, hR]
        rw [show Rr'.length = R1.length from by
          have := congrArg List.length hR
          simp at this
          omega]
        rw [List.drop_left]
        rfl
      refine ⟨m, ?_, ?_, sameData_refl m⟩
      · simp only [List.nil_append, headN_cons, mergeLoop, Option.bind_eq_bind,
          Option.some_bind]
        rw [show m.get rp0 = some nd from hh]
        simp only [Option.some_bind, hdata]
        rw [if_pos (Or.inr (hlaws.self_eq_zero (key rp0)))]
        rw [if_neg (by
          rintro ⟨h1, _⟩
          omega)]
        rw [if_pos hl']
        rw [hwalk]
        simp only [Option.some_bind, List.nil_merge]
        rw [hleft]
        simp only [List.nil_append, headN_nil]
        rw [headN_absorb hD]
        rw [show lastN none (D ++ rp0 :: Rr') = some rl from by
          rw [lastN_append, lastN_irrel (rp0 :: Rr') (by simp) (lastN none D) none, hR,
            lastN_concat]]
      · simp only [List.nil_merge, List.nil_append] at hseg ⊢
        exact hseg
    | cons lp0 Lr' =>
      have hklp := hkey lp0 (by simp)
      have hkrp := hkey rp0 (by simp)
      cases hhl : m.heap lp0 with
      | none => rw [hhl] at hklp; cases hklp
      | some ndl =>
      cases hhr : m.heap rp0 with
      | none => rw [hhr] at hkrp; cases hkrp
      | some ndr =>
      rw [hhl] at hklp
      rw [hhr] at hkrp
      have hdatal : ndl.data = key lp0 := by simpa using hklp
      have hdatar : ndr.data = key rp0 := by simpa using hkrp
      by_cases hc : cmp (key lp0) (key rp0) = -1 ∨ cmp (key lp0) (key rp0) = 0
      · -- left element stays in place
        have hmerge : (lp0 :: Lr').merge (rp0 :: Rr') (cmpLe cmp key)
            = lp0 :: Lr'.merge (rp0 :: Rr') (cmpLe cmp key) :=
          List.cons_merge_cons_pos _ _ _ (cmpLe_true_iff.mpr hc)
        by_cases hsp : l + r = 0 ∧ l_size + r_size = 2
        · -- both partitions are singletons and already ordered
          have hD0 : D = [] := List.length_eq_zero.mp (by omega)
          have hLr0 : Lr' = [] := List.length_eq_zero.mp (by
            simp only [List.length_cons] at hl hr
            omega)
          have hRr0 : Rr' = [] := List.length_eq_zero.mp (by
            simp only [List.length_cons] at hl hr
            omega)
          subst hD0 hLr0 hRr0
          refine ⟨m, ?_, ?_, sameData_refl m⟩
          · simp only [List.cons_append, List.nil_append, headN_cons, mergeLoop,
              Option.bind_eq_bind, Option.some_bind]
            rw [show m.get lp0 = some ndl from hhl, show m.get rp0 = some ndr from hhr]
            simp only [Option.some_bind, hdatal, hdatar]
            rw [if_pos hc, if_pos hsp, hmerge]
            simp only [List.nil_merge]
            rw [hleft, hright rfl]
            rfl
          · rw [hmerge]
            simp only [List.nil_merge, List.nil_append] at hseg ⊢
            simpa using hseg
        · -- general step: advance the left pointer
          have hlne : ¬ l = l_size := by
            simp only [List.length_cons] at hl
            omega
          have hlpnext : hasLinks m lp0 (lastN (lastN (lastN none P) D) [])
              (headN (Lr' ++ ((rp0 :: Rr') ++ S)) none) := by
            have hd : seg m none
                ((P ++ D) ++ lp0 :: (Lr' ++ ((rp0 :: Rr') ++ S))) none := by
              rw [show (P ++ D) ++ lp0 :: (Lr' ++ ((rp0 :: Rr') ++ S))
                  = P ++ (D ++ ((lp0 :: Lr') ++ ((rp0 :: Rr') ++ S))) by simp]
              exact hseg
            have := seg_links_of_decomp hd
            simpa [lastN_append] using this
          rcases hasLinks_elim hlpnext with ⟨ndl2, hhl2, _, hnext2⟩
          have hndl2 : ndl2 = ndl := by
            rw [hhl] at hhl2
            exact (Option.some.injEq _ _).mp hhl2.symm
          rw [hndl2] at hnext2
          obtain ⟨m2, hcall, hseg2, hsame2⟩ :=
            ih (D ++ [lp0]) Lr' (rp0 :: Rr') P S m (l + 1) r left right
              (by simp only [List.length_cons] at hfuel ⊢; omega)
              (by simp; omega)
              (by simp only [List.length_cons] at hl; omega)
              hr hls1 hlr (by simp) (fun _ => by simp)
              (fun h => absurd h (by simp))
              (by rw [hleft, headN_append]; rfl)
              (by
                have e : P ++ ((D ++ [lp0]) ++ (Lr' ++ ((rp0 :: Rr') ++ S)))
                    = P ++ (D ++ ((lp0 :: Lr') ++ ((rp0 :: Rr') ++ S))) := by simp
                rw [e]
                exact hseg)
              (by
                have e : P ++ ((D ++ [lp0]) ++ (Lr' ++ ((rp0 :: Rr') ++ S)))
                    = P ++ (D ++ ((lp0 :: Lr') ++ ((rp0 :: Rr') ++ S))) := by simp
                rw [e]
                exact hnodup)
              (fun j hj => hkey j (by
                rcases List.mem_append.mp hj with h | h
                · exact List.mem_append_left _ (List.mem_cons_of_mem _ h)
                · exact List.mem_append_right _ h))
          refine ⟨m2, ?_, ?_, hsame2⟩
          · simp only [List.cons_append, headN_cons, mergeLoop,
              Option.bind_eq_bind, Option.some_bind]
            rw [show m.get lp0 = some ndl from hhl, show m.get rp0 = some ndr from hhr]
            simp only [Option.some_bind, hdatal, hdatar]
            rw [if_pos hc, if_neg hsp, if_neg hlne]
            rw [show m.getNext lp0 = some (headN (Lr' ++ ((rp0 :: Rr') ++ S)) none)
                from by simp [Mem.getNext, Mem.get, hhl, hnext2]]
            simp only [Option.some_bind]
            rw [show l + r + 1 = l + 1 + r from by omega,
              headN_append_absorb (show rp0 :: Rr' ≠ [] from by simp)]
            simp only [headN_cons] at hcall
            rw [hcall, hmerge]
            rw [show (D ++ [lp0]) ++ Lr'.merge (rp0 :: Rr') (cmpLe cmp key)
                = D ++ lp0 :: Lr'.merge (rp0 :: Rr') (cmpLe cmp key) by simp]
          · rw [hmerge]
            rw [show P ++ (D ++ ((lp0 :: Lr'.merge (rp0 :: Rr') (cmpLe cmp key)) ++ S))
                = P ++ ((D ++ [lp0]) ++ (Lr'.merge (rp0 :: Rr') (cmpLe cmp key) ++ S))
                by simp]
            exact hseg2
      · -- right element is moved in front of the left pointer
        have hle : ¬ cmpLe cmp key lp0 rp0 = true := by
          intro h
          exact hc (cmpLe_true_iff.mp h)
        have hmerge : (lp0 :: Lr').merge (rp0 :: Rr') (cmpLe cmp key)
            = rp0 :: (lp0 :: Lr').merge Rr' (cmpLe cmp key) :=
          List.cons_merge_cons_neg _ _ _ hle
        have hd2 : seg m none (((P ++ D) ++ (lp0 :: Lr')) ++ rp0 :: (Rr' ++ S)) none := by
          have e : ((P ++ D) ++ (lp0 :: Lr')) ++ rp0 :: (Rr' ++ S)
              = P ++ (D ++ ((lp0 :: Lr') ++ ((rp0 :: Rr') ++ S))) := by simp
          rw [e]
          exact hseg
        rcases hasLinks_elim (seg_links_of_decomp hd2) with ⟨ndr2, hhr2, _, hnextr⟩
        have hndr2 : ndr2 = ndr := by
          rw [hhr] at hhr2
          exact (Option.some.injEq _ _).mp hhr2.symm
        rw [hndr2] at hnextr
        have eM : (P ++ D) ++ lp0 :: (Lr' ++ rp0 :: (Rr' ++ S))
            = P ++ (D ++ ((lp0 :: Lr') ++ ((rp0 :: Rr') ++ S))) := by simp
        obtain ⟨m1, hlink, hseg1, hsame1⟩ :=
          link_behind_move
            (show seg m none ((P ++ D) ++ lp0 :: (Lr' ++ rp0 :: (Rr' ++ S))) none from by
              rw [eM]; exact hseg)
            (show ((P ++ D) ++ lp0 :: (Lr' ++ rp0 :: (Rr' ++ S))).Nodup from by
              rw [eM]; exact hnodup)
        by_cases hsp : l + r = 0 ∧ l_size + r_size = 2
        · -- first comparison on a two-element section: heads are traded
          have hD0 : D = [] := List.length_eq_zero.mp (by omega)
          have hLr0 : Lr' = [] := List.length_eq_zero.mp (by
            simp only [List.length_cons] at hl hr
            omega)
          have hRr0 : Rr' = [] := List.length_eq_zero.mp (by
            simp only [List.length_cons] at hl hr
            omega)
          subst hD0 hLr0 hRr0
          refine ⟨m1, ?_, ?_, hsame1⟩
          · simp only [List.cons_append, List.nil_append, headN_cons, mergeLoop,
              Option.bind_eq_bind, Option.some_bind]
            rw [show m.get lp0 = some ndl from hhl, show m.get rp0 = some ndr from hhr]
            simp only [Option.some_bind, hdatal, hdatar]
            rw [if_neg hc, hlink]
            simp only [Option.some_bind]
            rw [if_pos hsp, hmerge]
            simp only [List.merge_right]
            rfl
          · rw [hmerge]
            simp only [List.merge_right]
            simp only [List.nil_append, List.append_nil] at hseg1 ⊢
            simpa using hseg1
        · by_cases hrr : r + 1 = r_size
          · -- the right partition is exhausted: fast-forward the left pointer
            have hRr0 : Rr' = [] := List.length_eq_zero.mp (by
              simp only [List.length_cons] at hr
              omega)
            subst hRr0
            have hD : D ≠ [] := by
              intro h0
              rw [h0] at hDlen
              simp only [List.length_nil] at hDlen
              refine hsp ⟨by omega, by
                simp only [List.length_cons, List.length_nil] at hr
                omega⟩
            obtain ⟨L1, ll, hL⟩ : ∃ L1 ll, lp0 :: Lr' = L1 ++ [ll] := by
              rcases (lp0 :: Lr').eq_nil_or_concat with h | ⟨L1, ll, h⟩
              · cases h
              · exact ⟨L1, ll, by rw [h, List.concat_eq_append]⟩
            have hsub1 : seg m1 (lastN none ((P ++ D) ++ [rp0])) (lp0 :: (Lr' ++ S)) none := by
              have h' := hseg1
              have e : (P ++ D) ++ rp0 :: lp0 :: (Lr' ++ ([] ++ S))
                  = ((P ++ D) ++ [rp0]) ++ (lp0 :: (Lr' ++ S)) := by simp
              rw [e] at h'
              exact ((seg_append m1 ((P ++ D) ++ [rp0]) _).mp h').2
            have hwalkL : walkNext m1 (some lp0) (l_size - 1 - l) = some (some ll) := by
              have hw := walkNext_seg hsub1 Lr'.length (by
                simp only [List.length_cons, List.length_append]
                omega)
              rw [show l_size - 1 - l = Lr'.length from by
                simp only [List.length_cons] at hl
                omega]
              rw [show (some lp0 : Option Nat) = headN (lp0 :: (Lr' ++ S)) none from rfl]
              rw [hw]
              rw [show lp0 :: (Lr' ++ S) = L1 ++ ([ll] ++ S) from by
                rw [← List.append_assoc, ← hL]
                simp]
              rw [show Lr'.length = L1.length from by
                have := congrArg List.length hL
                simp at this
                omega]
              rw [List.drop_left]
              rfl
            refine ⟨m1, ?_, ?_, hsame1⟩
            · simp only [List.cons_append, headN_cons, mergeLoop,
                Option.bind_eq_bind, Option.some_bind]
              rw [show m.get lp0 = some ndl from hhl, show m.get rp0 = some ndr from hhr]
              simp only [Option.some_bind, hdatal, hdatar]
              rw [if_neg hc, hlink]
              simp only [Option.some_bind]
              rw [if_neg hsp, if_pos hrr, hwalkL]
              simp only [Option.some_bind]
              rw [hmerge]
              simp only [List.merge_right]
              have hhead : headN (D ++ rp0 :: lp0 :: Lr') none = left := by
                rw [headN_append, hleft]
                exact headN_irrel D hD _ _
              have hlast : lastN none (D ++ rp0 :: lp0 :: Lr') = some ll := by
                rw [lastN_append, lastN_irrel (rp0 :: lp0 :: Lr') (by simp) (lastN none D) none]
                rw [show rp0 :: lp0 :: Lr' = (rp0 :: L1) ++ [ll] from by
                  rw [hL, List.cons_append]]
                rw [lastN_concat]
              rw [hhead, hlast]
            · rw [hmerge]
              simp only [List.merge_right]
              have e : P ++ (D ++ ((rp0 :: lp0 :: Lr') ++ S))
                  = (P ++ D) ++ rp0 :: lp0 :: (Lr' ++ ([] ++ S)) := by simp
              rw [e]
              exact hseg1
          · -- general step: the moved element joins the done prefix
            have hRrne : Rr' ≠ [] := by
              intro h0
              rw [h0] at hr
              simp only [List.length_cons, List.length_nil] at hr
              exact hrr (by omega)
            obtain ⟨m2, hcall, hseg2, hsame2⟩ :=
              ih (D ++ [rp0]) (lp0 :: Lr') Rr' P S m1 l (r + 1)
                (if l + r = 0 then some rp0 else left) right
                (by simp only [List.length_cons] at hfuel ⊢; omega)
                (by simp; omega)
                hl
                (by simp only [List.length_cons] at hr; omega)
                hls1 hlr hRrne
                (fun h => absurd h (by simp))
                (fun h => absurd h (by simp))
                (by
                  by_cases h0 : l + r = 0
                  · rw [if_pos h0]
                    have hD0 : D = [] := List.length_eq_zero.mp (by omega)
                    rw [hD0]
                    rfl
                  · rw [if_neg h0]
                    have hD0 : D ≠ [] := by
                      intro h1
                      rw [h1] at hDlen
                      simp only [List.length_nil] at hDlen
                      omega
                    rw [hleft, headN_append]
                    exact headN_irrel D hD0 _ _)
                (by
                  have e : P ++ ((D ++ [rp0]) ++ ((lp0 :: Lr') ++ (Rr' ++ S)))
                      = (P ++ D) ++ rp0 :: lp0 :: (Lr' ++ (Rr' ++ S)) := by simp
                  rw [e]
                  exact hseg1)
                (by
                  refine List.Perm.nodup ?_ hnodup
                  have e1 : P ++ (D ++ ((lp0 :: Lr') ++ ((rp0 :: Rr') ++ S)))
                      = P ++ (D ++ ((lp0 :: Lr') ++ rp0 :: (Rr' ++ S))) := by simp
                  have e2 : P ++ ((D ++ [rp0]) ++ ((lp0 :: Lr') ++ (Rr' ++ S)))
                      = P ++ (D ++ rp0 :: ((lp0 :: Lr') ++ (Rr' ++ S))) := by simp
                  rw [e1, e2]
                  exact List.Perm.append_left P (List.Perm.append_left D List.perm_middle))
                (fun j hj => by
                  rw [hsame1.2 j]
                  exact hkey j (by
                    rcases List.mem_append.mp hj with h | h
                    · exact List.mem_append_left _ h
                    · exact List.mem_append_right _ (List.mem_cons_of_mem _ h)))
            refine ⟨m2, ?_, ?_, sameData_trans hsame1 hsame2⟩
            · simp only [List.cons_append, headN_cons, mergeLoop,
                Option.bind_eq_bind, Option.some_bind]
              rw [show m.get lp0 = some ndl from hhl, show m.get rp0 = some ndr from hhr]
              simp only [Option.some_bind, hdatal, hdatar]
              rw [if_neg hc, hlink]
              simp only [Option.some_bind]
              rw [if_neg hsp, if_neg hrr, hnextr]
              rw [headN_absorb hRrne]
              rw [show l + r + 1 = l + (r + 1) from by omega]
              simp only [List.cons_append, headN_cons] at hcall
              rw [hcall, hmerge]
              rw [show (D ++ [rp0]) ++ (lp0 :: Lr').merge Rr' (cmpLe cmp key)
                  = D ++ rp0 :: (lp0 :: Lr').merge Rr' (cmpLe cmp key) from by simp]
            · rw [hmerge]
              have e : P ++ (D ++ ((rp0 :: (lp0 :: Lr').merge Rr' (cmpLe cmp key)) ++ S))
                  = P ++ ((D ++ [rp0]) ++ ((lp0 :: Lr').merge Rr' (cmpLe cmp key) ++ S)) := by
                simp
              rw [e]
              exact hseg2

theorem cmpLe_total {cmp : α → α → Int} {key : Nat → α} (hlaws : CmpLaws cmp) :
    ∀ a b : Nat, (cmpLe cmp key a b || cmpLe cmp key b a) = true := by
  intro a b
  rcases hlaws.1 (key a) (key b) with h | h | h
  · simp [cmpLe, h]
  · simp [cmpLe, h]
  · have hba : cmp (key b) (key a) = -1 := by
      rw [hlaws.2.1 (key a) (key b), h]
    simp [cmpLe, hba]

theorem cmpLe_trans {cmp : α → α → Int} {key : Nat → α} (hlaws : CmpLaws cmp) :
    ∀ a b c : Nat, cmpLe cmp key a b = true → cmpLe cmp key b c = true →
      cmpLe cmp key a c = true := by
  intro a b c hab hbc
  rw [cmpLe_true_iff] at hab hbc ⊢
  have h1 : cmp (key a) (key b) ≤ 0 := by rcases hab with h | h <;> omega
  have h2 : cmp (key b) (key c) ≤ 0 := by rcases hbc with h | h <;> omega
  have h3 := hlaws.2.2 _ _ _ h1 h2
  rcases hlaws.1 (key a) (key c) with h | h | h
  · exact Or.inl h
  · exact Or.inr h
  · omega

theorem merge_spec {cmp : α → α → Int} {key : Nat → α} (hlaws : CmpLaws cmp)
    {m : Mem α} {P L R S : List Nat} {l_size r_size : Nat}
    (hL : L.length = l_size) (hR : R.length = r_size)
    (hls1 : 1 ≤ l_size) (hlr : l_size ≤ r_size)
    (hseg : seg m none (P ++ (L ++ (R ++ S))) none)
    (hnodup : (P ++ (L ++ (R ++ S))).Nodup)
    (hkey : ∀ j ∈ L ++ R, (m.heap j).map NodeRec.data = some (key j)) :
    ∃ m', merge m (headN L none) (headN R none) l_size r_size cmp
        = some (m', headN (L.merge R (cmpLe cmp key)) none,
            lastN none (L.merge R (cmpLe cmp key))) ∧
      seg m' none (P ++ (L.merge R (cmpLe cmp key) ++ S)) none ∧ sameData m m' := by
  have hLne : L ≠ [] := by
    intro h
    rw [h] at hL
    simp only [List.length_nil] at hL
    omega
  have hRne : R ≠ [] := by
    intro h
    rw [h] at hR
    simp only [List.length_nil] at hR
    omega
  obtain ⟨m', h1, h2, h3⟩ :=
    mergeLoop_spec hlaws l_size r_size (l_size + r_size) [] L R P S m 0 0
      (headN L none) (headN R none)
      (by rw [hL, hR])
      rfl
      (by simp [hL])
      (by simp [hR])
      hls1 hlr hRne
      (fun h => absurd h hLne)
      (fun _ => rfl)
      rfl
      (by simp only [List.nil_append]; exact hseg)
      (by simp only [List.nil_append]; exact hnodup)
      hkey
  rw [headN_absorb hLne] at h1
  simp only [Nat.add_zero, List.nil_append] at h1
  refine ⟨m', ?_, ?_, h3⟩
  · unfold merge
    exact h1
  · simp only [List.nil_append] at h2
    exact h2

theorem filter_merge_stable {cmp : α → α → Int} {key : Nat → α} (hlaws : CmpLaws cmp)
    (x : α) :
    ∀ (n : Nat) (L R : List Nat), L.length + R.length ≤ n →
      List.Pairwise (fun a b => cmpLe cmp key a b = true) L →
      (L.merge R (cmpLe cmp key)).filter (fun t => cmp (key t) x == 0)
        = L.filter (fun t => cmp (key t) x == 0)
          ++ R.filter (fun t => cmp (key t) x == 0) := by
  intro n
  induction n with
  | zero =>
    intro L R hn _
    have hL : L = [] := List.length_eq_zero.mp (by omega)
    have hR : R = [] := List.length_eq_zero.mp (by omega)
    subst hL hR
    simp [List.nil_merge]
  | succ n ih =>
    intro L R hn hsorted
    cases L with
    | nil => simp [List.nil_merge]
    | cons a L' =>
      cases R with
      | nil => simp [List.merge_right]
      | cons b R' =>
        rcases List.pairwise_cons.mp hsorted with ⟨haL, hsorted'⟩
        by_cases hab : cmpLe cmp key a b = true
        · rw [List.cons_merge_cons_pos _ _ _ hab]
          rw [List.filter_cons, List.filter_cons]
          have hrec := ih L' (b :: R')
            (by simp only [List.length_cons] at hn ⊢; omega) hsorted'
          by_cases hpa : (cmp (key a) x == 0) = true
          · rw [if_pos hpa, if_pos hpa, hrec, List.cons_append]
          · rw [if_neg hpa, if_neg hpa, hrec]
        · rw [List.cons_merge_cons_neg _ _ _ hab]
          have hab1 : cmp (key a) (key b) = 1 := by
            rcases hlaws.1 (key a) (key b) with h | h | h
            · exact absurd (cmpLe_true_iff.mpr (Or.inl h)) hab
            · exact absurd (cmpLe_true_iff.mpr (Or.inr h)) hab
            · exact h
          have hrec := ih (a :: L') R'
            (by simp only [List.length_cons] at hn ⊢; omega) hsorted
          by_cases hpb : (cmp (key b) x == 0) = true
          · -- an equal-class element from the right cannot be emitted while
            -- a class element is still pending on the sorted left side
            have hbx : cmp (key b) x = 0 := by simpa using hpb
            have hnone : ∀ c ∈ a :: L', ¬ (cmp (key c) x == 0) = true := by
              intro c hc hpc
              have hcx : cmp (key c) x = 0 := by simpa using hpc
              have hac : cmp (key a) (key c) ≤ 0 := by
                rcases List.mem_cons.mp hc with h | h
                · rw [h]
                  have := hlaws.self_eq_zero (key a)
                  omega
                · have := cmpLe_true_iff.mp (haL c h)
                  rcases this with h' | h' <;> omega
              have hcb : cmp (key c) (key b) ≤ 0 := by
                have hxb : cmp x (key b) = 0 := by
                  rw [hlaws.2.1 (key b) x, hbx]
                  rfl
                exact hlaws.2.2 (key c) x (key b) (by omega) (by omega)
              have := hlaws.2.2 _ _ _ hac hcb
              omega
            have hfa : (a :: L').filter (fun t => cmp (key t) x == 0) = [] :=
              List.filter_eq_nil_iff.mpr hnone
            rw [List.filter_cons, if_pos hpb, hrec, hfa]
            rw [List.filter_cons, if_pos hpb]
            rfl
          · rw [List.filter_cons, if_neg hpb, hrec]
            rw [show List.filter (fun t => cmp (key t) x == 0) (b :: R')
                = List.filter (fun t => cmp (key t) x == 0) R' from by
              rw [List.filter_cons, if_neg hpb]]

theorem sortIds_perm (cmp : α → α → Int) (key : Nat → α) :
    ∀ fuel ids, (sortIds cmp key fuel ids).Perm ids := by
  intro fuel
  induction fuel with
  | zero => intro ids; exact List.Perm.refl _
  | succ n ih =>
    intro ids
    rw [sortIds]
    by_cases h2 : ids.length < 2
    · rw [if_pos h2]
    · rw [if_neg h2]
      refine (List.merge_perm_append _).trans ?_
      refine ((ih _).append (ih _)).trans ?_
      rw [List.take_append_drop]

theorem sortIds_sorted {cmp : α → α → Int} {key : Nat → α} (hlaws : CmpLaws cmp) :
    ∀ fuel ids, ids.length ≤ fuel →
      List.Pairwise (fun a b => cmpLe cmp key a b = true) (sortIds cmp key fuel ids) := by
  intro fuel
  induction fuel with
  | zero =>
    intro ids hn
    have h : ids = [] := List.length_eq_zero.mp (by omega)
    subst h
    exact List.Pairwise.nil
  | succ n ih =>
    intro ids hn
    rw [sortIds]
    by_cases h2 : ids.length < 2
    · rw [if_pos h2]
      rcases ids with _ | ⟨a, _ | ⟨b, t⟩⟩
      · exact List.Pairwise.nil
      · simp
      · simp only [List.length_cons] at h2; omega
    · rw [if_neg h2]
      refine List.sorted_merge (cmpLe_trans hlaws) (cmpLe_total hlaws) _ _ ?_ ?_
      · exact ih _ (by
          rw [List.length_take]
          omega)
      · exact ih _ (by
          rw [List.length_drop]
          omega)

theorem sortIds_filter {cmp : α → α → Int} {key : Nat → α} (hlaws : CmpLaws cmp)
    (x : α) :
    ∀ fuel ids, ids.length ≤ fuel →
      (sortIds cmp key fuel ids).filter (fun t => cmp (key t) x == 0)
        = ids.filter (fun t => cmp (key t) x == 0) := by
  intro fuel
  induction fuel with
  | zero => intro ids _; rfl
  | succ n ih =>
    intro ids hn
    rw [sortIds]
    by_cases h2 : ids.length < 2
    · rw [if_pos h2]
    · rw [if_neg h2]
      rw [filter_merge_stable hlaws x
            ((ids.take (ids.length / 2)).length + (ids.drop (ids.length / 2)).length)
            _ _ (by
              rw [(sortIds_perm cmp key n _).length_eq, (sortIds_perm cmp key n _).length_eq])
            (sortIds_sorted hlaws n _ (by rw [List.length_take]; omega))]
      rw [ih _ (by rw [List.length_take]; omega), ih _ (by rw [List.length_drop]; omega)]
      rw [← List.filter_append, List.take_append_drop]

theorem split_res_size (li : ListS) (c : Prop) [Decidable c] (h t : Option Nat) :
    (if c then (⟨li.size, h, t⟩ : ListS) else li).size = li.size := by
  by_cases hc : c
  · rw [if_pos hc]
  · rw [if_neg hc]

theorem split_spec {cmp : α → α → Int} {key : Nat → α} (hlaws : CmpLaws cmp) :
    ∀ (fuel : Nat) (ids X Z : List Nat) (m : Mem α) (li : ListS),
      ids.length ≤ fuel →
      seg m none (X ++ (ids ++ Z)) none →
      (X ++ (ids ++ Z)).Nodup →
      (∀ j ∈ ids, (m.heap j).map NodeRec.data = some (key j)) →
      ∃ m', split cmp fuel m li (headN (ids ++ Z) none) ids.length
          = some (m',
              (if 2 ≤ ids.length
                then (⟨li.size, headN (sortIds cmp key fuel ids) none,
                      lastN none (sortIds cmp key fuel ids)⟩ : ListS)
                else li),
              headN (sortIds cmp key fuel ids ++ Z) none) ∧
        seg m' none (X ++ (sortIds cmp key fuel ids ++ Z)) none ∧ sameData m m' := by
  intro fuel
  induction fuel with
  | zero =>
    intro ids X Z m li hn hseg hnodup _
    have h0 : ids = [] := List.length_eq_zero.mp (by omega)
    subst h0
    refine ⟨m, ?_, hseg, sameData_refl m⟩
    rw [split]
    rw [if_pos (by simp)]
    rw [if_neg (by simp)]
    rfl
  | succ n ih =>
    intro ids X Z m li hn hseg hnodup hkey
    by_cases h2 : ids.length < 2
    · refine ⟨m, ?_, ?_, sameData_refl m⟩
      · rw [split]
        rw [if_pos h2, if_neg (by omega)]
        rw [show sortIds cmp key (n + 1) ids = ids from by rw [sortIds, if_pos h2]]
      · rw [show sortIds cmp key (n + 1) ids = ids from by rw [sortIds, if_pos h2]]
        exact hseg
    · -- recursive case: sort both halves, then merge
      have hsub : seg m (lastN none X) (ids ++ Z) none := ((seg_append m X _).mp hseg).2
      have hwalk : walkNext m (headN (ids ++ Z) none) (ids.length / 2)
          = some (headN (ids.drop (ids.length / 2) ++ Z) none) := by
        have hw := walkNext_seg hsub (ids.length / 2) (by
          rw [List.length_append]
          omega)
        rw [hw, List.drop_append_of_le_length (by omega)]
      have htl : (ids.take (ids.length / 2)).length = ids.length / 2 := by
        rw [List.length_take]
        omega
      have hdl : (ids.drop (ids.length / 2)).length = ids.length / 2 + ids.length % 2 := by
        rw [List.length_drop]
        omega
      have esplit : ids.take (ids.length / 2) ++ (ids.drop (ids.length / 2) ++ Z)
          = ids ++ Z := by
        rw [← List.append_assoc, List.take_append_drop]
      obtain ⟨m1, hcall1, hseg1, hsame1⟩ :=
        ih (ids.take (ids.length / 2)) X (ids.drop (ids.length / 2) ++ Z) m li
          (by rw [htl]; omega)
          (by rw [esplit]; exact hseg)
          (by rw [esplit]; exact hnodup)
          (fun j hj => hkey j ((List.take_sublist _ _).subset hj))
      rw [htl, esplit] at hcall1
      obtain ⟨m2, hcall2, hseg2, hsame2⟩ :=
        ih (ids.drop (ids.length / 2)) (X ++ sortIds cmp key n (ids.take (ids.length / 2)))
          Z m1
          (if 2 ≤ ids.length / 2
            then (⟨li.size, headN (sortIds cmp key n (ids.take (ids.length / 2))) none,
                  lastN none (sortIds cmp key n (ids.take (ids.length / 2)))⟩ : ListS)
            else li)
          (by rw [hdl]; omega)
          (by rw [List.append_assoc]; exact hseg1)
          (by
            refine List.Perm.nodup ?_ hnodup
            rw [show X ++ (ids ++ Z)
                = X ++ (ids.take (ids.length / 2) ++ (ids.drop (ids.length / 2) ++ Z)) from by
              rw [esplit]]
            rw [List.append_assoc]
            exact List.Perm.append_left X
              (((sortIds_perm cmp key n _).symm).append (List.Perm.refl _)))
          (fun j hj => by
            rw [hsame1.2 j]
            exact hkey j ((List.drop_sublist _ _).subset hj))
      rw [hdl] at hcall2
      have hT'len : (sortIds cmp key n (ids.take (ids.length / 2))).length
          = ids.length / 2 := by
        rw [(sortIds_perm cmp key n _).length_eq, htl]
      have hR'len : (sortIds cmp key n (ids.drop (ids.length / 2))).length
          = ids.length / 2 + ids.length % 2 := by
        rw [(sortIds_perm cmp key n _).length_eq, hdl]
      have hT'ne : sortIds cmp key n (ids.take (ids.length / 2)) ≠ [] := by
        intro h
        rw [h] at hT'len
        simp only [List.length_nil] at hT'len
        omega
      have hR'ne : sortIds cmp key n (ids.drop (ids.length / 2)) ≠ [] := by
        intro h
        rw [h] at hR'len
        simp only [List.length_nil] at hR'len
        omega
      obtain ⟨m3, hcall3, hseg3, hsame3⟩ :=
        merge_spec hlaws hT'len hR'len (by omega) (by omega)
          (by rw [← List.append_assoc]; exact hseg2)
          (by
            refine List.Perm.nodup ?_ hnodup
            rw [show X ++ (ids ++ Z)
                = X ++ (ids.take (ids.length / 2) ++ (ids.drop (ids.length / 2) ++ Z)) from by
              rw [esplit]]
            exact List.Perm.append_left X
              (((sortIds_perm cmp key n _).symm).append
                ((((sortIds_perm cmp key n _).symm)).append (List.Perm.refl Z))))
          (fun j hj => by
            rw [hsame2.2 j, hsame1.2 j]
            refine hkey j ?_
            rcases List.mem_append.mp hj with h | h
            · exact (List.take_sublist _ _).subset
                ((sortIds_perm cmp key n _).mem_iff.mp h)
            · exact (List.drop_sublist _ _).subset
                ((sortIds_perm cmp key n _).mem_iff.mp h))
      have hsort : sortIds cmp key (n + 1) ids
          = (sortIds cmp key n (ids.take (ids.length / 2))).merge
              (sortIds cmp key n (ids.drop (ids.length / 2))) (cmpLe cmp key) := by
        rw [sortIds, if_neg h2]
      have hMne : (sortIds cmp key n (ids.take (ids.length / 2))).merge
          (sortIds cmp key n (ids.drop (ids.length / 2))) (cmpLe cmp key) ≠ [] := by
        intro h
        have := congrArg List.length h
        rw [List.length_merge, hT'len, hR'len] at this
        simp only [List.length_nil] at this
        omega
      refine ⟨m3, ?_, ?_, sameData_trans (sameData_trans hsame1 hsame2) hsame3⟩
      · rw [split]
        rw [if_neg h2]
        simp only [Option.bind_eq_bind]
        rw [hwalk]
        simp only [Option.some_bind]
        rw [hcall1]
        simp only [Option.some_bind]
        rw [hcall2]
        simp only [Option.some_bind]
        rw [headN_absorb hT'ne, headN_absorb hR'ne]
        rw [hcall3]
        simp only [Option.some_bind]
        rw [hsort]
        rw [if_pos (by omega : 2 ≤ ids.length)]
        rw [headN_absorb hMne]
        rw [split_res_size _ _ _ _, split_res_size _ _ _ _]
      · rw [hsort]
        exact hseg3

theorem headN_none_eq_head? (ids : List Nat) : headN ids none = ids.head? := by
  cases ids with
  | nil => rfl
  | cons i t => rfl

theorem lastN_none_eq_getLast? (ids : List Nat) : lastN none ids = ids.getLast? := by
  cases ids with
  | nil => rfl
  | cons i t =>
    exact lastN_eq_getLast? none (i :: t) (by simp)

theorem sortIds_small {cmp : α → α → Int} {key : Nat → α}
    (fuel : Nat) (ids : List Nat) (h : ids.length < 2) :
    sortIds cmp key fuel ids = ids := by
  cases fuel with
  | zero => rfl
  | succ n => rw [sortIds, if_pos h]

/-- C3: list_sort permutes the nodes into comparator-ascending order, stably,
and repoints head and tail at the first and last node of the sorted order. -/
theorem list_sort_sorts_stably {m : Mem α} {l : ListS} {ids : List Nat}
    {cmp : α → α → Int} (hwf : wf m l ids) (hlaws : CmpLaws cmp)
    (key : Nat → α)
    (hkey : ∀ j ∈ ids, (m.heap j).map NodeRec.data = some (key j)) :
    ∃ m' l', list_sort m l cmp = some (m', l') ∧
      wf m' l' (sortIds cmp key l.size ids) ∧
      (sortIds cmp key l.size ids).Perm ids ∧
      List.Pairwise
        (fun a b => cmp (key a) (key b) = -1 ∨ cmp (key a) (key b) = 0)
        (sortIds cmp key l.size ids) ∧
      (∀ x : α, (sortIds cmp key l.size ids).filter (fun t => cmp (key t) x == 0)
          = ids.filter (fun t => cmp (key t) x == 0)) ∧
      l'.head = (sortIds cmp key l.size ids).head? ∧
      l'.tail = (sortIds cmp key l.size ids).getLast? ∧
      l'.size = l.size ∧ sameData m m' := by
  obtain ⟨hseg0, hhead, htail, hsize, hnodup, hbound⟩ := hwf
  obtain ⟨m', hcall, hseg', hsame⟩ :=
    split_spec hlaws l.size ids [] [] m l
      (by omega)
      (by simpa using hseg0)
      (by simpa using hnodup)
      hkey
  have hperm : (sortIds cmp key l.size ids).Perm ids := sortIds_perm cmp key l.size ids
  have hlen' : (sortIds cmp key l.size ids).length = ids.length := hperm.length_eq
  refine ⟨m',
    (if 2 ≤ ids.length
      then (⟨l.size, headN (sortIds cmp key l.size ids) none,
            lastN none (sortIds cmp key l.size ids)⟩ : ListS)
      else l),
    ?_, ?_, hperm, ?_, ?_, ?_, ?_, ?_, hsame⟩
  · unfold list_sort
    rw [show l.head = headN (ids ++ []) none from by
      rw [List.append_nil, headN_none_eq_head?, hhead]]
    rw [hsize] at hcall ⊢
    rw [hcall]
    rfl
  · refine ⟨by simpa using hseg', ?_, ?_, ?_, hperm.symm.nodup hnodup, ?_⟩
    · by_cases hc : 2 ≤ ids.length
      · rw [if_pos hc, headN_none_eq_head?]
      · rw [if_neg hc, hhead, sortIds_small l.size ids (by omega)]
    · by_cases hc : 2 ≤ ids.length
      · rw [if_pos hc, lastN_none_eq_getLast?]
      · rw [if_neg hc, htail, sortIds_small l.size ids (by omega)]
    · by_cases hc : 2 ≤ ids.length
      · rw [if_pos hc, hlen']
        exact hsize
      · rw [if_neg hc, sortIds_small l.size ids (by omega), hsize]
    · intro i hi
      rw [hsame.1]
      exact hbound i (hperm.mem_iff.mp hi)
  · refine (sortIds_sorted hlaws l.size ids (by omega)).imp ?_
    intro a b h
    exact cmpLe_true_iff.mp h
  · intro x
    exact sortIds_filter hlaws x l.size ids (by omega)
  · by_cases hc : 2 ≤ ids.length
    · rw [if_pos hc]
      exact headN_none_eq_head? _
    · rw [if_neg hc, hhead, sortIds_small l.size ids (by omega)]
  · by_cases hc : 2 ≤ ids.length
    · rw [if_pos hc]
      exact lastN_none_eq_getLast? _
    · rw [if_neg hc, htail, sortIds_small l.size ids (by omega)]
  · by_cases hc : 2 ≤ ids.length
    · rw [if_pos hc]
    · rw [if_neg hc]

theorem cmpInt_laws : CmpLaws cmpInt := by
  refine ⟨?_, ?_, ?_⟩
  · intro x y
    unfold cmpInt
    split_ifs <;> simp
  · intro x y
    unfold cmpInt
    split_ifs <;> omega
  · intro x y z hxy hyz
    unfold cmpInt at hxy hyz ⊢
    split_ifs at hxy hyz ⊢ <;> omega

theorem list_sort_sorts_stably_witness :
    wf three312Mem three312L [0, 1, 2] ∧ CmpLaws cmpInt ∧
    (∀ j ∈ [0, 1, 2], (three312Mem.heap j).map NodeRec.data = some (key312 j)) ∧
    (∃ m' l', list_sort three312Mem three312L cmpInt = some (m', l') ∧
      wf m' l' (sortIds cmpInt key312 three312L.size [0, 1, 2]) ∧
      (sortIds cmpInt key312 three312L.size [0, 1, 2]).Perm [0, 1, 2] ∧
      List.Pairwise
        (fun a b => cmpInt (key312 a) (key312 b) = -1 ∨ cmpInt (key312 a) (key312 b) = 0)
        (sortIds cmpInt key312 three312L.size [0, 1, 2]) ∧
      (∀ x : Int,
        (sortIds cmpInt key312 three312L.size [0, 1, 2]).filter
            (fun t => cmpInt (key312 t) x == 0)
          = ([0, 1, 2] : List Nat).filter (fun t => cmpInt (key312 t) x == 0)) ∧
      l'.head = (sortIds cmpInt key312 three312L.size [0, 1, 2]).head? ∧
      l'.tail = (sortIds cmpInt key312 three312L.size [0, 1, 2]).getLast? ∧
      l'.size = three312L.size ∧ sameData three312Mem m') :=
  ⟨by decide, cmpInt_laws, by decide,
   list_sort_sorts_stably (by decide) cmpInt_laws key312 (by decide)⟩
